import Mathlib

/-!
# Verification of the KFS hierarchical page-table algorithms

Shallow embedding of `src/kernel/src/paging/hierarchical_table.rs`.

The Rust code is generic over an architecture providing `PAGE_SIZE` and
`ENTRY_COUNT`, and over a compile-time hierarchy of table types indexed by
`table_level()` (level 0 = leaf table mapping physical pages, level n+1 =
parent of level-n tables).  Following the spec's own design note ("reimplement
as an explicit runtime level carried per table plus one shared recursive
function; behavior must be identical regardless of encoding"), the embedding
carries the level as an explicit `Nat` and represents a table as a
`List Entry`.

An entry of a level-0 table is `available`, `guarded` or `frame p` (Present
with backing physical address `p`); an entry of a parent table is `available`,
`guarded` or `child t` (Present, pointing to a child table).  The Rust type
system makes a `frame` at a parent level or a `child` at level 0
unrepresentable; the embedding's operations return `none` on such entries
(they are excluded by the well-formedness predicate `wf_table` below).

Rust panics (failed `assert!`s, `panic!`s, and the trait-documented panics of
`create_child_table` on a non-parent table) are modelled as `none`: a panic
aborts the operation, so a `none` result stands for "the operation failed".
Entry flags are not modelled: no observable behaviour of the verified
operations depends on them (`pointed_frame` only reports the address).

`usize` arithmetic is modelled on `Nat`.  The subtraction `*length -= span`
in the Rust code is only executed under a check `span <= length` (or when
alignment of `length` guarantees it), so truncated `Nat` subtraction agrees
with it; `length.saturating_sub` in `for_every_entry` is exactly `Nat` sub.
-/

namespace KFS

/-- The arch-provided constants `ENTRY_COUNT` and `PAGE_SIZE`
(`super::arch::{PAGE_SIZE, ENTRY_COUNT}` in the source). -/
structure Arch where
  ENTRY_COUNT : Nat
  PAGE_SIZE : Nat
deriving DecidableEq

/-- PageState from the source: an entry is Available, Guarded, or Present
with a backing physical address. -/
inductive PageState where
  | Available : PageState
  | Guarded : PageState
  | Present : Nat → PageState
deriving DecidableEq

/-- One slot of one table.  `frame` is a Present entry of a leaf (level-0)
table, `child` a Present entry of a parent table pointing at a child table. -/
inductive Entry where
  | available : Entry
  | guarded : Entry
  | frame : Nat → Entry
  | child : List Entry → Entry

/-- `entry_vm_size()` of a level-`level` table:
`ENTRY_COUNT.pow(table_level) * PAGE_SIZE`. -/
def entry_vm_size (a : Arch) (level : Nat) : Nat :=
  a.ENTRY_COUNT ^ level * a.PAGE_SIZE

/-- The tri-state `pointed_frame()` view of an entry, for entries that are
representable at their level (used on level-0 entries and in
`for_every_entry`'s callback). -/
def entry_state : Entry → PageState
  | .available => .Available
  | .guarded => .Guarded
  | .frame p => .Present p
  | .child _ => .Available

/-- Well-formedness of one entry of a level-`level` table: leaf tables hold
no child pointers, parent tables hold no direct frames, child tables are
well-formed with exactly `ENTRY_COUNT` entries.  This is exactly what the
Rust type hierarchy guarantees by construction. -/
def wf_entry (a : Arch) : Nat → Entry → Bool
  | 0, .available => true
  | 0, .guarded => true
  | 0, .frame _ => true
  | 0, .child _ => false
  | _+1, .available => true
  | _+1, .guarded => true
  | _+1, .frame _ => false
  | l+1, .child t => t.length == a.ENTRY_COUNT && t.all fun e => wf_entry a l e

/-- A well-formed level-`level` table: `ENTRY_COUNT` well-formed entries. -/
def wf_table (a : Arch) (level : Nat) (t : List Entry) : Bool :=
  t.length == a.ENTRY_COUNT && t.all fun e => wf_entry a level e

/-- The pages spanned by one entry of a level-`level` table, in ascending
virtual-address order (`ENTRY_COUNT ^ level` pages for well-formed entries). -/
def flat_entry (a : Arch) : Nat → Entry → List PageState
  | 0, .available => [.Available]
  | 0, .guarded => [.Guarded]
  | 0, .frame p => [.Present p]
  | 0, .child _ => [.Available]
  | l+1, .available => List.replicate (a.ENTRY_COUNT ^ (l+1)) .Available
  | l+1, .guarded => List.replicate (a.ENTRY_COUNT ^ (l+1)) .Guarded
  | l+1, .frame p => List.replicate (a.ENTRY_COUNT ^ (l+1)) (.Present p)
  | l+1, .child t => (t.map fun e => flat_entry a l e).flatten

/-- The page-state sequence of a whole (suffix of a) level-`level` table, in
ascending virtual-address order. -/
def flat_table (a : Arch) (level : Nat) (t : List Entry) : List PageState :=
  (t.map fun e => flat_entry a level e).flatten

/-! ## map_to_from_iterator -/

/-- The `for index in entry_offset..ENTRY_COUNT` loop of `rec_map_to` on a
level-0 table, acting on the suffix of the table from `entry_offset`.
The frames iterator is a list; `peek().is_none()` is the list being empty.
An Available entry consumes one frame and becomes Present; any other entry
state is the `rec_map_to was asked to map a non-available entry` panic. -/
def map_go_zero (a : Arch) : List Entry → List Nat → Option (List Entry × List Nat)
  | entries, [] => some (entries, [])
  | [], fs => some ([], fs)
  | e :: rest, f :: fs =>
    match e with
    | .available =>
      (map_go_zero a rest fs).map fun r => (.frame f :: r.1, r.2)
    | _ => none

/-- The loop of `rec_map_to` on a level-`l+1` table, acting on the suffix
from `entry_offset`; `cs` is `child_start_address` (reset to 0 after the
first entry).  An Available entry gets a freshly zeroed child table
(`get_child_table_or_create`), a Present entry recurses into its existing
child via `recLower` (the `rec_map_to` of level `l`); a Guarded entry (or a
frame, unrepresentable at a parent level) is the panic arm. -/
def map_go_succ (a : Arch) (l : Nat)
    (recLower : List Entry → List Nat → Nat → Option (List Entry × List Nat)) :
    List Entry → List Nat → Nat → Option (List Entry × List Nat)
  | entries, [], _ => some (entries, [])
  | [], fs, _ => some ([], fs)
  | e :: rest, f :: fs, cs =>
    match e with
    | .available =>
      (recLower (List.replicate a.ENTRY_COUNT .available) (f :: fs) cs).bind fun c =>
        (map_go_succ a l recLower rest c.2 0).map fun r =>
          (.child c.1 :: r.1, r.2)
    | .child t =>
      (recLower t (f :: fs) cs).bind fun c =>
        (map_go_succ a l recLower rest c.2 0).map fun r =>
          (.child c.1 :: r.1, r.2)
    | _ => none

/-- `rec_map_to`: computes `entry_offset = start_address / entry_vm_size`,
asserts it is below `ENTRY_COUNT` (`none` = panic), and runs the loop from
that entry with `child_start_address = start_address % entry_vm_size`. -/
def rec_map_to (a : Arch) : Nat → List Entry → List Nat → Nat → Option (List Entry × List Nat)
  | 0, entries, frames, start =>
    if start / entry_vm_size a 0 < a.ENTRY_COUNT then
      (map_go_zero a (entries.drop (start / entry_vm_size a 0)) frames).map fun r =>
        (entries.take (start / entry_vm_size a 0) ++ r.1, r.2)
    else none
  | l+1, entries, frames, start =>
    if start / entry_vm_size a (l+1) < a.ENTRY_COUNT then
      (map_go_succ a l (fun t fr s => rec_map_to a l t fr s)
          (entries.drop (start / entry_vm_size a (l+1))) frames
          (start % entry_vm_size a (l+1))).map fun r =>
        (entries.take (start / entry_vm_size a (l+1)) ++ r.1, r.2)
    else none

/-- `map_to_from_iterator`: asserts the start address is page-aligned, then
runs `rec_map_to` on the top-level table. -/
def map_to_from_iterator (a : Arch) (level : Nat) (t : List Entry)
    (frames : List Nat) (start_address : Nat) : Option (List Entry × List Nat) :=
  if start_address % a.PAGE_SIZE = 0 then rec_map_to a level t frames start_address
  else none

/-! ## guard -/

/-- The loop of `rec_guard` on a level-0 table (suffix form).  The only
non-panicking arm on a leaf is an Available entry with
`length >= entry_vm_size && child_start_address == 0`, which becomes a
guard; otherwise the `assert!(table_level() > 0)` (or the explicit panics on
Guarded/Present entries) fire. -/
def guard_go_zero (a : Arch) : List Entry → Nat → Nat → Option (List Entry × Nat)
  | entries, _, 0 => some (entries, 0)
  | [], _, len => some ([], len)
  | e :: rest, cs, len =>
    match e with
    | .available =>
      if a.PAGE_SIZE ≤ len ∧ cs = 0 then
        (guard_go_zero a rest 0 (len - a.PAGE_SIZE)).map fun r =>
          (.guarded :: r.1, r.2)
      else none
    | _ => none

/-- The loop of `rec_guard` on a level-`l+1` table (suffix form).  Guarded
entries panic; Present entries recurse into the existing child; an Available
entry either becomes a single (huge) guard when the remaining length covers
its whole span and the offset into it is zero, or gets a fresh child table
into which the guard recurses. -/
def guard_go_succ (a : Arch) (l : Nat)
    (recLower : List Entry → Nat → Nat → Option (List Entry × Nat)) :
    List Entry → Nat → Nat → Option (List Entry × Nat)
  | entries, _, 0 => some (entries, 0)
  | [], _, len => some ([], len)
  | e :: rest, cs, len =>
    match e with
    | .guarded => none
    | .frame _ => none
    | .child t =>
      (recLower t cs len).bind fun c =>
        (guard_go_succ a l recLower rest 0 c.2).map fun r =>
          (.child c.1 :: r.1, r.2)
    | .available =>
      if entry_vm_size a (l+1) ≤ len ∧ cs = 0 then
        (guard_go_succ a l recLower rest 0 (len - entry_vm_size a (l+1))).map fun r =>
          (.guarded :: r.1, r.2)
      else
        (recLower (List.replicate a.ENTRY_COUNT .available) cs len).bind fun c =>
          (guard_go_succ a l recLower rest 0 c.2).map fun r =>
            (.child c.1 :: r.1, r.2)

/-- `rec_guard`: offset computation and `assert!(start_entry < ENTRY_COUNT)`
around the loop, like `rec_map_to`. -/
def rec_guard (a : Arch) : Nat → List Entry → Nat → Nat → Option (List Entry × Nat)
  | 0, entries, start, len =>
    if start / entry_vm_size a 0 < a.ENTRY_COUNT then
      (guard_go_zero a (entries.drop (start / entry_vm_size a 0))
          (start % entry_vm_size a 0) len).map fun r =>
        (entries.take (start / entry_vm_size a 0) ++ r.1, r.2)
    else none
  | l+1, entries, start, len =>
    if start / entry_vm_size a (l+1) < a.ENTRY_COUNT then
      (guard_go_succ a l (fun t s ln => rec_guard a l t s ln)
          (entries.drop (start / entry_vm_size a (l+1)))
          (start % entry_vm_size a (l+1)) len).map fun r =>
        (entries.take (start / entry_vm_size a (l+1)) ++ r.1, r.2)
    else none

/-- `guard`: asserts address and length are page-aligned, then runs
`rec_guard` on the top-level table.  Returns the updated table and the
remaining (unconsumed) length. -/
def guard (a : Arch) (level : Nat) (t : List Entry) (address len : Nat) :
    Option (List Entry × Nat) :=
  if address % a.PAGE_SIZE = 0 ∧ len % a.PAGE_SIZE = 0 then
    rec_guard a level t address len
  else none

/-! ## unmap -/

/-- The loop of `rec_unmap` on a level-0 table (suffix form).  A Present
entry is cleared and its physical address passed to the callback (collected
in a list, in invocation order); a Guarded entry is cleared without callback
when the remaining length covers it, and otherwise hits
`create_child_table` on a leaf table, which panics; an Available entry is
the `unmap encountered a non-mapped entry` panic. -/
def unmap_go_zero (a : Arch) : List Entry → Nat → Nat → Option (List Entry × Nat × List Nat)
  | entries, _, 0 => some (entries, 0, [])
  | [], _, len => some ([], len, [])
  | e :: rest, _, len =>
    match e with
    | .available => none
    | .frame p =>
      (unmap_go_zero a rest 0 (len - a.PAGE_SIZE)).map fun r =>
        (.available :: r.1, r.2.1, p :: r.2.2)
    | .guarded =>
      if entry_vm_size a 0 ≤ len then
        (unmap_go_zero a rest 0 (len - entry_vm_size a 0)).map fun r =>
          (.available :: r.1, r.2.1, r.2.2)
      else none
    | .child _ => none

/-- The loop of `rec_unmap` on a level-`l+1` table (suffix form).  Present
entries recurse into the child; a Guarded (huge-guard) entry is cleared
outright when `length >= entry_vm_size`, and otherwise split: the guard is
cleared, a child table is created with `guard_all_entries`, and the unmap
recurses into it from the current offset. -/
def unmap_go_succ (a : Arch) (l : Nat)
    (recLower : List Entry → Nat → Nat → Option (List Entry × Nat × List Nat)) :
    List Entry → Nat → Nat → Option (List Entry × Nat × List Nat)
  | entries, _, 0 => some (entries, 0, [])
  | [], _, len => some ([], len, [])
  | e :: rest, cs, len =>
    match e with
    | .available => none
    | .frame _ => none
    | .child t =>
      (recLower t cs len).bind fun c =>
        (unmap_go_succ a l recLower rest 0 c.2.1).map fun r =>
          (.child c.1 :: r.1, r.2.1, c.2.2 ++ r.2.2)
    | .guarded =>
      if entry_vm_size a (l+1) ≤ len then
        (unmap_go_succ a l recLower rest 0 (len - entry_vm_size a (l+1))).map fun r =>
          (.available :: r.1, r.2.1, r.2.2)
      else
        (recLower (List.replicate a.ENTRY_COUNT .guarded) cs len).bind fun c =>
          (unmap_go_succ a l recLower rest 0 c.2.1).map fun r =>
            (.child c.1 :: r.1, r.2.1, c.2.2 ++ r.2.2)

/-- `rec_unmap`: offset computation and assertion around the loop. -/
def rec_unmap (a : Arch) : Nat → List Entry → Nat → Nat → Option (List Entry × Nat × List Nat)
  | 0, entries, start, len =>
    if start / entry_vm_size a 0 < a.ENTRY_COUNT then
      (unmap_go_zero a (entries.drop (start / entry_vm_size a 0))
          (start % entry_vm_size a 0) len).map fun r =>
        (entries.take (start / entry_vm_size a 0) ++ r.1, r.2)
    else none
  | l+1, entries, start, len =>
    if start / entry_vm_size a (l+1) < a.ENTRY_COUNT then
      (unmap_go_succ a l (fun t s ln => rec_unmap a l t s ln)
          (entries.drop (start / entry_vm_size a (l+1)))
          (start % entry_vm_size a (l+1)) len).map fun r =>
        (entries.take (start / entry_vm_size a (l+1)) ++ r.1, r.2)
    else none

/-- `unmap`: asserts address and length are page-aligned, then runs
`rec_unmap`.  Returns the updated table, the remaining length, and the list
of physical addresses passed to the callback, in invocation order. -/
def unmap (a : Arch) (level : Nat) (t : List Entry) (address len : Nat) :
    Option (List Entry × Nat × List Nat) :=
  if address % a.PAGE_SIZE = 0 ∧ len % a.PAGE_SIZE = 0 then
    rec_unmap a level t address len
  else none

/-! ## for_every_entry -/

/-- The loop of `rec_iter` (the worker of `for_every_entry`) on a level-0
table (suffix form).  Every representable entry produces one callback
invocation `(state, entry_vm_size)`; the remaining length decreases by
`saturating_sub`, which is exactly `Nat` subtraction.  Callback invocations
are collected in order. -/
def iter_go_zero (a : Arch) : List Entry → Nat → Option (Nat × List (PageState × Nat))
  | _, 0 => some (0, [])
  | [], len => some (len, [])
  | e :: rest, len =>
    match e with
    | .child _ => none
    | e =>
      (iter_go_zero a rest (len - a.PAGE_SIZE)).map fun r =>
        (r.1, (entry_state e, a.PAGE_SIZE) :: r.2)

/-- The loop of `rec_iter` on a level-`l+1` table (suffix form): a Present
entry recurses into its child table, any other representable entry produces
one callback invocation spanning this level's `entry_vm_size`. -/
def iter_go_succ (a : Arch) (l : Nat)
    (recLower : List Entry → Nat → Nat → Option (Nat × List (PageState × Nat))) :
    List Entry → Nat → Nat → Option (Nat × List (PageState × Nat))
  | _, _, 0 => some (0, [])
  | [], _, len => some (len, [])
  | e :: rest, cs, len =>
    match e with
    | .child t =>
      (recLower t cs len).bind fun c =>
        (iter_go_succ a l recLower rest 0 c.1).map fun r =>
          (r.1, c.2 ++ r.2)
    | .frame _ => none
    | e =>
      (iter_go_succ a l recLower rest 0 (len - entry_vm_size a (l+1))).map fun r =>
        (r.1, (entry_state e, entry_vm_size a (l+1)) :: r.2)

/-- `rec_iter`: offset computation and assertion around the loop. -/
def rec_iter (a : Arch) : Nat → List Entry → Nat → Nat → Option (Nat × List (PageState × Nat))
  | 0, entries, start, len =>
    if start / entry_vm_size a 0 < a.ENTRY_COUNT then
      iter_go_zero a (entries.drop (start / entry_vm_size a 0)) len
    else none
  | l+1, entries, start, len =>
    if start / entry_vm_size a (l+1) < a.ENTRY_COUNT then
      iter_go_succ a l (fun t s ln => rec_iter a l t s ln)
        (entries.drop (start / entry_vm_size a (l+1)))
        (start % entry_vm_size a (l+1)) len
    else none

/-- `for_every_entry`: asserts address and length are page-aligned, then
runs `rec_iter`.  Returns the remaining length and the list of callback
invocations `(state, span)`, in invocation order.  The traversal reads the
tree but never writes an entry, so the embedding returns no updated table. -/
def for_every_entry (a : Arch) (level : Nat) (t : List Entry) (address len : Nat) :
    Option (Nat × List (PageState × Nat)) :=
  if address % a.PAGE_SIZE = 0 ∧ len % a.PAGE_SIZE = 0 then
    rec_iter a level t address len
  else none

/-! ## find_available_virtual_space_aligned -/

/-- `align_up_checked` from `libutils`: `addr` if `addr & (align - 1)` is
zero, else `addr + (align - addr % align)`.  The Rust `checked_add` guards
against `usize` overflow, which cannot happen on `Nat`; the claims under
verification stay far below `usize::MAX`, where both agree. -/
def align_up_checked (addr align : Nat) : Option Nat :=
  if addr &&& (align - 1) = 0 then some addr
  else some (addr + (align - addr % align))

/-- The `while` loop of `rec_find`, made total with explicit fuel (the loop
terminates because each iteration either grows the hole or advances its
start by `alignment`; the caller supplies fuel far beyond the iteration
count, see `find_available_virtual_space_aligned`).  The hole is the pair
`(start_addr, len)`.  Rust computes the next entry index as
`(hole.start_addr.saturating_add(hole.len) - table_addr) / entry_vm_size`
with wrapping `usize` subtraction; when the position falls below
`table_addr` the wrapped index is at least `ENTRY_COUNT` (table spans fit
the address space), so the loop exits — modelled by the `pos < tableAddr`
early return.  An Available entry grows the hole by this level's whole
`entry_vm_size`; a level-0 Present entry or a Guarded entry restarts the
hole at `hole.start_addr + alignment`; a Present parent entry runs the
child's loop on the shared hole, then continues this level's loop. -/
def rec_find (a : Arch) (desired endAddr alignment : Nat) :
    Nat → Nat → List Entry → Nat → Nat × Nat → Nat × Nat
  | 0, _, _, _, hole => hole
  | fuel+1, level, t, tableAddr, hole =>
    if hole.1 + hole.2 < tableAddr then hole
    else
      let idx := (hole.1 + hole.2 - tableAddr) / entry_vm_size a level
      if idx < a.ENTRY_COUNT ∧ hole.2 < desired ∧ hole.1 + desired ≤ endAddr then
        match level, t.getD idx .available with
        | _, .available =>
          rec_find a desired endAddr alignment fuel level t tableAddr
            (hole.1, hole.2 + entry_vm_size a level)
        | _, .guarded =>
          rec_find a desired endAddr alignment fuel level t tableAddr
            (hole.1 + alignment, 0)
        | 0, .frame _ =>
          rec_find a desired endAddr alignment fuel level t tableAddr
            (hole.1 + alignment, 0)
        | 0, .child _ =>
          rec_find a desired endAddr alignment fuel level t tableAddr
            (hole.1 + alignment, 0)
        | _+1, .frame _ => hole
        | l+1, .child c =>
          rec_find a desired endAddr alignment fuel (l+1) t tableAddr
            (rec_find a desired endAddr alignment fuel l c
              (tableAddr + idx * entry_vm_size a (l+1)) hole)
      else hole

/-- `find_available_virtual_space_aligned`: the alignment assertions
(`none` = panic), the early `length > end - start` rejection, the
`align_up_checked` seeding of the hole, the recursive scan from the
top-level table at address 0, and the final `hole.len >= length` check. -/
def find_available_virtual_space_aligned (a : Arch) (level : Nat) (t : List Entry)
    (len start_addr end_addr alignment : Nat) : Option Nat :=
  if start_addr % a.PAGE_SIZE = 0 ∧ len % a.PAGE_SIZE = 0 ∧
      alignment % a.PAGE_SIZE = 0 ∧ start_addr ≤ end_addr ∧ 0 < len then
    if end_addr - start_addr < len then none
    else
      match align_up_checked start_addr alignment with
      | none => none
      | some first =>
        let hole :=
          rec_find a len end_addr alignment
            ((end_addr + 2) * (len + 2) * (level + 2) * (a.ENTRY_COUNT + 2))
            level t 0 (first, 0)
        if len ≤ hole.2 then some hole.1 else none
  else none

/-! ## destroy -/

/-- Modelled from the spec: the address-space "lands"
(`super::lands::{KernelLand, UserLand, RecursiveTablesLand}`) are constant
virtual ranges provided by the architecture; that module is not part of the
sources under verification, so each land is modelled as an opaque
`(start_addr, length)` pair. -/
structure Lands where
  rtl_start : Nat
  rtl_length : Nat
  user_start : Nat
  user_length : Nat
  kernel_start : Nat
  kernel_length : Nat

/-- `destroy`: unmaps the `RecursiveTablesLand` range, freeing at each
Present frame a one-page tracked physical region reconstructed from it
(`PhysicalMemRegion::reconstruct(paddr, PAGE_SIZE)`, dropped immediately).
Returns the updated table, the remaining length, and the freed regions as
`(address, size)` pairs, in order. -/
def destroy (a : Arch) (level : Nat) (t : List Entry) (lands : Lands) :
    Option (List Entry × Nat × List (Nat × Nat)) :=
  (unmap a level t lands.rtl_start lands.rtl_length).map fun r =>
    (r.1, r.2.1, r.2.2.map fun p => (p, a.PAGE_SIZE))

/-! ## Unfolding equations for the loops, for a scrutinee not in constructor
form (the loops match on the remaining length first) -/

theorem unmap_go_zero_len_zero (a : Arch) (es : List Entry) (cs : Nat) :
    unmap_go_zero a es cs 0 = some (es, 0, []) := by
  cases es <;> rfl

theorem unmap_go_zero_nil (a : Arch) (cs len : Nat) :
    unmap_go_zero a [] cs len = some ([], len, []) := by
  cases len <;> rfl

theorem unmap_go_zero_frame (a : Arch) (p : Nat) (rest : List Entry) (cs len : Nat)
    (h : len ≠ 0) :
    unmap_go_zero a (.frame p :: rest) cs len =
      (unmap_go_zero a rest 0 (len - a.PAGE_SIZE)).map fun r =>
        (.available :: r.1, r.2.1, p :: r.2.2) := by
  cases len with
  | zero => exact absurd rfl h
  | succ n => rfl

theorem unmap_go_zero_guarded (a : Arch) (rest : List Entry) (cs len : Nat)
    (h : len ≠ 0) :
    unmap_go_zero a (.guarded :: rest) cs len =
      if entry_vm_size a 0 ≤ len then
        (unmap_go_zero a rest 0 (len - entry_vm_size a 0)).map fun r =>
          (.available :: r.1, r.2.1, r.2.2)
      else none := by
  cases len with
  | zero => exact absurd rfl h
  | succ n => rfl

theorem unmap_go_succ_len_zero (a : Arch) (l : Nat)
    (recLower : List Entry → Nat → Nat → Option (List Entry × Nat × List Nat))
    (es : List Entry) (cs : Nat) :
    unmap_go_succ a l recLower es cs 0 = some (es, 0, []) := by
  cases es <;> rfl

theorem unmap_go_succ_nil (a : Arch) (l : Nat)
    (recLower : List Entry → Nat → Nat → Option (List Entry × Nat × List Nat))
    (cs len : Nat) :
    unmap_go_succ a l recLower [] cs len = some ([], len, []) := by
  cases len <;> rfl

theorem unmap_go_succ_child (a : Arch) (l : Nat)
    (recLower : List Entry → Nat → Nat → Option (List Entry × Nat × List Nat))
    (t : List Entry) (rest : List Entry) (cs len : Nat) (h : len ≠ 0) :
    unmap_go_succ a l recLower (.child t :: rest) cs len =
      (recLower t cs len).bind fun c =>
        (unmap_go_succ a l recLower rest 0 c.2.1).map fun r =>
          (.child c.1 :: r.1, r.2.1, c.2.2 ++ r.2.2) := by
  cases len with
  | zero => exact absurd rfl h
  | succ n => rfl

theorem unmap_go_succ_guarded (a : Arch) (l : Nat)
    (recLower : List Entry → Nat → Nat → Option (List Entry × Nat × List Nat))
    (rest : List Entry) (cs len : Nat) (h : len ≠ 0) :
    unmap_go_succ a l recLower (.guarded :: rest) cs len =
      if entry_vm_size a (l+1) ≤ len then
        (unmap_go_succ a l recLower rest 0 (len - entry_vm_size a (l+1))).map fun r =>
          (.available :: r.1, r.2.1, r.2.2)
      else
        (recLower (List.replicate a.ENTRY_COUNT .guarded) cs len).bind fun c =>
          (unmap_go_succ a l recLower rest 0 c.2.1).map fun r =>
            (.child c.1 :: r.1, r.2.1, c.2.2 ++ r.2.2) := by
  cases len with
  | zero => exact absurd rfl h
  | succ n => rfl

theorem unmap_go_succ_available (a : Arch) (l : Nat)
    (recLower : List Entry → Nat → Nat → Option (List Entry × Nat × List Nat))
    (rest : List Entry) (cs len : Nat) (h : len ≠ 0) :
    unmap_go_succ a l recLower (.available :: rest) cs len = none := by
  cases len with
  | zero => exact absurd rfl h
  | succ n => rfl

theorem unmap_go_zero_available (a : Arch) (rest : List Entry) (cs len : Nat)
    (h : len ≠ 0) :
    unmap_go_zero a (.available :: rest) cs len = none := by
  cases len with
  | zero => exact absurd rfl h
  | succ n => rfl

theorem guard_go_zero_len_zero (a : Arch) (es : List Entry) (cs : Nat) :
    guard_go_zero a es cs 0 = some (es, 0) := by
  cases es <;> rfl

theorem guard_go_zero_nil (a : Arch) (cs len : Nat) :
    guard_go_zero a [] cs len = some ([], len) := by
  cases len <;> rfl

theorem guard_go_zero_available (a : Arch) (rest : List Entry) (cs len : Nat)
    (h : len ≠ 0) :
    guard_go_zero a (.available :: rest) cs len =
      if a.PAGE_SIZE ≤ len ∧ cs = 0 then
        (guard_go_zero a rest 0 (len - a.PAGE_SIZE)).map fun r =>
          (.guarded :: r.1, r.2)
      else none := by
  cases len with
  | zero => exact absurd rfl h
  | succ n => rfl

theorem guard_go_zero_guarded (a : Arch) (rest : List Entry) (cs len : Nat)
    (h : len ≠ 0) :
    guard_go_zero a (.guarded :: rest) cs len = none := by
  cases len with
  | zero => exact absurd rfl h
  | succ n => rfl

theorem guard_go_zero_frame (a : Arch) (p : Nat) (rest : List Entry) (cs len : Nat)
    (h : len ≠ 0) :
    guard_go_zero a (.frame p :: rest) cs len = none := by
  cases len with
  | zero => exact absurd rfl h
  | succ n => rfl

theorem guard_go_succ_len_zero (a : Arch) (l : Nat)
    (recLower : List Entry → Nat → Nat → Option (List Entry × Nat))
    (es : List Entry) (cs : Nat) :
    guard_go_succ a l recLower es cs 0 = some (es, 0) := by
  cases es <;> rfl

theorem guard_go_succ_nil (a : Arch) (l : Nat)
    (recLower : List Entry → Nat → Nat → Option (List Entry × Nat))
    (cs len : Nat) :
    guard_go_succ a l recLower [] cs len = some ([], len) := by
  cases len <;> rfl

theorem guard_go_succ_available (a : Arch) (l : Nat)
    (recLower : List Entry → Nat → Nat → Option (List Entry × Nat))
    (rest : List Entry) (cs len : Nat) (h : len ≠ 0) :
    guard_go_succ a l recLower (.available :: rest) cs len =
      if entry_vm_size a (l+1) ≤ len ∧ cs = 0 then
        (guard_go_succ a l recLower rest 0 (len - entry_vm_size a (l+1))).map fun r =>
          (.guarded :: r.1, r.2)
      else
        (recLower (List.replicate a.ENTRY_COUNT .available) cs len).bind fun c =>
          (guard_go_succ a l recLower rest 0 c.2).map fun r =>
            (.child c.1 :: r.1, r.2) := by
  cases len with
  | zero => exact absurd rfl h
  | succ n => rfl

theorem guard_go_succ_child (a : Arch) (l : Nat)
    (recLower : List Entry → Nat → Nat → Option (List Entry × Nat))
    (t : List Entry) (rest : List Entry) (cs len : Nat) (h : len ≠ 0) :
    guard_go_succ a l recLower (.child t :: rest) cs len =
      (recLower t cs len).bind fun c =>
        (guard_go_succ a l recLower rest 0 c.2).map fun r =>
          (.child c.1 :: r.1, r.2) := by
  cases len with
  | zero => exact absurd rfl h
  | succ n => rfl

theorem guard_go_succ_guarded (a : Arch) (l : Nat)
    (recLower : List Entry → Nat → Nat → Option (List Entry × Nat))
    (rest : List Entry) (cs len : Nat) (h : len ≠ 0) :
    guard_go_succ a l recLower (.guarded :: rest) cs len = none := by
  cases len with
  | zero => exact absurd rfl h
  | succ n => rfl

theorem guard_go_succ_frame (a : Arch) (l : Nat)
    (recLower : List Entry → Nat → Nat → Option (List Entry × Nat))
    (p : Nat) (rest : List Entry) (cs len : Nat) (h : len ≠ 0) :
    guard_go_succ a l recLower (.frame p :: rest) cs len = none := by
  cases len with
  | zero => exact absurd rfl h
  | succ n => rfl

theorem iter_go_zero_len_zero (a : Arch) (es : List Entry) :
    iter_go_zero a es 0 = some (0, []) := by
  cases es <;> rfl

theorem iter_go_zero_nil (a : Arch) (len : Nat) :
    iter_go_zero a [] len = some (len, []) := by
  cases len <;> rfl

theorem iter_go_zero_cons (a : Arch) (e : Entry) (rest : List Entry) (len : Nat)
    (h : len ≠ 0) (h2 : ∀ t, e ≠ .child t) :
    iter_go_zero a (e :: rest) len =
      (iter_go_zero a rest (len - a.PAGE_SIZE)).map fun r =>
        (r.1, (entry_state e, a.PAGE_SIZE) :: r.2) := by
  cases len with
  | zero => exact absurd rfl h
  | succ n =>
    cases e with
    | child t => exact absurd rfl (h2 t)
    | available => rfl
    | guarded => rfl
    | frame p => rfl

theorem iter_go_succ_len_zero (a : Arch) (l : Nat)
    (recLower : List Entry → Nat → Nat → Option (Nat × List (PageState × Nat)))
    (es : List Entry) (cs : Nat) :
    iter_go_succ a l recLower es cs 0 = some (0, []) := by
  cases es <;> rfl

theorem iter_go_succ_nil (a : Arch) (l : Nat)
    (recLower : List Entry → Nat → Nat → Option (Nat × List (PageState × Nat)))
    (cs len : Nat) :
    iter_go_succ a l recLower [] cs len = some (len, []) := by
  cases len <;> rfl

theorem iter_go_succ_child (a : Arch) (l : Nat)
    (recLower : List Entry → Nat → Nat → Option (Nat × List (PageState × Nat)))
    (t rest : List Entry) (cs len : Nat) (h : len ≠ 0) :
    iter_go_succ a l recLower (.child t :: rest) cs len =
      (recLower t cs len).bind fun c =>
        (iter_go_succ a l recLower rest 0 c.1).map fun r =>
          (r.1, c.2 ++ r.2) := by
  cases len with
  | zero => exact absurd rfl h
  | succ n => rfl

theorem iter_go_succ_available (a : Arch) (l : Nat)
    (recLower : List Entry → Nat → Nat → Option (Nat × List (PageState × Nat)))
    (rest : List Entry) (cs len : Nat) (h : len ≠ 0) :
    iter_go_succ a l recLower (.available :: rest) cs len =
      (iter_go_succ a l recLower rest 0 (len - entry_vm_size a (l+1))).map fun r =>
        (r.1, (PageState.Available, entry_vm_size a (l+1)) :: r.2) := by
  cases len with
  | zero => exact absurd rfl h
  | succ n => rfl

theorem iter_go_succ_guarded (a : Arch) (l : Nat)
    (recLower : List Entry → Nat → Nat → Option (Nat × List (PageState × Nat)))
    (rest : List Entry) (cs len : Nat) (h : len ≠ 0) :
    iter_go_succ a l recLower (.guarded :: rest) cs len =
      (iter_go_succ a l recLower rest 0 (len - entry_vm_size a (l+1))).map fun r =>
        (r.1, (PageState.Guarded, entry_vm_size a (l+1)) :: r.2) := by
  cases len with
  | zero => exact absurd rfl h
  | succ n => rfl

/-! ## Basic facts about sizes, well-formedness and the page-level view -/

theorem entry_vm_size_pos (a : Arch) (level : Nat) (hEC : 0 < a.ENTRY_COUNT)
    (hPS : 0 < a.PAGE_SIZE) : 0 < entry_vm_size a level :=
  Nat.mul_pos (Nat.pos_pow_of_pos _ hEC) hPS

theorem entry_vm_size_zero (a : Arch) : entry_vm_size a 0 = a.PAGE_SIZE := by
  simp [entry_vm_size]

theorem entry_vm_size_succ (a : Arch) (l : Nat) :
    entry_vm_size a (l+1) = a.ENTRY_COUNT * entry_vm_size a l := by
  simp [entry_vm_size, pow_succ]; ring

theorem page_size_dvd_entry_vm_size (a : Arch) (level : Nat) :
    a.PAGE_SIZE ∣ entry_vm_size a level :=
  ⟨a.ENTRY_COUNT ^ level, Nat.mul_comm _ _⟩

theorem wf_entry_child_iff (a : Arch) (l : Nat) (t : List Entry) :
    wf_entry a (l+1) (.child t) = true ↔
      t.length = a.ENTRY_COUNT ∧ ∀ e ∈ t, wf_entry a l e = true := by
  simp [wf_entry]

theorem wf_table_iff (a : Arch) (level : Nat) (t : List Entry) :
    wf_table a level t = true ↔
      t.length = a.ENTRY_COUNT ∧ ∀ e ∈ t, wf_entry a level e = true := by
  simp [wf_table]

@[simp] theorem flat_table_nil (a : Arch) (level : Nat) :
    flat_table a level [] = [] := rfl

@[simp] theorem flat_table_cons (a : Arch) (level : Nat) (e : Entry) (t : List Entry) :
    flat_table a level (e :: t) = flat_entry a level e ++ flat_table a level t := rfl

theorem flat_table_append (a : Arch) (level : Nat) (s t : List Entry) :
    flat_table a level (s ++ t) = flat_table a level s ++ flat_table a level t := by
  simp [flat_table]

theorem flat_entry_available (a : Arch) (level : Nat) :
    flat_entry a level .available = List.replicate (a.ENTRY_COUNT ^ level) .Available := by
  cases level <;> simp [flat_entry]

theorem flat_entry_guarded (a : Arch) (level : Nat) :
    flat_entry a level .guarded = List.replicate (a.ENTRY_COUNT ^ level) .Guarded := by
  cases level <;> simp [flat_entry]

theorem flat_entry_child (a : Arch) (l : Nat) (t : List Entry) :
    flat_entry a (l+1) (.child t) = flat_table a l t := rfl

theorem length_flat_table_of_uniform (a : Arch) (level : Nat) (t : List Entry)
    (h : ∀ e ∈ t, (flat_entry a level e).length = a.ENTRY_COUNT ^ level) :
    (flat_table a level t).length = t.length * a.ENTRY_COUNT ^ level := by
  induction t with
  | nil => simp
  | cons e t ih =>
    have he := h e (by simp)
    have ht := ih fun x hx => h x (List.mem_cons_of_mem _ hx)
    simp [he, ht, Nat.succ_mul, Nat.add_comm]

theorem length_flat_entry (a : Arch) :
    ∀ (level : Nat) (e : Entry), wf_entry a level e = true →
      (flat_entry a level e).length = a.ENTRY_COUNT ^ level := by
  intro level
  induction level with
  | zero => intro e he; cases e <;> simp_all [wf_entry, flat_entry]
  | succ l ih =>
    intro e he
    cases e with
    | available => simp [flat_entry_available]
    | guarded => simp [flat_entry_guarded]
    | frame p => simp [wf_entry] at he
    | child t =>
      rw [wf_entry_child_iff] at he
      rw [flat_entry_child,
        length_flat_table_of_uniform a l t fun x hx => ih x (he.2 x hx), he.1,
        pow_succ, Nat.mul_comm]

theorem length_flat_table (a : Arch) (level : Nat) (t : List Entry)
    (h : ∀ e ∈ t, wf_entry a level e = true) :
    (flat_table a level t).length = t.length * a.ENTRY_COUNT ^ level :=
  length_flat_table_of_uniform a level t fun e he => length_flat_entry a level e (h e he)

theorem flat_table_drop (a : Arch) (level : Nat) (t : List Entry) (n : Nat)
    (h : ∀ e ∈ t, wf_entry a level e = true) :
    flat_table a level (t.drop n) =
      (flat_table a level t).drop (n * a.ENTRY_COUNT ^ level) := by
  induction t generalizing n with
  | nil => simp
  | cons e t ih =>
    cases n with
    | zero => simp
    | succ n =>
      have he := length_flat_entry a level e (h e (by simp))
      have ht := ih n fun x hx => h x (List.mem_cons_of_mem _ hx)
      simp only [List.drop_succ_cons, flat_table_cons, Nat.succ_mul]
      rw [ht, Nat.add_comm, ← he, List.drop_append]

theorem flat_table_take (a : Arch) (level : Nat) (t : List Entry) (n : Nat)
    (h : ∀ e ∈ t, wf_entry a level e = true) :
    flat_table a level (t.take n) =
      (flat_table a level t).take (n * a.ENTRY_COUNT ^ level) := by
  induction t generalizing n with
  | nil => simp
  | cons e t ih =>
    cases n with
    | zero => simp
    | succ n =>
      have he := length_flat_entry a level e (h e (by simp))
      have ht := ih n fun x hx => h x (List.mem_cons_of_mem _ hx)
      simp only [List.take_succ_cons, flat_table_cons, Nat.succ_mul]
      rw [ht, Nat.add_comm, ← he, List.take_append]

theorem flat_table_replicate_available (a : Arch) (level k : Nat) :
    flat_table a level (List.replicate k .available) =
      List.replicate (k * a.ENTRY_COUNT ^ level) .Available := by
  induction k with
  | zero => simp
  | succ k ih =>
    rw [List.replicate_succ, flat_table_cons, ih, flat_entry_available, Nat.succ_mul,
      Nat.add_comm, List.replicate_add, List.append_cancel_left_eq]

theorem flat_table_replicate_guarded (a : Arch) (level k : Nat) :
    flat_table a level (List.replicate k .guarded) =
      List.replicate (k * a.ENTRY_COUNT ^ level) .Guarded := by
  induction k with
  | zero => simp
  | succ k ih =>
    rw [List.replicate_succ, flat_table_cons, ih, flat_entry_guarded, Nat.succ_mul,
      Nat.add_comm, List.replicate_add, List.append_cancel_left_eq]

/-! ## Helper lemmas for the traversal proofs -/

theorem getD_append_left {α : Type} (d : α) (l1 l2 : List α) (i : Nat)
    (h : i < l1.length) : (l1 ++ l2).getD i d = l1.getD i d := by
  simp [List.getD, List.getElem?_append, h]

theorem getD_append_right {α : Type} (d : α) (l1 l2 : List α) (i : Nat) :
    (l1 ++ l2).getD (l1.length + i) d = l2.getD i d := by
  simp [List.getD, List.getElem?_append_right]

theorem getD_cons_succ {α : Type} (d x : α) (l : List α) (i : Nat) :
    (x :: l).getD (i+1) d = l.getD i d := by
  simp [List.getD]

theorem take_subset_take {α : Type} (l : List α) (j k : Nat) (h : j ≤ k) :
    l.take j ⊆ l.take k := by
  intro x hx
  have hjk : l.take j = (l.take k).take j := by rw [List.take_take, Nat.min_eq_left h]
  rw [hjk] at hx
  exact List.take_subset _ _ hx

theorem min_add_decomp (n x y : Nat) :
    min n (x + y) = min n x + min (n - min n x) y := by omega

/-! ## The map traversal over an Available window

`rec_map_to` on a table whose pages from the start position are Available
for as long as the frames last: every frame is consumed in ascending
address order, the window becomes Present with exactly those frames, and
nothing else changes. -/

theorem map_go_zero_spec (a : Arch) (es : List Entry) (fr : List Nat)
    (hwf : ∀ e ∈ es, wf_entry a 0 e = true)
    (hwin : ∀ i, i < min fr.length (flat_table a 0 es).length →
      (flat_table a 0 es).getD i .Guarded = .Available) :
    ∃ es2, map_go_zero a es fr =
        some (es2, fr.drop (min fr.length (flat_table a 0 es).length)) ∧
      flat_table a 0 es2 =
        (fr.take (min fr.length (flat_table a 0 es).length)).map .Present ++
          (flat_table a 0 es).drop (min fr.length (flat_table a 0 es).length) ∧
      (∀ e ∈ es2, wf_entry a 0 e = true) ∧ es2.length = es.length := by
  induction es generalizing fr with
  | nil =>
    refine ⟨[], ?_, by simp [flat_table], by simp, rfl⟩
    cases fr <;> simp [map_go_zero, flat_table]
  | cons e rest ih =>
    cases fr with
    | nil => exact ⟨e :: rest, by simp [map_go_zero], by simp, hwf, rfl⟩
    | cons f fs =>
      have hwfe := hwf e (by simp)
      have hpos : 0 < min (f :: fs).length (flat_table a 0 (e :: rest)).length := by
        rcases e with _ | _ | p | t <;>
          simp [flat_table, flat_entry, Nat.lt_min, Nat.succ_pos]
      cases e with
      | child t => simp [wf_entry] at hwfe
      | guarded =>
        have := hwin 0 hpos
        simp [flat_table, flat_entry, List.getD] at this
      | frame p =>
        have := hwin 0 hpos
        simp [flat_table, flat_entry, List.getD] at this
      | available =>
        obtain ⟨es2, heq, hflat, hwf2, hlen⟩ := ih fs
          (fun x hx => hwf x (List.mem_cons_of_mem _ hx))
          (fun i hi => by
            have := hwin (i+1) (by
              simp only [flat_table_cons, flat_entry, List.length_append,
                List.length_cons, List.length_singleton] at *
              omega)
            simpa [flat_table, flat_entry, getD_cons_succ] using this)
        have hmin : min (f :: fs).length (flat_table a 0 (.available :: rest)).length =
            min fs.length (flat_table a 0 rest).length + 1 := by
          simp [flat_table, flat_entry, Nat.succ_min_succ, Nat.add_comm]
        refine ⟨.frame f :: es2, ?_, ?_, ?_, by simpa using hlen⟩
        · rw [hmin]
          simp only [map_go_zero, heq, Option.map_some]
          rfl
        · rw [hmin]
          simp only [flat_table_cons, flat_entry, hflat]
          simp [List.take_succ_cons, List.drop_succ_cons, flat_table, flat_entry]
        · intro x hx
          rcases List.mem_cons.1 hx with h | h
          · subst h; rfl
          · exact hwf2 x h

theorem getD_drop {α : Type} (d : α) (l : List α) (n i : Nat) :
    (l.drop n).getD i d = l.getD (n + i) d := by
  simp [List.getD, List.getElem?_drop]

theorem getD_replicate {α : Type} (d x : α) (n i : Nat) (h : i < n) :
    (List.replicate n x).getD i d = x := by
  simp [List.getD, List.getElem?_replicate, h]

theorem take_drop_assemble {α : Type} (P M : List α) (A sp k : Nat) :
    P.take A ++ ((P.drop A).take sp ++ M ++ (P.drop A).drop (sp + k)) =
    P.take (A + sp) ++ M ++ P.drop (A + sp + k) := by
  rw [List.take_add, List.drop_drop, ← Nat.add_assoc]
  simp [List.append_assoc]

/-- Specification of `rec_map_to` at one level: on a table whose pages from
`start` are Available for as long as the frames last, all frames are
consumed in ascending address order and exactly the window becomes Present. -/
def RecMapSpec (a : Arch) (level : Nat) : Prop :=
  ∀ (t : List Entry) (fr : List Nat) (start : Nat),
    (∀ e ∈ t, wf_entry a level e = true) →
    start % a.PAGE_SIZE = 0 →
    start < a.ENTRY_COUNT * entry_vm_size a level →
    (∀ i, start / a.PAGE_SIZE ≤ i →
        i < start / a.PAGE_SIZE +
          min fr.length ((flat_table a level t).length - start / a.PAGE_SIZE) →
        (flat_table a level t).getD i .Guarded = .Available) →
    ∃ t2, rec_map_to a level t fr start =
        some (t2, fr.drop
          (min fr.length ((flat_table a level t).length - start / a.PAGE_SIZE))) ∧
      flat_table a level t2 =
        (flat_table a level t).take (start / a.PAGE_SIZE) ++
          (fr.take (min fr.length
            ((flat_table a level t).length - start / a.PAGE_SIZE))).map .Present ++
          (flat_table a level t).drop (start / a.PAGE_SIZE +
            min fr.length ((flat_table a level t).length - start / a.PAGE_SIZE)) ∧
      (∀ e ∈ t2, wf_entry a level e = true) ∧ t2.length = t.length

/-- Specification of the `rec_map_to` loop body at a parent level, on a
table suffix. -/
def MapGoSpec (a : Arch) (l : Nat) (es : List Entry) : Prop :=
  ∀ (fr : List Nat) (cs : Nat),
    (∀ e ∈ es, wf_entry a (l+1) e = true) →
    cs % a.PAGE_SIZE = 0 →
    cs < entry_vm_size a (l+1) →
    (∀ i, cs / a.PAGE_SIZE ≤ i →
        i < cs / a.PAGE_SIZE +
          min fr.length ((flat_table a (l+1) es).length - cs / a.PAGE_SIZE) →
        (flat_table a (l+1) es).getD i .Guarded = .Available) →
    ∃ es2, map_go_succ a l (fun t0 fr0 s0 => rec_map_to a l t0 fr0 s0) es fr cs =
        some (es2, fr.drop
          (min fr.length ((flat_table a (l+1) es).length - cs / a.PAGE_SIZE))) ∧
      flat_table a (l+1) es2 =
        (flat_table a (l+1) es).take (cs / a.PAGE_SIZE) ++
          (fr.take (min fr.length
            ((flat_table a (l+1) es).length - cs / a.PAGE_SIZE))).map .Present ++
          (flat_table a (l+1) es).drop (cs / a.PAGE_SIZE +
            min fr.length ((flat_table a (l+1) es).length - cs / a.PAGE_SIZE)) ∧
      (∀ e ∈ es2, wf_entry a (l+1) e = true) ∧ es2.length = es.length

theorem map_go_succ_cons_spec (a : Arch) (hEC : 0 < a.ENTRY_COUNT) (hPS : 0 < a.PAGE_SIZE)
    (l : Nat) (e : Entry) (rest tc : List Entry)
    (IHrec : RecMapSpec a l) (IHrest : MapGoSpec a l rest)
    (hgood : wf_entry a (l+1) e = true → wf_entry a (l+1) (.child tc) = true)
    (htcflat : flat_entry a (l+1) e = flat_table a l tc)
    (hshape : ∀ (f : Nat) (fs : List Nat) (cs : Nat),
      map_go_succ a l (fun t0 fr0 s0 => rec_map_to a l t0 fr0 s0) (e :: rest) (f :: fs) cs =
        (rec_map_to a l tc (f :: fs) cs).bind fun c =>
          (map_go_succ a l (fun t0 fr0 s0 => rec_map_to a l t0 fr0 s0) rest c.2 0).map fun r =>
            (.child c.1 :: r.1, r.2)) :
    MapGoSpec a l (e :: rest) := by
  intro fr cs hwfs hcsal hcslt hwins
  cases fr with
  | nil =>
    refine ⟨e :: rest, ?_, by simp, hwfs, rfl⟩
    simp [map_go_succ]
  | cons f fs =>
    obtain ⟨htclen, htcwf⟩ := (wf_entry_child_iff a l tc).1 (hgood (hwfs e (by simp)))
    have hwfrest : ∀ x ∈ rest, wf_entry a (l+1) x = true :=
      fun x hx => hwfs x (List.mem_cons_of_mem _ hx)
    have hcPlen : (flat_table a l tc).length = a.ENTRY_COUNT ^ (l+1) := by
      rw [length_flat_table a l tc htcwf, htclen, pow_succ, Nat.mul_comm]
    have hsp : cs / a.PAGE_SIZE < a.ENTRY_COUNT ^ (l+1) := by
      have h1 := Nat.div_lt_div_of_lt_of_dvd (page_size_dvd_entry_vm_size a (l+1)) hcslt
      rwa [entry_vm_size, Nat.mul_div_cancel _ hPS] at h1
    have hP : flat_table a (l+1) (e :: rest) =
        flat_table a l tc ++ flat_table a (l+1) rest := by
      rw [flat_table_cons, htcflat]
    have hPlen : (flat_table a (l+1) (e :: rest)).length =
        a.ENTRY_COUNT ^ (l+1) + (flat_table a (l+1) rest).length := by
      rw [hP, List.length_append, hcPlen]
    -- run the child
    obtain ⟨ct2, hceq, hcflat, hcwf2, hclen2⟩ := IHrec tc (f :: fs) cs htcwf hcsal
      (by rw [← entry_vm_size_succ]; exact hcslt)
      (by
        intro i hi1 hi2
        rw [hcPlen] at hi2
        have hiP : i < a.ENTRY_COUNT ^ (l+1) := by omega
        have hbig := hwins i hi1 (by rw [hPlen]; omega)
        rw [hP, getD_append_left _ _ _ _ (by rw [hcPlen]; exact hiP)] at hbig
        exact hbig)
    rw [hcPlen] at hceq hcflat
    -- run the rest of this table
    obtain ⟨rest2, hreq, hrflat, hrwf2, hrlen2⟩ :=
      IHrest ((f :: fs).drop (min (f :: fs).length (a.ENTRY_COUNT ^ (l+1) - cs / a.PAGE_SIZE)))
        0 hwfrest (Nat.zero_mod _) (entry_vm_size_pos a (l+1) hEC hPS)
        (by
          intro i hi1 hi2
          simp only [Nat.zero_div, Nat.zero_add, Nat.sub_zero, List.length_drop] at hi2
          have hbig := hwins (a.ENTRY_COUNT ^ (l+1) + i) (by omega) (by rw [hPlen]; omega)
          rw [hP] at hbig
          have hidx : a.ENTRY_COUNT ^ (l+1) + i = (flat_table a l tc).length + i := by
            rw [hcPlen]
          rw [hidx, getD_append_right] at hbig
          simpa using hbig)
    simp only [Nat.zero_div, Nat.zero_add, Nat.sub_zero, List.length_drop, List.take_zero,
      List.nil_append] at hreq hrflat
    have hKsplit : min (f :: fs).length
        ((flat_table a (l+1) (e :: rest)).length - cs / a.PAGE_SIZE) =
        min (f :: fs).length (a.ENTRY_COUNT ^ (l+1) - cs / a.PAGE_SIZE) +
        min ((f :: fs).length - min (f :: fs).length (a.ENTRY_COUNT ^ (l+1) - cs / a.PAGE_SIZE))
          (flat_table a (l+1) rest).length := by
      rw [hPlen]; omega
    refine ⟨.child ct2 :: rest2, ?_, ?_, ?_, by simpa using hrlen2⟩
    · rw [hshape f fs cs, hceq, Option.some_bind, hreq, Option.map_some']
      rw [hKsplit, List.drop_drop]
    · rw [flat_table_cons, flat_entry_child, hcflat, hrflat, hKsplit, hP]
      rcases Nat.le_total (a.ENTRY_COUNT ^ (l+1) - cs / a.PAGE_SIZE) (f :: fs).length with hA | hB
      · -- the child was filled to the end of its span
        have hk1 : min (f :: fs).length (a.ENTRY_COUNT ^ (l+1) - cs / a.PAGE_SIZE) =
            a.ENTRY_COUNT ^ (l+1) - cs / a.PAGE_SIZE := by omega
        rw [hk1]
        rw [List.take_append_of_le_length (by rw [hcPlen]; omega)]
        rw [List.take_add, List.map_append]
        have hdfull : (flat_table a l tc).drop
            (cs / a.PAGE_SIZE + (a.ENTRY_COUNT ^ (l+1) - cs / a.PAGE_SIZE)) = [] := by
          apply List.drop_eq_nil_of_le
          rw [hcPlen]; omega
        rw [hdfull]
        have hdrop2 : (flat_table a l tc ++ flat_table a (l+1) rest).drop
            (cs / a.PAGE_SIZE + ((a.ENTRY_COUNT ^ (l+1) - cs / a.PAGE_SIZE) +
              min ((f :: fs).length - (a.ENTRY_COUNT ^ (l+1) - cs / a.PAGE_SIZE))
                (flat_table a (l+1) rest).length)) =
            (flat_table a (l+1) rest).drop
              (min ((f :: fs).length - (a.ENTRY_COUNT ^ (l+1) - cs / a.PAGE_SIZE))
                (flat_table a (l+1) rest).length) := by
          have hidx : cs / a.PAGE_SIZE + ((a.ENTRY_COUNT ^ (l+1) - cs / a.PAGE_SIZE) +
              min ((f :: fs).length - (a.ENTRY_COUNT ^ (l+1) - cs / a.PAGE_SIZE))
                (flat_table a (l+1) rest).length) =
              (flat_table a l tc).length +
              min ((f :: fs).length - (a.ENTRY_COUNT ^ (l+1) - cs / a.PAGE_SIZE))
                (flat_table a (l+1) rest).length := by
            rw [hcPlen]; omega
          rw [hidx, List.drop_append]
        rw [hdrop2]
        simp [List.append_assoc, hk1]
      · -- the frames ran out inside the child
        have hk1 : min (f :: fs).length (a.ENTRY_COUNT ^ (l+1) - cs / a.PAGE_SIZE) =
            (f :: fs).length := by omega
        have hk2 : min ((f :: fs).length -
              min (f :: fs).length (a.ENTRY_COUNT ^ (l+1) - cs / a.PAGE_SIZE))
            (flat_table a (l+1) rest).length = 0 := by omega
        rw [hk1] at hk2 ⊢
        rw [hk2]
        simp only [Nat.add_zero, List.take_length, List.drop_length]
        rw [List.take_append_of_le_length (by rw [hcPlen]; omega)]
        have hdrop3 : (flat_table a l tc ++ flat_table a (l+1) rest).drop
            (cs / a.PAGE_SIZE + (f :: fs).length) =
            (flat_table a l tc).drop (cs / a.PAGE_SIZE + (f :: fs).length) ++
              flat_table a (l+1) rest := by
          apply List.drop_append_of_le_length
          rw [hcPlen]; omega
        rw [hdrop3]
        simp [List.append_assoc]
    · intro x hx
      rcases List.mem_cons.1 hx with rfl | hx2
      · rw [wf_entry_child_iff]
        exact ⟨by rw [hclen2, htclen], hcwf2⟩
      · exact hrwf2 x hx2

theorem rec_map_to_spec (a : Arch) (hEC : 0 < a.ENTRY_COUNT) (hPS : 0 < a.PAGE_SIZE) :
    ∀ (level : Nat) (t : List Entry) (fr : List Nat) (start : Nat),
      (∀ e ∈ t, wf_entry a level e = true) →
      start % a.PAGE_SIZE = 0 →
      start < a.ENTRY_COUNT * entry_vm_size a level →
      (∀ i, start / a.PAGE_SIZE ≤ i →
          i < start / a.PAGE_SIZE +
            min fr.length ((flat_table a level t).length - start / a.PAGE_SIZE) →
          (flat_table a level t).getD i .Guarded = .Available) →
      ∃ t2, rec_map_to a level t fr start =
          some (t2, fr.drop
            (min fr.length ((flat_table a level t).length - start / a.PAGE_SIZE))) ∧
        flat_table a level t2 =
          (flat_table a level t).take (start / a.PAGE_SIZE) ++
            (fr.take (min fr.length
              ((flat_table a level t).length - start / a.PAGE_SIZE))).map .Present ++
            (flat_table a level t).drop (start / a.PAGE_SIZE +
              min fr.length ((flat_table a level t).length - start / a.PAGE_SIZE)) ∧
        (∀ e ∈ t2, wf_entry a level e = true) ∧ t2.length = t.length := by
  intro level
  induction level with
  | zero =>
    intro t fr start hwf halign hlt hwin
    have hoff : start / a.PAGE_SIZE < a.ENTRY_COUNT := by
      rw [entry_vm_size_zero, Nat.mul_comm] at hlt
      exact Nat.div_lt_of_lt_mul hlt
    have hdw : ∀ e ∈ t.drop (start / a.PAGE_SIZE), wf_entry a 0 e = true :=
      fun e he => hwf e (List.drop_subset _ _ he)
    have hfd : flat_table a 0 (t.drop (start / a.PAGE_SIZE)) =
        (flat_table a 0 t).drop (start / a.PAGE_SIZE) := by
      have h := flat_table_drop a 0 t (start / a.PAGE_SIZE) hwf
      simpa using h
    have hfdl : (flat_table a 0 (t.drop (start / a.PAGE_SIZE))).length =
        (flat_table a 0 t).length - start / a.PAGE_SIZE := by
      rw [hfd, List.length_drop]
    obtain ⟨es2, heq, hflat, hwf2, hlen2⟩ :=
      map_go_zero_spec a (t.drop (start / a.PAGE_SIZE)) fr hdw
        (by
          intro i hi
          rw [hfd, getD_drop]
          refine hwin (start / a.PAGE_SIZE + i) (by omega) ?_
          rw [hfdl] at hi
          omega)
    rw [hfdl] at heq hflat
    refine ⟨t.take (start / a.PAGE_SIZE) ++ es2, ?_, ?_, ?_, ?_⟩
    · simp only [rec_map_to, entry_vm_size_zero, if_pos hoff, heq, Option.map_some']
    · rw [flat_table_append, hflat, hfd]
      have htk : flat_table a 0 (t.take (start / a.PAGE_SIZE)) =
          (flat_table a 0 t).take (start / a.PAGE_SIZE) := by
        have h := flat_table_take a 0 t (start / a.PAGE_SIZE) hwf
        simpa using h
      rw [htk, List.drop_drop]
      simp [List.append_assoc]
    · intro x hx
      rcases List.mem_append.1 hx with h | h
      · exact hwf x (List.take_subset _ _ h)
      · exact hwf2 x h
    · rw [List.length_append, List.length_take, hlen2, List.length_drop]
      omega
  | succ l ih =>
    have go_spec : ∀ es, MapGoSpec a l es := by
      intro es
      induction es with
      | nil =>
        intro fr cs hwfs hcsal hcslt hwins
        refine ⟨[], ?_, by simp, by simp, rfl⟩
        cases fr <;> simp [map_go_succ]
      | cons e rest iles =>
        cases e with
        | available =>
          refine map_go_succ_cons_spec a hEC hPS l .available rest
            (List.replicate a.ENTRY_COUNT .available) ih iles (fun _ => ?_) ?_
            (fun f fs cs => rfl)
          · rw [wf_entry_child_iff]
            refine ⟨List.length_replicate _ _, fun x hx => ?_⟩
            rw [List.eq_of_mem_replicate hx]
            cases l <;> rfl
          · rw [flat_entry_available, flat_table_replicate_available]
            congr 1
            rw [pow_succ, Nat.mul_comm]
        | child t0 =>
          exact map_go_succ_cons_spec a hEC hPS l (.child t0) rest t0 ih iles
            (fun h => h) rfl (fun f fs cs => rfl)
        | frame p =>
          intro fr cs hwfs hcsal hcslt hwins
          have := hwfs (.frame p) (by simp)
          simp [wf_entry] at this
        | guarded =>
          intro fr cs hwfs hcsal hcslt hwins
          cases fr with
          | nil =>
            refine ⟨.guarded :: rest, ?_, by simp, hwfs, rfl⟩
            simp [map_go_succ]
          | cons f fs =>
            exfalso
            have hsp : cs / a.PAGE_SIZE < a.ENTRY_COUNT ^ (l+1) := by
              have h1 := Nat.div_lt_div_of_lt_of_dvd
                (page_size_dvd_entry_vm_size a (l+1)) hcslt
              rwa [entry_vm_size, Nat.mul_div_cancel _ hPS] at h1
            have hPlen : a.ENTRY_COUNT ^ (l+1) ≤
                (flat_table a (l+1) (Entry.guarded :: rest)).length := by
              rw [flat_table_cons, List.length_append, flat_entry_guarded,
                List.length_replicate]
              omega
            have hfl : (f :: fs).length = fs.length + 1 := rfl
            have hg := hwins (cs / a.PAGE_SIZE) le_rfl (by omega)
            rw [flat_table_cons, flat_entry_guarded,
              getD_append_left _ _ _ _ (by rw [List.length_replicate]; exact hsp),
              getD_replicate _ _ _ _ hsp] at hg
            simp at hg
    intro t fr start hwf halign hlt hwin
    have hoff : start / entry_vm_size a (l+1) < a.ENTRY_COUNT := by
      have h := hlt
      rw [Nat.mul_comm] at h
      exact Nat.div_lt_of_lt_mul h
    have hcs_al : start % entry_vm_size a (l+1) % a.PAGE_SIZE = 0 := by
      rw [Nat.mod_mod_of_dvd _ (page_size_dvd_entry_vm_size a (l+1)), halign]
    have hcs_lt : start % entry_vm_size a (l+1) < entry_vm_size a (l+1) :=
      Nat.mod_lt _ (entry_vm_size_pos a (l+1) hEC hPS)
    have hidx : start / a.PAGE_SIZE =
        start / entry_vm_size a (l+1) * a.ENTRY_COUNT ^ (l+1) +
          start % entry_vm_size a (l+1) / a.PAGE_SIZE := by
      conv_lhs => rw [← Nat.div_add_mod start (entry_vm_size a (l+1))]
      have hev : entry_vm_size a (l+1) * (start / entry_vm_size a (l+1)) =
          start / entry_vm_size a (l+1) * a.ENTRY_COUNT ^ (l+1) * a.PAGE_SIZE := by
        rw [entry_vm_size]; ring
      rw [hev, Nat.add_comm, Nat.add_mul_div_right _ _ hPS, Nat.add_comm]
    have hdw : ∀ e ∈ t.drop (start / entry_vm_size a (l+1)), wf_entry a (l+1) e = true :=
      fun e he => hwf e (List.drop_subset _ _ he)
    have hfd : flat_table a (l+1) (t.drop (start / entry_vm_size a (l+1))) =
        (flat_table a (l+1) t).drop
          (start / entry_vm_size a (l+1) * a.ENTRY_COUNT ^ (l+1)) :=
      flat_table_drop a (l+1) t _ hwf
    have hfdl : (flat_table a (l+1) (t.drop (start / entry_vm_size a (l+1)))).length =
        (flat_table a (l+1) t).length -
          start / entry_vm_size a (l+1) * a.ENTRY_COUNT ^ (l+1) := by
      rw [hfd, List.length_drop]
    obtain ⟨es2, heq, hflat, hwf2, hlen2⟩ :=
      go_spec (t.drop (start / entry_vm_size a (l+1))) fr
        (start % entry_vm_size a (l+1)) hdw hcs_al hcs_lt
        (by
          intro i hi1 hi2
          rw [hfd, getD_drop]
          refine hwin (start / entry_vm_size a (l+1) * a.ENTRY_COUNT ^ (l+1) + i)
            (by omega) ?_
          rw [hfdl] at hi2
          omega)
    have hMin : min fr.length
        ((flat_table a (l+1) (t.drop (start / entry_vm_size a (l+1)))).length -
          start % entry_vm_size a (l+1) / a.PAGE_SIZE) =
        min fr.length ((flat_table a (l+1) t).length - start / a.PAGE_SIZE) := by
      rw [hfdl, hidx]
      omega
    rw [hMin] at heq hflat
    refine ⟨t.take (start / entry_vm_size a (l+1)) ++ es2, ?_, ?_, ?_, ?_⟩
    · simp only [rec_map_to, if_pos hoff, heq, Option.map_some']
    · rw [flat_table_append, hflat, hfd,
        flat_table_take a (l+1) t _ hwf, take_drop_assemble, ← hidx]
    · intro x hx
      rcases List.mem_append.1 hx with h | h
      · exact hwf x (List.take_subset _ _ h)
      · exact hwf2 x h
    · rw [List.length_append, List.length_take, hlen2, List.length_drop]
      omega

/-! ## The unmap traversal over a Present window

`rec_unmap` on a range that is entirely mapped: every frame in the range is
passed to the callback in ascending virtual-address order, the range becomes
Available, and nothing else changes. -/

/-- The physical frame of a Present page. -/
def page_frame : PageState → Option Nat
  | .Present p => some p
  | _ => none

theorem unmap_go_zero_spec (a : Arch) (hPS : 0 < a.PAGE_SIZE)
    (es : List Entry) (len cs : Nat)
    (hwf : ∀ e ∈ es, wf_entry a 0 e = true)
    (hlal : len % a.PAGE_SIZE = 0)
    (hwin : ∀ i, i < min (len / a.PAGE_SIZE) (flat_table a 0 es).length →
      ∃ p, (flat_table a 0 es).getD i .Guarded = .Present p) :
    ∃ es2, unmap_go_zero a es cs len =
        some (es2, len - min (len / a.PAGE_SIZE) (flat_table a 0 es).length * a.PAGE_SIZE,
          ((flat_table a 0 es).take
            (min (len / a.PAGE_SIZE) (flat_table a 0 es).length)).filterMap page_frame) ∧
      flat_table a 0 es2 =
        List.replicate (min (len / a.PAGE_SIZE) (flat_table a 0 es).length) .Available ++
          (flat_table a 0 es).drop (min (len / a.PAGE_SIZE) (flat_table a 0 es).length) ∧
      (∀ e ∈ es2, wf_entry a 0 e = true) ∧ es2.length = es.length := by
  induction es generalizing len cs with
  | nil =>
    refine ⟨[], ?_, by simp [flat_table], by simp, rfl⟩
    cases len with
    | zero => simp [unmap_go_zero]
    | succ n => simp [unmap_go_zero, flat_table]
  | cons e rest ih =>
    cases hlz : len with
    | zero =>
      refine ⟨e :: rest, by simp [unmap_go_zero], ?_, hwf, rfl⟩
      simp [Nat.zero_div]
    | succ n =>
      rw [← hlz]
      have hlen_pos : 0 < len := by omega
      have hdvd : a.PAGE_SIZE ∣ len := Nat.dvd_of_mod_eq_zero hlal
      have hPSle : a.PAGE_SIZE ≤ len := Nat.le_of_dvd hlen_pos hdvd
      have hq1 : 1 ≤ len / a.PAGE_SIZE := (Nat.one_le_div_iff hPS).2 hPSle
      have hwfe := hwf e (by simp)
      have hfllen : 0 < (flat_table a 0 (e :: rest)).length := by
        rcases e with _ | _ | p | t <;> simp [flat_table, flat_entry]
      have hk1 : 0 < min (len / a.PAGE_SIZE) (flat_table a 0 (e :: rest)).length := by
        omega
      cases e with
      | child t => simp [wf_entry] at hwfe
      | available =>
        obtain ⟨p, hp⟩ := hwin 0 hk1
        simp [flat_table, flat_entry, List.getD] at hp
      | guarded =>
        obtain ⟨p, hp⟩ := hwin 0 hk1
        simp [flat_table, flat_entry, List.getD] at hp
      | frame p =>
        have hsub_al : (len - a.PAGE_SIZE) % a.PAGE_SIZE = 0 :=
          Nat.dvd_iff_mod_eq_zero.mp (Nat.dvd_sub' hdvd dvd_rfl)
        have hsub_div : (len - a.PAGE_SIZE) / a.PAGE_SIZE = len / a.PAGE_SIZE - 1 := by
          have h1 : len - a.PAGE_SIZE = (len / a.PAGE_SIZE - 1) * a.PAGE_SIZE := by
            conv_lhs => rw [← Nat.div_mul_cancel hdvd]
            rw [Nat.sub_mul, Nat.one_mul]
          rw [h1, Nat.mul_div_cancel _ hPS]
        obtain ⟨rest2, heq, hflat, hwf2, hlen2⟩ := ih (len - a.PAGE_SIZE) 0
          (fun x hx => hwf x (List.mem_cons_of_mem _ hx)) hsub_al
          (fun i hi => by
            have := hwin (i + 1) (by
              rw [hsub_div] at hi
              simp only [flat_table_cons, flat_entry, List.length_append,
                List.length_cons, List.length_singleton] at *
              omega)
            simpa [flat_table, flat_entry, getD_cons_succ] using this)
        have hmin : min (len / a.PAGE_SIZE) (flat_table a 0 (.frame p :: rest)).length =
            min ((len - a.PAGE_SIZE) / a.PAGE_SIZE) (flat_table a 0 rest).length + 1 := by
          rw [hsub_div]
          simp only [flat_table_cons, flat_entry, List.length_append, List.length_singleton]
          omega
        refine ⟨.available :: rest2, ?_, ?_, ?_, by simpa using hlen2⟩
        · rw [hmin, unmap_go_zero_frame a p rest cs len (by omega), heq, Option.map_some']
          · have hrem : len - a.PAGE_SIZE -
                min ((len - a.PAGE_SIZE) / a.PAGE_SIZE) (flat_table a 0 rest).length *
                  a.PAGE_SIZE =
                len - (min ((len - a.PAGE_SIZE) / a.PAGE_SIZE)
                  (flat_table a 0 rest).length + 1) * a.PAGE_SIZE := by
              rw [Nat.sub_sub, Nat.add_mul, Nat.one_mul, Nat.add_comm]
            rw [hrem]
            have hcb : (flat_table a 0 (.frame p :: rest)).take
                (min ((len - a.PAGE_SIZE) / a.PAGE_SIZE) (flat_table a 0 rest).length + 1) =
                .Present p :: (flat_table a 0 rest).take
                  (min ((len - a.PAGE_SIZE) / a.PAGE_SIZE) (flat_table a 0 rest).length) := by
              simp [flat_table, flat_entry]
            rw [hcb]
            simp [page_frame]
        · rw [hmin]
          simp only [flat_table_cons, flat_entry, hflat]
          simp [List.replicate_succ, flat_table, flat_entry]
        · intro x hx
          rcases List.mem_cons.1 hx with rfl | hx2
          · rfl
          · exact hwf2 x hx2

/-- Specification of `rec_unmap` at one level on an entirely-Present window:
the window's frames are passed to the callback in ascending address order,
the window becomes Available, everything else is untouched. -/
def RecUnmapSpec (a : Arch) (level : Nat) : Prop :=
  ∀ (t : List Entry) (len start : Nat),
    (∀ e ∈ t, wf_entry a level e = true) →
    start % a.PAGE_SIZE = 0 →
    len % a.PAGE_SIZE = 0 →
    start < a.ENTRY_COUNT * entry_vm_size a level →
    (∀ i, start / a.PAGE_SIZE ≤ i →
        i < start / a.PAGE_SIZE +
          min (len / a.PAGE_SIZE)
            ((flat_table a level t).length - start / a.PAGE_SIZE) →
        ∃ p, (flat_table a level t).getD i .Guarded = .Present p) →
    ∃ t2, rec_unmap a level t start len =
        some (t2,
          len - min (len / a.PAGE_SIZE)
            ((flat_table a level t).length - start / a.PAGE_SIZE) * a.PAGE_SIZE,
          (((flat_table a level t).drop (start / a.PAGE_SIZE)).take
            (min (len / a.PAGE_SIZE)
              ((flat_table a level t).length - start / a.PAGE_SIZE))).filterMap
            page_frame) ∧
      flat_table a level t2 =
        (flat_table a level t).take (start / a.PAGE_SIZE) ++
          List.replicate (min (len / a.PAGE_SIZE)
            ((flat_table a level t).length - start / a.PAGE_SIZE)) .Available ++
          (flat_table a level t).drop (start / a.PAGE_SIZE +
            min (len / a.PAGE_SIZE)
              ((flat_table a level t).length - start / a.PAGE_SIZE)) ∧
      (∀ e ∈ t2, wf_entry a level e = true) ∧ t2.length = t.length

/-- Specification of the `rec_unmap` loop at a parent level, on a table
suffix. -/
def UnmapGoSpec (a : Arch) (l : Nat) (es : List Entry) : Prop :=
  ∀ (len cs : Nat),
    (∀ e ∈ es, wf_entry a (l+1) e = true) →
    cs % a.PAGE_SIZE = 0 →
    len % a.PAGE_SIZE = 0 →
    cs < entry_vm_size a (l+1) →
    (∀ i, cs / a.PAGE_SIZE ≤ i →
        i < cs / a.PAGE_SIZE +
          min (len / a.PAGE_SIZE)
            ((flat_table a (l+1) es).length - cs / a.PAGE_SIZE) →
        ∃ p, (flat_table a (l+1) es).getD i .Guarded = .Present p) →
    ∃ es2, unmap_go_succ a l (fun t0 s0 ln0 => rec_unmap a l t0 s0 ln0) es cs len =
        some (es2,
          len - min (len / a.PAGE_SIZE)
            ((flat_table a (l+1) es).length - cs / a.PAGE_SIZE) * a.PAGE_SIZE,
          (((flat_table a (l+1) es).drop (cs / a.PAGE_SIZE)).take
            (min (len / a.PAGE_SIZE)
              ((flat_table a (l+1) es).length - cs / a.PAGE_SIZE))).filterMap
            page_frame) ∧
      flat_table a (l+1) es2 =
        (flat_table a (l+1) es).take (cs / a.PAGE_SIZE) ++
          List.replicate (min (len / a.PAGE_SIZE)
            ((flat_table a (l+1) es).length - cs / a.PAGE_SIZE)) .Available ++
          (flat_table a (l+1) es).drop (cs / a.PAGE_SIZE +
            min (len / a.PAGE_SIZE)
              ((flat_table a (l+1) es).length - cs / a.PAGE_SIZE)) ∧
      (∀ e ∈ es2, wf_entry a (l+1) e = true) ∧ es2.length = es.length

theorem unmap_go_succ_cons_spec (a : Arch) (hEC : 0 < a.ENTRY_COUNT)
    (hPS : 0 < a.PAGE_SIZE) (l : Nat) (rest tc : List Entry)
    (IHrec : RecUnmapSpec a l) (IHrest : UnmapGoSpec a l rest) :
    UnmapGoSpec a l (.child tc :: rest) := by
  intro len cs hwfs hcsal hlal hcslt hwins
  rcases Nat.eq_zero_or_pos len with hl0 | hl0
  · subst hl0
    refine ⟨.child tc :: rest, ?_, ?_, hwfs, rfl⟩
    · rw [unmap_go_succ_len_zero]
      simp [Nat.zero_div]
    · simp [Nat.zero_div]
  obtain ⟨htclen, htcwf⟩ := (wf_entry_child_iff a l tc).1 (hwfs (.child tc) (by simp))
  have hwfrest : ∀ x ∈ rest, wf_entry a (l+1) x = true :=
    fun x hx => hwfs x (List.mem_cons_of_mem _ hx)
  have hcPlen : (flat_table a l tc).length = a.ENTRY_COUNT ^ (l+1) := by
    rw [length_flat_table a l tc htcwf, htclen, pow_succ, Nat.mul_comm]
  have hsp : cs / a.PAGE_SIZE < a.ENTRY_COUNT ^ (l+1) := by
    have h1 := Nat.div_lt_div_of_lt_of_dvd (page_size_dvd_entry_vm_size a (l+1)) hcslt
    rwa [entry_vm_size, Nat.mul_div_cancel _ hPS] at h1
  have hP : flat_table a (l+1) (.child tc :: rest) =
      flat_table a l tc ++ flat_table a (l+1) rest := by
    rw [flat_table_cons, flat_entry_child]
  have hPlen : (flat_table a (l+1) (.child tc :: rest)).length =
      a.ENTRY_COUNT ^ (l+1) + (flat_table a (l+1) rest).length := by
    rw [hP, List.length_append, hcPlen]
  have hdvd : a.PAGE_SIZE ∣ len := Nat.dvd_of_mod_eq_zero hlal
  -- run the child
  obtain ⟨ct2, hceq, hcflat, hcwf2, hclen2⟩ := IHrec tc len cs htcwf hcsal hlal
    (by rw [← entry_vm_size_succ]; exact hcslt)
    (by
      intro i hi1 hi2
      rw [hcPlen] at hi2
      have hiP : i < a.ENTRY_COUNT ^ (l+1) := by omega
      obtain ⟨p, hbig⟩ := hwins i hi1 (by rw [hPlen]; omega)
      rw [hP, getD_append_left _ _ _ _ (by rw [hcPlen]; exact hiP)] at hbig
      exact ⟨p, hbig⟩)
  rw [hcPlen] at hceq hcflat
  have hK1PS : min (len / a.PAGE_SIZE) (a.ENTRY_COUNT ^ (l+1) - cs / a.PAGE_SIZE) *
      a.PAGE_SIZE ≤ len := by
    calc min (len / a.PAGE_SIZE) (a.ENTRY_COUNT ^ (l+1) - cs / a.PAGE_SIZE) *
        a.PAGE_SIZE
        ≤ len / a.PAGE_SIZE * a.PAGE_SIZE :=
          Nat.mul_le_mul_right _ (Nat.min_le_left _ _)
      _ = len := Nat.div_mul_cancel hdvd
  have hsub_al : (len - min (len / a.PAGE_SIZE)
      (a.ENTRY_COUNT ^ (l+1) - cs / a.PAGE_SIZE) * a.PAGE_SIZE) % a.PAGE_SIZE = 0 :=
    Nat.dvd_iff_mod_eq_zero.mp (Nat.dvd_sub' hdvd (Dvd.intro_left _ rfl))
  have hsub_div : (len - min (len / a.PAGE_SIZE)
      (a.ENTRY_COUNT ^ (l+1) - cs / a.PAGE_SIZE) * a.PAGE_SIZE) / a.PAGE_SIZE =
      len / a.PAGE_SIZE - min (len / a.PAGE_SIZE)
        (a.ENTRY_COUNT ^ (l+1) - cs / a.PAGE_SIZE) := by
    have h1 : (len / a.PAGE_SIZE - min (len / a.PAGE_SIZE)
        (a.ENTRY_COUNT ^ (l+1) - cs / a.PAGE_SIZE)) * a.PAGE_SIZE =
        len - min (len / a.PAGE_SIZE)
          (a.ENTRY_COUNT ^ (l+1) - cs / a.PAGE_SIZE) * a.PAGE_SIZE := by
      rw [Nat.sub_mul, Nat.div_mul_cancel hdvd]
    rw [← h1, Nat.mul_div_cancel _ hPS]
  -- run the rest of this table
  obtain ⟨rest2, hreq, hrflat, hrwf2, hrlen2⟩ :=
    IHrest (len - min (len / a.PAGE_SIZE)
        (a.ENTRY_COUNT ^ (l+1) - cs / a.PAGE_SIZE) * a.PAGE_SIZE) 0
      hwfrest (Nat.zero_mod _) hsub_al (entry_vm_size_pos a (l+1) hEC hPS)
      (by
        intro i hi1 hi2
        simp only [Nat.zero_div, Nat.zero_add, Nat.sub_zero] at hi2
        rw [hsub_div] at hi2
        obtain ⟨p, hbig⟩ := hwins (a.ENTRY_COUNT ^ (l+1) + i) (by omega)
          (by rw [hPlen]; omega)
        rw [hP] at hbig
        have hidx : a.ENTRY_COUNT ^ (l+1) + i = (flat_table a l tc).length + i := by
          rw [hcPlen]
        rw [hidx, getD_append_right] at hbig
        exact ⟨p, hbig⟩)
  simp only [Nat.zero_div, Nat.zero_add, Nat.sub_zero, List.take_zero, List.drop_zero,
    List.nil_append] at hreq hrflat
  rw [hsub_div] at hreq hrflat
  have hKsplit : min (len / a.PAGE_SIZE)
      ((flat_table a (l+1) (.child tc :: rest)).length - cs / a.PAGE_SIZE) =
      min (len / a.PAGE_SIZE) (a.ENTRY_COUNT ^ (l+1) - cs / a.PAGE_SIZE) +
      min (len / a.PAGE_SIZE -
          min (len / a.PAGE_SIZE) (a.ENTRY_COUNT ^ (l+1) - cs / a.PAGE_SIZE))
        (flat_table a (l+1) rest).length := by
    rw [hPlen]; omega
  have hwdecomp : ((flat_table a (l+1) (.child tc :: rest)).drop (cs / a.PAGE_SIZE)).take
      (min (len / a.PAGE_SIZE)
        ((flat_table a (l+1) (.child tc :: rest)).length - cs / a.PAGE_SIZE)) =
      ((flat_table a l tc).drop (cs / a.PAGE_SIZE)).take
        (min (len / a.PAGE_SIZE) (a.ENTRY_COUNT ^ (l+1) - cs / a.PAGE_SIZE)) ++
      (flat_table a (l+1) rest).take
        (min (len / a.PAGE_SIZE -
            min (len / a.PAGE_SIZE) (a.ENTRY_COUNT ^ (l+1) - cs / a.PAGE_SIZE))
          (flat_table a (l+1) rest).length) := by
    rw [hKsplit, hP, List.drop_append_of_le_length (by rw [hcPlen]; omega),
      List.take_add]
    congr 1
    · apply List.take_append_of_le_length
      rw [List.length_drop, hcPlen]
      omega
    · rcases Nat.le_total (a.ENTRY_COUNT ^ (l+1) - cs / a.PAGE_SIZE)
          (len / a.PAGE_SIZE) with hA | hB
      · have hk1 : min (len / a.PAGE_SIZE)
            (a.ENTRY_COUNT ^ (l+1) - cs / a.PAGE_SIZE) =
            a.ENTRY_COUNT ^ (l+1) - cs / a.PAGE_SIZE := by omega
        rw [hk1]
        have hfull : ((flat_table a l tc).drop (cs / a.PAGE_SIZE)).length =
            a.ENTRY_COUNT ^ (l+1) - cs / a.PAGE_SIZE := by
          rw [List.length_drop, hcPlen]
        have hxy : ((flat_table a l tc).drop (cs / a.PAGE_SIZE) ++
            flat_table a (l+1) rest).drop (a.ENTRY_COUNT ^ (l+1) - cs / a.PAGE_SIZE) =
            flat_table a (l+1) rest := by
          conv_lhs => rw [← hfull]
          exact List.drop_left _ _
        rw [hxy]
      · have hk2 : min (len / a.PAGE_SIZE -
            min (len / a.PAGE_SIZE) (a.ENTRY_COUNT ^ (l+1) - cs / a.PAGE_SIZE))
            (flat_table a (l+1) rest).length = 0 := by omega
        rw [hk2]
        simp
  refine ⟨.child ct2 :: rest2, ?_, ?_, ?_, by simpa using hrlen2⟩
  · rw [unmap_go_succ_child a l _ tc rest cs len (by omega), hceq, Option.some_bind,
      hreq, Option.map_some']
    rw [hwdecomp, List.filterMap_append, hKsplit]
    have hrem : len - min (len / a.PAGE_SIZE)
        (a.ENTRY_COUNT ^ (l+1) - cs / a.PAGE_SIZE) * a.PAGE_SIZE -
        min (len / a.PAGE_SIZE -
          min (len / a.PAGE_SIZE) (a.ENTRY_COUNT ^ (l+1) - cs / a.PAGE_SIZE))
          (flat_table a (l+1) rest).length * a.PAGE_SIZE =
        len - (min (len / a.PAGE_SIZE) (a.ENTRY_COUNT ^ (l+1) - cs / a.PAGE_SIZE) +
          min (len / a.PAGE_SIZE -
            min (len / a.PAGE_SIZE) (a.ENTRY_COUNT ^ (l+1) - cs / a.PAGE_SIZE))
            (flat_table a (l+1) rest).length) * a.PAGE_SIZE := by
      rw [Nat.sub_sub, Nat.add_mul]
    rw [hrem]
  · rw [flat_table_cons, flat_entry_child, hcflat, hrflat, hKsplit, hP,
      List.replicate_add]
    rcases Nat.le_total (a.ENTRY_COUNT ^ (l+1) - cs / a.PAGE_SIZE)
        (len / a.PAGE_SIZE) with hA | hB
    · have hk1 : min (len / a.PAGE_SIZE)
          (a.ENTRY_COUNT ^ (l+1) - cs / a.PAGE_SIZE) =
          a.ENTRY_COUNT ^ (l+1) - cs / a.PAGE_SIZE := by omega
      rw [hk1]
      rw [List.take_append_of_le_length (by rw [hcPlen]; omega)]
      have hdfull : (flat_table a l tc).drop
          (cs / a.PAGE_SIZE + (a.ENTRY_COUNT ^ (l+1) - cs / a.PAGE_SIZE)) = [] := by
        apply List.drop_eq_nil_of_le
        rw [hcPlen]; omega
      rw [hdfull]
      have hdrop2 : (flat_table a l tc ++ flat_table a (l+1) rest).drop
          (cs / a.PAGE_SIZE + ((a.ENTRY_COUNT ^ (l+1) - cs / a.PAGE_SIZE) +
            min (len / a.PAGE_SIZE - (a.ENTRY_COUNT ^ (l+1) - cs / a.PAGE_SIZE))
              (flat_table a (l+1) rest).length)) =
          (flat_table a (l+1) rest).drop
            (min (len / a.PAGE_SIZE - (a.ENTRY_COUNT ^ (l+1) - cs / a.PAGE_SIZE))
              (flat_table a (l+1) rest).length) := by
        have hidx : cs / a.PAGE_SIZE + ((a.ENTRY_COUNT ^ (l+1) - cs / a.PAGE_SIZE) +
            min (len / a.PAGE_SIZE - (a.ENTRY_COUNT ^ (l+1) - cs / a.PAGE_SIZE))
              (flat_table a (l+1) rest).length) =
            (flat_table a l tc).length +
            min (len / a.PAGE_SIZE - (a.ENTRY_COUNT ^ (l+1) - cs / a.PAGE_SIZE))
              (flat_table a (l+1) rest).length := by
          rw [hcPlen]; omega
        rw [hidx, List.drop_append]
      rw [hdrop2]
      simp only [List.append_nil, List.nil_append, List.append_assoc]
    · have hk1 : min (len / a.PAGE_SIZE)
          (a.ENTRY_COUNT ^ (l+1) - cs / a.PAGE_SIZE) = len / a.PAGE_SIZE := by omega
      have hk2 : min (len / a.PAGE_SIZE -
          min (len / a.PAGE_SIZE) (a.ENTRY_COUNT ^ (l+1) - cs / a.PAGE_SIZE))
          (flat_table a (l+1) rest).length = 0 := by omega
      rw [hk1] at hk2 ⊢
      rw [hk2]
      simp only [Nat.add_zero, List.replicate_zero, List.append_nil]
      rw [List.take_append_of_le_length (by rw [hcPlen]; omega)]
      have hdrop3 : (flat_table a l tc ++ flat_table a (l+1) rest).drop
          (cs / a.PAGE_SIZE + len / a.PAGE_SIZE) =
          (flat_table a l tc).drop (cs / a.PAGE_SIZE + len / a.PAGE_SIZE) ++
            flat_table a (l+1) rest := by
        apply List.drop_append_of_le_length
        rw [hcPlen]; omega
      rw [hdrop3]
      simp [List.append_assoc]
  · intro x hx
    rcases List.mem_cons.1 hx with rfl | hx2
    · rw [wf_entry_child_iff]
      exact ⟨by rw [hclen2, htclen], hcwf2⟩
    · exact hrwf2 x hx2

theorem rec_unmap_spec (a : Arch) (hEC : 0 < a.ENTRY_COUNT) (hPS : 0 < a.PAGE_SIZE) :
    ∀ level, RecUnmapSpec a level := by
  intro level
  induction level with
  | zero =>
    intro t len start hwf halign hlal hlt hwin
    have hoff : start / a.PAGE_SIZE < a.ENTRY_COUNT := by
      rw [entry_vm_size_zero, Nat.mul_comm] at hlt
      exact Nat.div_lt_of_lt_mul hlt
    have hdw : ∀ e ∈ t.drop (start / a.PAGE_SIZE), wf_entry a 0 e = true :=
      fun e he => hwf e (List.drop_subset _ _ he)
    have hfd : flat_table a 0 (t.drop (start / a.PAGE_SIZE)) =
        (flat_table a 0 t).drop (start / a.PAGE_SIZE) := by
      have h := flat_table_drop a 0 t (start / a.PAGE_SIZE) hwf
      simpa using h
    have hfdl : (flat_table a 0 (t.drop (start / a.PAGE_SIZE))).length =
        (flat_table a 0 t).length - start / a.PAGE_SIZE := by
      rw [hfd, List.length_drop]
    obtain ⟨es2, heq, hflat, hwf2, hlen2⟩ :=
      unmap_go_zero_spec a hPS (t.drop (start / a.PAGE_SIZE)) len
        (start % a.PAGE_SIZE) hdw hlal
        (by
          intro i hi
          rw [hfd, getD_drop]
          refine hwin (start / a.PAGE_SIZE + i) (by omega) ?_
          rw [hfdl] at hi
          omega)
    rw [hfdl] at heq hflat
    rw [hfd] at heq hflat
    refine ⟨t.take (start / a.PAGE_SIZE) ++ es2, ?_, ?_, ?_, ?_⟩
    · simp only [rec_unmap, entry_vm_size_zero, if_pos hoff, heq, Option.map_some']
    · rw [flat_table_append, hflat]
      have htk : flat_table a 0 (t.take (start / a.PAGE_SIZE)) =
          (flat_table a 0 t).take (start / a.PAGE_SIZE) := by
        have h := flat_table_take a 0 t (start / a.PAGE_SIZE) hwf
        simpa using h
      rw [htk, List.drop_drop]
      simp [List.append_assoc]
    · intro x hx
      rcases List.mem_append.1 hx with h | h
      · exact hwf x (List.take_subset _ _ h)
      · exact hwf2 x h
    · rw [List.length_append, List.length_take, hlen2, List.length_drop]
      omega
  | succ l ih =>
    have go_spec : ∀ es, UnmapGoSpec a l es := by
      intro es
      induction es with
      | nil =>
        intro len cs hwfs hcsal hlal hcslt hwins
        refine ⟨[], ?_, by simp, by simp, rfl⟩
        rw [unmap_go_succ_nil]
        simp
      | cons e rest iles =>
        cases e with
        | child t0 => exact unmap_go_succ_cons_spec a hEC hPS l rest t0 ih iles
        | frame p =>
          intro len cs hwfs hcsal hlal hcslt hwins
          have := hwfs (.frame p) (by simp)
          simp [wf_entry] at this
        | available =>
          intro len cs hwfs hcsal hlal hcslt hwins
          rcases Nat.eq_zero_or_pos len with hl0 | hl0
          · subst hl0
            refine ⟨.available :: rest, ?_, ?_, hwfs, rfl⟩
            · rw [unmap_go_succ_len_zero]
              simp [Nat.zero_div]
            · simp [Nat.zero_div]
          · exfalso
            have hsp : cs / a.PAGE_SIZE < a.ENTRY_COUNT ^ (l+1) := by
              have h1 := Nat.div_lt_div_of_lt_of_dvd
                (page_size_dvd_entry_vm_size a (l+1)) hcslt
              rwa [entry_vm_size, Nat.mul_div_cancel _ hPS] at h1
            have hdvd : a.PAGE_SIZE ∣ len := Nat.dvd_of_mod_eq_zero hlal
            have hq1 : 1 ≤ len / a.PAGE_SIZE :=
              (Nat.one_le_div_iff hPS).2 (Nat.le_of_dvd hl0 hdvd)
            have hPlen : a.ENTRY_COUNT ^ (l+1) ≤
                (flat_table a (l+1) (Entry.available :: rest)).length := by
              rw [flat_table_cons, List.length_append, flat_entry_available,
                List.length_replicate]
              omega
            obtain ⟨p, hp⟩ := hwins (cs / a.PAGE_SIZE) le_rfl (by omega)
            rw [flat_table_cons, flat_entry_available,
              getD_append_left _ _ _ _ (by rw [List.length_replicate]; exact hsp),
              getD_replicate _ _ _ _ hsp] at hp
            simp at hp
        | guarded =>
          intro len cs hwfs hcsal hlal hcslt hwins
          rcases Nat.eq_zero_or_pos len with hl0 | hl0
          · subst hl0
            refine ⟨.guarded :: rest, ?_, ?_, hwfs, rfl⟩
            · rw [unmap_go_succ_len_zero]
              simp [Nat.zero_div]
            · simp [Nat.zero_div]
          · exfalso
            have hsp : cs / a.PAGE_SIZE < a.ENTRY_COUNT ^ (l+1) := by
              have h1 := Nat.div_lt_div_of_lt_of_dvd
                (page_size_dvd_entry_vm_size a (l+1)) hcslt
              rwa [entry_vm_size, Nat.mul_div_cancel _ hPS] at h1
            have hdvd : a.PAGE_SIZE ∣ len := Nat.dvd_of_mod_eq_zero hlal
            have hq1 : 1 ≤ len / a.PAGE_SIZE :=
              (Nat.one_le_div_iff hPS).2 (Nat.le_of_dvd hl0 hdvd)
            have hPlen : a.ENTRY_COUNT ^ (l+1) ≤
                (flat_table a (l+1) (Entry.guarded :: rest)).length := by
              rw [flat_table_cons, List.length_append, flat_entry_guarded,
                List.length_replicate]
              omega
            obtain ⟨p, hp⟩ := hwins (cs / a.PAGE_SIZE) le_rfl (by omega)
            rw [flat_table_cons, flat_entry_guarded,
              getD_append_left _ _ _ _ (by rw [List.length_replicate]; exact hsp),
              getD_replicate _ _ _ _ hsp] at hp
            simp at hp
    intro t len start hwf halign hlal hlt hwin
    have hoff : start / entry_vm_size a (l+1) < a.ENTRY_COUNT := by
      have h := hlt
      rw [Nat.mul_comm] at h
      exact Nat.div_lt_of_lt_mul h
    have hcs_al : start % entry_vm_size a (l+1) % a.PAGE_SIZE = 0 := by
      rw [Nat.mod_mod_of_dvd _ (page_size_dvd_entry_vm_size a (l+1)), halign]
    have hcs_lt : start % entry_vm_size a (l+1) < entry_vm_size a (l+1) :=
      Nat.mod_lt _ (entry_vm_size_pos a (l+1) hEC hPS)
    have hidx : start / a.PAGE_SIZE =
        start / entry_vm_size a (l+1) * a.ENTRY_COUNT ^ (l+1) +
          start % entry_vm_size a (l+1) / a.PAGE_SIZE := by
      conv_lhs => rw [← Nat.div_add_mod start (entry_vm_size a (l+1))]
      have hev : entry_vm_size a (l+1) * (start / entry_vm_size a (l+1)) =
          start / entry_vm_size a (l+1) * a.ENTRY_COUNT ^ (l+1) * a.PAGE_SIZE := by
        rw [entry_vm_size]; ring
      rw [hev, Nat.add_comm, Nat.add_mul_div_right _ _ hPS, Nat.add_comm]
    have hdw : ∀ e ∈ t.drop (start / entry_vm_size a (l+1)),
        wf_entry a (l+1) e = true :=
      fun e he => hwf e (List.drop_subset _ _ he)
    have hfd : flat_table a (l+1) (t.drop (start / entry_vm_size a (l+1))) =
        (flat_table a (l+1) t).drop
          (start / entry_vm_size a (l+1) * a.ENTRY_COUNT ^ (l+1)) :=
      flat_table_drop a (l+1) t _ hwf
    have hfdl : (flat_table a (l+1) (t.drop (start / entry_vm_size a (l+1)))).length =
        (flat_table a (l+1) t).length -
          start / entry_vm_size a (l+1) * a.ENTRY_COUNT ^ (l+1) := by
      rw [hfd, List.length_drop]
    obtain ⟨es2, heq, hflat, hwf2, hlen2⟩ :=
      go_spec (t.drop (start / entry_vm_size a (l+1))) len
        (start % entry_vm_size a (l+1)) hdw hcs_al hlal hcs_lt
        (by
          intro i hi1 hi2
          rw [hfd, getD_drop]
          refine hwin (start / entry_vm_size a (l+1) * a.ENTRY_COUNT ^ (l+1) + i)
            (by omega) ?_
          rw [hfdl] at hi2
          omega)
    have hMin : min (len / a.PAGE_SIZE)
        ((flat_table a (l+1) (t.drop (start / entry_vm_size a (l+1)))).length -
          start % entry_vm_size a (l+1) / a.PAGE_SIZE) =
        min (len / a.PAGE_SIZE)
          ((flat_table a (l+1) t).length - start / a.PAGE_SIZE) := by
      rw [hfdl, hidx]
      omega
    rw [hMin] at heq hflat
    rw [hfd] at heq hflat
    have hdd : ((flat_table a (l+1) t).drop
        (start / entry_vm_size a (l+1) * a.ENTRY_COUNT ^ (l+1))).drop
          (start % entry_vm_size a (l+1) / a.PAGE_SIZE) =
        (flat_table a (l+1) t).drop (start / a.PAGE_SIZE) := by
      rw [List.drop_drop, ← hidx]
    rw [hdd] at heq
    refine ⟨t.take (start / entry_vm_size a (l+1)) ++ es2, ?_, ?_, ?_, ?_⟩
    · simp only [rec_unmap, if_pos hoff, heq, Option.map_some']
    · rw [flat_table_append, hflat,
        flat_table_take a (l+1) t _ hwf, take_drop_assemble, ← hidx]
    · intro x hx
      rcases List.mem_append.1 hx with h | h
      · exact hwf x (List.take_subset _ _ h)
      · exact hwf2 x h
    · rw [List.length_append, List.length_take, hlen2, List.length_drop]
      omega

/-! ## Guard followed by unmap over an Available window

`rec_guard` on an entirely-Available window turns exactly the window
Guarded; running `rec_unmap` on the result over the same range clears it
back to Available, never invoking the callback. -/

theorem guard_go_zero_spec (a : Arch) (hPS : 0 < a.PAGE_SIZE)
    (es : List Entry) (len : Nat)
    (hwf : ∀ e ∈ es, wf_entry a 0 e = true)
    (hlal : len % a.PAGE_SIZE = 0)
    (hwin : ∀ i, i < min (len / a.PAGE_SIZE) (flat_table a 0 es).length →
      (flat_table a 0 es).getD i .Guarded = .Available) :
    ∃ es2, guard_go_zero a es 0 len =
        some (es2, len - min (len / a.PAGE_SIZE) (flat_table a 0 es).length *
          a.PAGE_SIZE) ∧
      flat_table a 0 es2 =
        List.replicate (min (len / a.PAGE_SIZE) (flat_table a 0 es).length) .Guarded ++
          (flat_table a 0 es).drop (min (len / a.PAGE_SIZE) (flat_table a 0 es).length) ∧
      (∀ e ∈ es2, wf_entry a 0 e = true) ∧ es2.length = es.length ∧
      ∃ es3, unmap_go_zero a es2 0 len =
          some (es3, len - min (len / a.PAGE_SIZE) (flat_table a 0 es).length *
            a.PAGE_SIZE, []) ∧
        flat_table a 0 es3 = flat_table a 0 es ∧
        (∀ e ∈ es3, wf_entry a 0 e = true) ∧ es3.length = es2.length := by
  induction es generalizing len with
  | nil =>
    refine ⟨[], ?_, by simp [flat_table], by simp, rfl, [], ?_, by simp [flat_table],
      by simp, rfl⟩
    · rw [guard_go_zero_nil]
      simp [flat_table]
    · rw [unmap_go_zero_nil]
      simp [flat_table]
  | cons e rest ih =>
    rcases Nat.eq_zero_or_pos len with hl0 | hl0
    · subst hl0
      refine ⟨e :: rest, ?_, by simp [Nat.zero_div], hwf, rfl, e :: rest, ?_,
        rfl, hwf, rfl⟩
      · rw [guard_go_zero_len_zero]
        simp [Nat.zero_div]
      · rw [unmap_go_zero_len_zero]
        simp [Nat.zero_div]
    · have hdvd : a.PAGE_SIZE ∣ len := Nat.dvd_of_mod_eq_zero hlal
      have hPSle : a.PAGE_SIZE ≤ len := Nat.le_of_dvd hl0 hdvd
      have hq1 : 1 ≤ len / a.PAGE_SIZE := (Nat.one_le_div_iff hPS).2 hPSle
      have hwfe := hwf e (by simp)
      have hfllen : 0 < (flat_table a 0 (e :: rest)).length := by
        rcases e with _ | _ | p | t <;> simp [flat_table, flat_entry]
      have hk1 : 0 < min (len / a.PAGE_SIZE) (flat_table a 0 (e :: rest)).length := by
        omega
      cases e with
      | child t => simp [wf_entry] at hwfe
      | guarded =>
        have := hwin 0 hk1
        simp [flat_table, flat_entry, List.getD] at this
      | frame p =>
        have := hwin 0 hk1
        simp [flat_table, flat_entry, List.getD] at this
      | available =>
        have hsub_al : (len - a.PAGE_SIZE) % a.PAGE_SIZE = 0 :=
          Nat.dvd_iff_mod_eq_zero.mp (Nat.dvd_sub' hdvd dvd_rfl)
        have hsub_div : (len - a.PAGE_SIZE) / a.PAGE_SIZE = len / a.PAGE_SIZE - 1 := by
          have h1 : len - a.PAGE_SIZE = (len / a.PAGE_SIZE - 1) * a.PAGE_SIZE := by
            conv_lhs => rw [← Nat.div_mul_cancel hdvd]
            rw [Nat.sub_mul, Nat.one_mul]
          rw [h1, Nat.mul_div_cancel _ hPS]
        obtain ⟨rest2, heq, hflat, hwf2, hlen2, rest3, heq3, hflat3, hwf3, hlen3⟩ :=
          ih (len - a.PAGE_SIZE)
            (fun x hx => hwf x (List.mem_cons_of_mem _ hx)) hsub_al
            (fun i hi => by
              have := hwin (i + 1) (by
                rw [hsub_div] at hi
                simp only [flat_table_cons, flat_entry, List.length_append,
                  List.length_cons, List.length_singleton] at *
                omega)
              simpa [flat_table, flat_entry, getD_cons_succ] using this)
        have hmin : min (len / a.PAGE_SIZE) (flat_table a 0 (.available :: rest)).length =
            min ((len - a.PAGE_SIZE) / a.PAGE_SIZE) (flat_table a 0 rest).length + 1 := by
          rw [hsub_div]
          simp only [flat_table_cons, flat_entry, List.length_append, List.length_singleton]
          omega
        have hrem : len - a.PAGE_SIZE -
            min ((len - a.PAGE_SIZE) / a.PAGE_SIZE) (flat_table a 0 rest).length *
              a.PAGE_SIZE =
            len - (min ((len - a.PAGE_SIZE) / a.PAGE_SIZE)
              (flat_table a 0 rest).length + 1) * a.PAGE_SIZE := by
          rw [Nat.sub_sub, Nat.add_mul, Nat.one_mul, Nat.add_comm]
        refine ⟨.guarded :: rest2, ?_, ?_, ?_, by simpa using hlen2,
          .available :: rest3, ?_, ?_, ?_, by simpa using hlen3⟩
        · rw [hmin, guard_go_zero_available a rest 0 len (by omega),
            if_pos ⟨hPSle, rfl⟩, heq, Option.map_some', hrem]
        · rw [hmin]
          simp only [flat_table_cons, flat_entry, hflat]
          simp [List.replicate_succ, flat_table, flat_entry]
        · intro x hx
          rcases List.mem_cons.1 hx with rfl | hx2
          · rfl
          · exact hwf2 x hx2
        · rw [hmin, unmap_go_zero_guarded a rest2 0 len (by omega),
            if_pos (by rw [entry_vm_size_zero]; exact hPSle), entry_vm_size_zero,
            heq3, Option.map_some', hrem]
        · simp only [flat_table_cons, flat_entry, hflat3]
        · intro x hx
          rcases List.mem_cons.1 hx with rfl | hx2
          · rfl
          · exact hwf3 x hx2

/-- Paired specification of `rec_guard` followed by `rec_unmap` over the
same Available window. -/
def RecGuardUnmapSpec (a : Arch) (level : Nat) : Prop :=
  ∀ (t : List Entry) (len start : Nat),
    (∀ e ∈ t, wf_entry a level e = true) →
    start % a.PAGE_SIZE = 0 →
    len % a.PAGE_SIZE = 0 →
    start < a.ENTRY_COUNT * entry_vm_size a level →
    start / entry_vm_size a level ≤ t.length →
    (∀ i, start / a.PAGE_SIZE ≤ i →
        i < start / a.PAGE_SIZE +
          min (len / a.PAGE_SIZE)
            ((flat_table a level t).length - start / a.PAGE_SIZE) →
        (flat_table a level t).getD i .Guarded = .Available) →
    ∃ t2, rec_guard a level t start len =
        some (t2, len - min (len / a.PAGE_SIZE)
          ((flat_table a level t).length - start / a.PAGE_SIZE) * a.PAGE_SIZE) ∧
      flat_table a level t2 =
        (flat_table a level t).take (start / a.PAGE_SIZE) ++
          List.replicate (min (len / a.PAGE_SIZE)
            ((flat_table a level t).length - start / a.PAGE_SIZE)) .Guarded ++
          (flat_table a level t).drop (start / a.PAGE_SIZE +
            min (len / a.PAGE_SIZE)
              ((flat_table a level t).length - start / a.PAGE_SIZE)) ∧
      (∀ e ∈ t2, wf_entry a level e = true) ∧ t2.length = t.length ∧
      ∃ t3, rec_unmap a level t2 start len =
          some (t3, len - min (len / a.PAGE_SIZE)
            ((flat_table a level t).length - start / a.PAGE_SIZE) * a.PAGE_SIZE, []) ∧
        flat_table a level t3 = flat_table a level t ∧
        (∀ e ∈ t3, wf_entry a level e = true) ∧ t3.length = t2.length

/-- Paired specification of the guard loop followed by the unmap loop at a
parent level, on a table suffix. -/
def GuardGoUnmapSpec (a : Arch) (l : Nat) (es : List Entry) : Prop :=
  ∀ (len cs : Nat),
    (∀ e ∈ es, wf_entry a (l+1) e = true) →
    cs % a.PAGE_SIZE = 0 →
    len % a.PAGE_SIZE = 0 →
    cs < entry_vm_size a (l+1) →
    (∀ i, cs / a.PAGE_SIZE ≤ i →
        i < cs / a.PAGE_SIZE +
          min (len / a.PAGE_SIZE)
            ((flat_table a (l+1) es).length - cs / a.PAGE_SIZE) →
        (flat_table a (l+1) es).getD i .Guarded = .Available) →
    ∃ es2, guard_go_succ a l (fun t0 s0 ln0 => rec_guard a l t0 s0 ln0) es cs len =
        some (es2, len - min (len / a.PAGE_SIZE)
          ((flat_table a (l+1) es).length - cs / a.PAGE_SIZE) * a.PAGE_SIZE) ∧
      flat_table a (l+1) es2 =
        (flat_table a (l+1) es).take (cs / a.PAGE_SIZE) ++
          List.replicate (min (len / a.PAGE_SIZE)
            ((flat_table a (l+1) es).length - cs / a.PAGE_SIZE)) .Guarded ++
          (flat_table a (l+1) es).drop (cs / a.PAGE_SIZE +
            min (len / a.PAGE_SIZE)
              ((flat_table a (l+1) es).length - cs / a.PAGE_SIZE)) ∧
      (∀ e ∈ es2, wf_entry a (l+1) e = true) ∧ es2.length = es.length ∧
      ∃ es3, unmap_go_succ a l (fun t0 s0 ln0 => rec_unmap a l t0 s0 ln0) es2 cs len =
          some (es3, len - min (len / a.PAGE_SIZE)
            ((flat_table a (l+1) es).length - cs / a.PAGE_SIZE) * a.PAGE_SIZE, []) ∧
        flat_table a (l+1) es3 = flat_table a (l+1) es ∧
        (∀ e ∈ es3, wf_entry a (l+1) e = true) ∧ es3.length = es2.length

theorem guard_go_succ_cons_spec (a : Arch) (hEC : 0 < a.ENTRY_COUNT)
    (hPS : 0 < a.PAGE_SIZE) (l : Nat) (e : Entry) (rest tc : List Entry)
    (IHrec : RecGuardUnmapSpec a l) (IHrest : GuardGoUnmapSpec a l rest)
    (hgood : wf_entry a (l+1) e = true → wf_entry a (l+1) (.child tc) = true)
    (htcflat : flat_entry a (l+1) e = flat_table a l tc)
    (len cs : Nat) (hl0 : 0 < len)
    (hshape : guard_go_succ a l (fun t0 s0 ln0 => rec_guard a l t0 s0 ln0)
        (e :: rest) cs len =
      (rec_guard a l tc cs len).bind fun c =>
        (guard_go_succ a l (fun t0 s0 ln0 => rec_guard a l t0 s0 ln0) rest 0 c.2).map
          fun r => (.child c.1 :: r.1, r.2))
    (hwfs : ∀ x ∈ e :: rest, wf_entry a (l+1) x = true)
    (hcsal : cs % a.PAGE_SIZE = 0)
    (hlal : len % a.PAGE_SIZE = 0)
    (hcslt : cs < entry_vm_size a (l+1))
    (hwins : ∀ i, cs / a.PAGE_SIZE ≤ i →
        i < cs / a.PAGE_SIZE +
          min (len / a.PAGE_SIZE)
            ((flat_table a (l+1) (e :: rest)).length - cs / a.PAGE_SIZE) →
        (flat_table a (l+1) (e :: rest)).getD i .Guarded = .Available) :
    ∃ es2, guard_go_succ a l (fun t0 s0 ln0 => rec_guard a l t0 s0 ln0)
        (e :: rest) cs len =
        some (es2, len - min (len / a.PAGE_SIZE)
          ((flat_table a (l+1) (e :: rest)).length - cs / a.PAGE_SIZE) * a.PAGE_SIZE) ∧
      flat_table a (l+1) es2 =
        (flat_table a (l+1) (e :: rest)).take (cs / a.PAGE_SIZE) ++
          List.replicate (min (len / a.PAGE_SIZE)
            ((flat_table a (l+1) (e :: rest)).length - cs / a.PAGE_SIZE)) .Guarded ++
          (flat_table a (l+1) (e :: rest)).drop (cs / a.PAGE_SIZE +
            min (len / a.PAGE_SIZE)
              ((flat_table a (l+1) (e :: rest)).length - cs / a.PAGE_SIZE)) ∧
      (∀ x ∈ es2, wf_entry a (l+1) x = true) ∧ es2.length = (e :: rest).length ∧
      ∃ es3, unmap_go_succ a l (fun t0 s0 ln0 => rec_unmap a l t0 s0 ln0) es2 cs len =
          some (es3, len - min (len / a.PAGE_SIZE)
            ((flat_table a (l+1) (e :: rest)).length - cs / a.PAGE_SIZE) * a.PAGE_SIZE,
            []) ∧
        flat_table a (l+1) es3 = flat_table a (l+1) (e :: rest) ∧
        (∀ x ∈ es3, wf_entry a (l+1) x = true) ∧ es3.length = es2.length := by
  obtain ⟨htclen, htcwf⟩ := (wf_entry_child_iff a l tc).1 (hgood (hwfs e (by simp)))
  have hwfrest : ∀ x ∈ rest, wf_entry a (l+1) x = true :=
    fun x hx => hwfs x (List.mem_cons_of_mem _ hx)
  have hcPlen : (flat_table a l tc).length = a.ENTRY_COUNT ^ (l+1) := by
    rw [length_flat_table a l tc htcwf, htclen, pow_succ, Nat.mul_comm]
  have hsp : cs / a.PAGE_SIZE < a.ENTRY_COUNT ^ (l+1) := by
    have h1 := Nat.div_lt_div_of_lt_of_dvd (page_size_dvd_entry_vm_size a (l+1)) hcslt
    rwa [entry_vm_size, Nat.mul_div_cancel _ hPS] at h1
  have hP : flat_table a (l+1) (e :: rest) =
      flat_table a l tc ++ flat_table a (l+1) rest := by
    rw [flat_table_cons, htcflat]
  have hPlen : (flat_table a (l+1) (e :: rest)).length =
      a.ENTRY_COUNT ^ (l+1) + (flat_table a (l+1) rest).length := by
    rw [hP, List.length_append, hcPlen]
  have hdvd : a.PAGE_SIZE ∣ len := Nat.dvd_of_mod_eq_zero hlal
  have hoffc : cs / entry_vm_size a l ≤ tc.length := by
    have h1 : cs / entry_vm_size a l < a.ENTRY_COUNT := by
      apply Nat.div_lt_of_lt_mul
      rw [Nat.mul_comm, ← entry_vm_size_succ]
      exact hcslt
    omega
  -- run the child (guard then unmap)
  obtain ⟨ct2, hceq, hcflat, hcwf2, hclen2, ct3, hceq3, hcflat3, hcwf3, hclen3⟩ :=
    IHrec tc len cs htcwf hcsal hlal
      (by rw [← entry_vm_size_succ]; exact hcslt) hoffc
      (by
        intro i hi1 hi2
        rw [hcPlen] at hi2
        have hiP : i < a.ENTRY_COUNT ^ (l+1) := by omega
        have hbig := hwins i hi1 (by rw [hPlen]; omega)
        rw [hP, getD_append_left _ _ _ _ (by rw [hcPlen]; exact hiP)] at hbig
        exact hbig)
  rw [hcPlen] at hceq hcflat hceq3
  have hK1PS : min (len / a.PAGE_SIZE) (a.ENTRY_COUNT ^ (l+1) - cs / a.PAGE_SIZE) *
      a.PAGE_SIZE ≤ len := by
    calc min (len / a.PAGE_SIZE) (a.ENTRY_COUNT ^ (l+1) - cs / a.PAGE_SIZE) *
        a.PAGE_SIZE
        ≤ len / a.PAGE_SIZE * a.PAGE_SIZE :=
          Nat.mul_le_mul_right _ (Nat.min_le_left _ _)
      _ = len := Nat.div_mul_cancel hdvd
  have hsub_al : (len - min (len / a.PAGE_SIZE)
      (a.ENTRY_COUNT ^ (l+1) - cs / a.PAGE_SIZE) * a.PAGE_SIZE) % a.PAGE_SIZE = 0 :=
    Nat.dvd_iff_mod_eq_zero.mp (Nat.dvd_sub' hdvd (Dvd.intro_left _ rfl))
  have hsub_div : (len - min (len / a.PAGE_SIZE)
      (a.ENTRY_COUNT ^ (l+1) - cs / a.PAGE_SIZE) * a.PAGE_SIZE) / a.PAGE_SIZE =
      len / a.PAGE_SIZE - min (len / a.PAGE_SIZE)
        (a.ENTRY_COUNT ^ (l+1) - cs / a.PAGE_SIZE) := by
    have h1 : (len / a.PAGE_SIZE - min (len / a.PAGE_SIZE)
        (a.ENTRY_COUNT ^ (l+1) - cs / a.PAGE_SIZE)) * a.PAGE_SIZE =
        len - min (len / a.PAGE_SIZE)
          (a.ENTRY_COUNT ^ (l+1) - cs / a.PAGE_SIZE) * a.PAGE_SIZE := by
      rw [Nat.sub_mul, Nat.div_mul_cancel hdvd]
    rw [← h1, Nat.mul_div_cancel _ hPS]
  -- run the rest of this table (guard then unmap)
  obtain ⟨rest2, hreq, hrflat, hrwf2, hrlen2, rest3, hreq3, hrflat3, hrwf3, hrlen3⟩ :=
    IHrest (len - min (len / a.PAGE_SIZE)
        (a.ENTRY_COUNT ^ (l+1) - cs / a.PAGE_SIZE) * a.PAGE_SIZE) 0
      hwfrest (Nat.zero_mod _) hsub_al (entry_vm_size_pos a (l+1) hEC hPS)
      (by
        intro i hi1 hi2
        simp only [Nat.zero_div, Nat.zero_add, Nat.sub_zero] at hi2
        rw [hsub_div] at hi2
        have hbig := hwins (a.ENTRY_COUNT ^ (l+1) + i) (by omega)
          (by rw [hPlen]; omega)
        rw [hP] at hbig
        have hidx : a.ENTRY_COUNT ^ (l+1) + i = (flat_table a l tc).length + i := by
          rw [hcPlen]
        rw [hidx, getD_append_right] at hbig
        exact hbig)
  simp only [Nat.zero_div, Nat.zero_add, Nat.sub_zero, List.take_zero, List.drop_zero,
    List.nil_append] at hreq hrflat hreq3
  rw [hsub_div] at hreq hrflat hreq3
  have hKsplit : min (len / a.PAGE_SIZE)
      ((flat_table a (l+1) (e :: rest)).length - cs / a.PAGE_SIZE) =
      min (len / a.PAGE_SIZE) (a.ENTRY_COUNT ^ (l+1) - cs / a.PAGE_SIZE) +
      min (len / a.PAGE_SIZE -
          min (len / a.PAGE_SIZE) (a.ENTRY_COUNT ^ (l+1) - cs / a.PAGE_SIZE))
        (flat_table a (l+1) rest).length := by
    rw [hPlen]; omega
  have hremT : len - min (len / a.PAGE_SIZE)
      (a.ENTRY_COUNT ^ (l+1) - cs / a.PAGE_SIZE) * a.PAGE_SIZE -
      min (len / a.PAGE_SIZE -
        min (len / a.PAGE_SIZE) (a.ENTRY_COUNT ^ (l+1) - cs / a.PAGE_SIZE))
        (flat_table a (l+1) rest).length * a.PAGE_SIZE =
      len - (min (len / a.PAGE_SIZE) (a.ENTRY_COUNT ^ (l+1) - cs / a.PAGE_SIZE) +
        min (len / a.PAGE_SIZE -
          min (len / a.PAGE_SIZE) (a.ENTRY_COUNT ^ (l+1) - cs / a.PAGE_SIZE))
          (flat_table a (l+1) rest).length) * a.PAGE_SIZE := by
    rw [Nat.sub_sub, Nat.add_mul]
  refine ⟨.child ct2 :: rest2, ?_, ?_, ?_, by simpa using hrlen2,
    .child ct3 :: rest3, ?_, ?_, ?_, by simpa using hrlen3⟩
  · rw [hshape, hceq, Option.some_bind, hreq, Option.map_some', hKsplit, hremT]
  · rw [flat_table_cons, flat_entry_child, hcflat, hrflat, hKsplit, hP,
      List.replicate_add]
    rcases Nat.le_total (a.ENTRY_COUNT ^ (l+1) - cs / a.PAGE_SIZE)
        (len / a.PAGE_SIZE) with hA | hB
    · have hk1 : min (len / a.PAGE_SIZE)
          (a.ENTRY_COUNT ^ (l+1) - cs / a.PAGE_SIZE) =
          a.ENTRY_COUNT ^ (l+1) - cs / a.PAGE_SIZE := by omega
      rw [hk1]
      rw [List.take_append_of_le_length (by rw [hcPlen]; omega)]
      have hdfull : (flat_table a l tc).drop
          (cs / a.PAGE_SIZE + (a.ENTRY_COUNT ^ (l+1) - cs / a.PAGE_SIZE)) = [] := by
        apply List.drop_eq_nil_of_le
        rw [hcPlen]; omega
      rw [hdfull]
      have hdrop2 : (flat_table a l tc ++ flat_table a (l+1) rest).drop
          (cs / a.PAGE_SIZE + ((a.ENTRY_COUNT ^ (l+1) - cs / a.PAGE_SIZE) +
            min (len / a.PAGE_SIZE - (a.ENTRY_COUNT ^ (l+1) - cs / a.PAGE_SIZE))
              (flat_table a (l+1) rest).length)) =
          (flat_table a (l+1) rest).drop
            (min (len / a.PAGE_SIZE - (a.ENTRY_COUNT ^ (l+1) - cs / a.PAGE_SIZE))
              (flat_table a (l+1) rest).length) := by
        have hidx : cs / a.PAGE_SIZE + ((a.ENTRY_COUNT ^ (l+1) - cs / a.PAGE_SIZE) +
            min (len / a.PAGE_SIZE - (a.ENTRY_COUNT ^ (l+1) - cs / a.PAGE_SIZE))
              (flat_table a (l+1) rest).length) =
            (flat_table a l tc).length +
            min (len / a.PAGE_SIZE - (a.ENTRY_COUNT ^ (l+1) - cs / a.PAGE_SIZE))
              (flat_table a (l+1) rest).length := by
          rw [hcPlen]; omega
        rw [hidx, List.drop_append]
      rw [hdrop2]
      simp only [List.append_nil, List.nil_append, List.append_assoc]
    · have hk1 : min (len / a.PAGE_SIZE)
          (a.ENTRY_COUNT ^ (l+1) - cs / a.PAGE_SIZE) = len / a.PAGE_SIZE := by omega
      have hk2 : min (len / a.PAGE_SIZE -
          min (len / a.PAGE_SIZE) (a.ENTRY_COUNT ^ (l+1) - cs / a.PAGE_SIZE))
          (flat_table a (l+1) rest).length = 0 := by omega
      rw [hk1] at hk2 ⊢
      rw [hk2]
      simp only [Nat.add_zero, List.replicate_zero, List.append_nil]
      rw [List.take_append_of_le_length (by rw [hcPlen]; omega)]
      have hdrop3 : (flat_table a l tc ++ flat_table a (l+1) rest).drop
          (cs / a.PAGE_SIZE + len / a.PAGE_SIZE) =
          (flat_table a l tc).drop (cs / a.PAGE_SIZE + len / a.PAGE_SIZE) ++
            flat_table a (l+1) rest := by
        apply List.drop_append_of_le_length
        rw [hcPlen]; omega
      rw [hdrop3]
      simp [List.append_assoc]
  · intro x hx
    rcases List.mem_cons.1 hx with rfl | hx2
    · rw [wf_entry_child_iff]
      exact ⟨by rw [hclen2, htclen], hcwf2⟩
    · exact hrwf2 x hx2
  · rw [unmap_go_succ_child a l _ ct2 rest2 cs len (by omega), hceq3,
      Option.some_bind, hreq3, Option.map_some', hKsplit, hremT]
    simp
  · rw [flat_table_cons, flat_entry_child, hcflat3, hrflat3, hP]
  · intro x hx
    rcases List.mem_cons.1 hx with rfl | hx2
    · rw [wf_entry_child_iff]
      exact ⟨by rw [hclen3, hclen2, htclen], hcwf3⟩
    · exact hrwf3 x hx2

theorem rec_guard_unmap_spec (a : Arch) (hEC : 0 < a.ENTRY_COUNT)
    (hPS : 0 < a.PAGE_SIZE) : ∀ level, RecGuardUnmapSpec a level := by
  intro level
  induction level with
  | zero =>
    intro t len start hwf halign hlal hlt hofft hwin
    have hoff : start / a.PAGE_SIZE < a.ENTRY_COUNT := by
      have h := hlt
      rw [entry_vm_size_zero, Nat.mul_comm] at h
      exact Nat.div_lt_of_lt_mul h
    rw [entry_vm_size_zero] at hofft
    have hdw : ∀ e ∈ t.drop (start / a.PAGE_SIZE), wf_entry a 0 e = true :=
      fun e he => hwf e (List.drop_subset _ _ he)
    have hfd : flat_table a 0 (t.drop (start / a.PAGE_SIZE)) =
        (flat_table a 0 t).drop (start / a.PAGE_SIZE) := by
      have h := flat_table_drop a 0 t (start / a.PAGE_SIZE) hwf
      simpa using h
    have hfdl : (flat_table a 0 (t.drop (start / a.PAGE_SIZE))).length =
        (flat_table a 0 t).length - start / a.PAGE_SIZE := by
      rw [hfd, List.length_drop]
    obtain ⟨es2, heq, hflat, hwf2, hlen2, es3, heq3, hflat3, hwf3, hlen3⟩ :=
      guard_go_zero_spec a hPS (t.drop (start / a.PAGE_SIZE)) len hdw hlal
        (by
          intro i hi
          rw [hfd, getD_drop]
          refine hwin (start / a.PAGE_SIZE + i) (by omega) ?_
          rw [hfdl] at hi
          omega)
    rw [hfdl] at heq hflat heq3
    rw [hfd] at hflat
    have hlen_take : (t.take (start / a.PAGE_SIZE)).length = start / a.PAGE_SIZE := by
      rw [List.length_take]
      omega
    have hdrop_t2 : (t.take (start / a.PAGE_SIZE) ++ es2).drop (start / a.PAGE_SIZE) =
        es2 := by
      have h := List.drop_left (t.take (start / a.PAGE_SIZE)) es2
      rwa [hlen_take] at h
    have htake_t2 : (t.take (start / a.PAGE_SIZE) ++ es2).take (start / a.PAGE_SIZE) =
        t.take (start / a.PAGE_SIZE) := by
      have h := List.take_left (t.take (start / a.PAGE_SIZE)) es2
      rwa [hlen_take] at h
    refine ⟨t.take (start / a.PAGE_SIZE) ++ es2, ?_, ?_, ?_, ?_,
      t.take (start / a.PAGE_SIZE) ++ es3, ?_, ?_, ?_, ?_⟩
    · simp only [rec_guard, entry_vm_size_zero, if_pos hoff, halign, heq,
        Option.map_some']
    · rw [flat_table_append, hflat]
      have htk : flat_table a 0 (t.take (start / a.PAGE_SIZE)) =
          (flat_table a 0 t).take (start / a.PAGE_SIZE) := by
        have h := flat_table_take a 0 t (start / a.PAGE_SIZE) hwf
        simpa using h
      rw [htk, List.drop_drop]
      simp [List.append_assoc]
    · intro x hx
      rcases List.mem_append.1 hx with h | h
      · exact hwf x (List.take_subset _ _ h)
      · exact hwf2 x h
    · rw [List.length_append, List.length_take, hlen2, List.length_drop]
      omega
    · simp only [rec_unmap, entry_vm_size_zero, if_pos hoff, halign, hdrop_t2, heq3,
        Option.map_some', htake_t2]
    · rw [flat_table_append, hflat3, ← flat_table_append, List.take_append_drop]
    · intro x hx
      rcases List.mem_append.1 hx with h | h
      · exact hwf x (List.take_subset _ _ h)
      · exact hwf3 x h
    · rw [List.length_append, List.length_append, List.length_take, hlen3]
  | succ l ih =>
    have go_spec : ∀ es, GuardGoUnmapSpec a l es := by
      intro es
      induction es with
      | nil =>
        intro len cs hwfs hcsal hlal hcslt hwins
        refine ⟨[], ?_, by simp, by simp, rfl, [], ?_, by simp, by simp, rfl⟩
        · rw [guard_go_succ_nil]
          simp
        · rw [unmap_go_succ_nil]
          simp
      | cons e rest iles =>
        intro len cs hwfs hcsal hlal hcslt hwins
        rcases Nat.eq_zero_or_pos len with hl0 | hl0
        · subst hl0
          refine ⟨e :: rest, ?_, by simp [Nat.zero_div], hwfs, rfl, e :: rest, ?_,
            rfl, hwfs, rfl⟩
          · rw [guard_go_succ_len_zero]
            simp [Nat.zero_div]
          · rw [unmap_go_succ_len_zero]
            simp [Nat.zero_div]
        cases e with
        | child t0 =>
          exact guard_go_succ_cons_spec a hEC hPS l (.child t0) rest t0 ih iles
            (fun h => h) rfl len cs hl0
            (guard_go_succ_child a l _ t0 rest cs len (by omega))
            hwfs hcsal hlal hcslt hwins
        | frame p =>
          have := hwfs (.frame p) (by simp)
          simp [wf_entry] at this
        | guarded =>
          exfalso
          have hsp : cs / a.PAGE_SIZE < a.ENTRY_COUNT ^ (l+1) := by
            have h1 := Nat.div_lt_div_of_lt_of_dvd
              (page_size_dvd_entry_vm_size a (l+1)) hcslt
            rwa [entry_vm_size, Nat.mul_div_cancel _ hPS] at h1
          have hdvd : a.PAGE_SIZE ∣ len := Nat.dvd_of_mod_eq_zero hlal
          have hq1 : 1 ≤ len / a.PAGE_SIZE :=
            (Nat.one_le_div_iff hPS).2 (Nat.le_of_dvd hl0 hdvd)
          have hPlen : a.ENTRY_COUNT ^ (l+1) ≤
              (flat_table a (l+1) (Entry.guarded :: rest)).length := by
            rw [flat_table_cons, List.length_append, flat_entry_guarded,
              List.length_replicate]
            omega
          have hg := hwins (cs / a.PAGE_SIZE) le_rfl (by omega)
          rw [flat_table_cons, flat_entry_guarded,
            getD_append_left _ _ _ _ (by rw [List.length_replicate]; exact hsp),
            getD_replicate _ _ _ _ hsp] at hg
          simp at hg
        | available =>
          by_cases hcond : entry_vm_size a (l+1) ≤ len ∧ cs = 0
          · obtain ⟨hevs, hcs0⟩ := hcond
            subst hcs0
            have hwfrest : ∀ x ∈ rest, wf_entry a (l+1) x = true :=
              fun x hx => hwfs x (List.mem_cons_of_mem _ hx)
            have hdvd : a.PAGE_SIZE ∣ len := Nat.dvd_of_mod_eq_zero hlal
            have hc_le : a.ENTRY_COUNT ^ (l+1) ≤ len / a.PAGE_SIZE := by
              have h2 := Nat.div_le_div_right (c := a.PAGE_SIZE) hevs
              rwa [entry_vm_size, Nat.mul_div_cancel _ hPS] at h2
            have hsub_al : (len - entry_vm_size a (l+1)) % a.PAGE_SIZE = 0 :=
              Nat.dvd_iff_mod_eq_zero.mp
                (Nat.dvd_sub' hdvd (page_size_dvd_entry_vm_size a (l+1)))
            have hsub_div : (len - entry_vm_size a (l+1)) / a.PAGE_SIZE =
                len / a.PAGE_SIZE - a.ENTRY_COUNT ^ (l+1) := by
              have h1 : (len / a.PAGE_SIZE - a.ENTRY_COUNT ^ (l+1)) * a.PAGE_SIZE =
                  len - entry_vm_size a (l+1) := by
                rw [Nat.sub_mul, Nat.div_mul_cancel hdvd, entry_vm_size]
              rw [← h1, Nat.mul_div_cancel _ hPS]
            have hPlen : (flat_table a (l+1) (Entry.available :: rest)).length =
                a.ENTRY_COUNT ^ (l+1) + (flat_table a (l+1) rest).length := by
              rw [flat_table_cons, List.length_append, flat_entry_available,
                List.length_replicate]
            have hheadflat : flat_entry a (l+1) Entry.available =
                List.replicate (a.ENTRY_COUNT ^ (l+1)) PageState.Available :=
              flat_entry_available a (l+1)
            obtain ⟨rest2, hreq, hrflat, hrwf2, hrlen2, rest3, hreq3, hrflat3,
              hrwf3, hrlen3⟩ :=
              iles (len - entry_vm_size a (l+1)) 0 hwfrest (Nat.zero_mod _) hsub_al
                (entry_vm_size_pos a (l+1) hEC hPS)
                (by
                  intro i hi1 hi2
                  simp only [Nat.zero_div, Nat.zero_add, Nat.sub_zero] at hi2
                  rw [hsub_div] at hi2
                  have hbig := hwins (a.ENTRY_COUNT ^ (l+1) + i)
                    (by simp [Nat.zero_div]) (by rw [hPlen]; simp [Nat.zero_div]; omega)
                  rw [flat_table_cons, hheadflat] at hbig
                  have hidx : a.ENTRY_COUNT ^ (l+1) + i =
                      (List.replicate (a.ENTRY_COUNT ^ (l+1))
                        PageState.Available).length + i := by
                    rw [List.length_replicate]
                  rw [hidx, getD_append_right] at hbig
                  exact hbig)
            simp only [Nat.zero_div, Nat.zero_add, Nat.sub_zero, List.take_zero,
              List.drop_zero, List.nil_append] at hreq hrflat hreq3
            rw [hsub_div] at hreq hrflat hreq3
            have hKsplit : min (len / a.PAGE_SIZE)
                ((flat_table a (l+1) (Entry.available :: rest)).length -
                  0 / a.PAGE_SIZE) =
                a.ENTRY_COUNT ^ (l+1) +
                min (len / a.PAGE_SIZE - a.ENTRY_COUNT ^ (l+1))
                  (flat_table a (l+1) rest).length := by
              rw [hPlen]
              simp only [Nat.zero_div, Nat.sub_zero]
              omega
            have hremH : len - entry_vm_size a (l+1) -
                min (len / a.PAGE_SIZE - a.ENTRY_COUNT ^ (l+1))
                  (flat_table a (l+1) rest).length * a.PAGE_SIZE =
                len - (a.ENTRY_COUNT ^ (l+1) +
                  min (len / a.PAGE_SIZE - a.ENTRY_COUNT ^ (l+1))
                    (flat_table a (l+1) rest).length) * a.PAGE_SIZE := by
              rw [Nat.sub_sub, Nat.add_mul, entry_vm_size]
            refine ⟨.guarded :: rest2, ?_, ?_, ?_, by simpa using hrlen2,
              .available :: rest3, ?_, ?_, ?_, by simpa using hrlen3⟩
            · rw [guard_go_succ_available a l _ rest 0 len (by omega),
                if_pos ⟨hevs, rfl⟩, hreq, Option.map_some', hKsplit, hremH]
            · rw [hKsplit]
              simp only [Nat.zero_div, List.take_zero, List.nil_append,
                Nat.zero_add, List.replicate_add]
              rw [flat_table_cons, flat_entry_guarded, hrflat, flat_table_cons,
                hheadflat]
              have hdrop : (List.replicate (a.ENTRY_COUNT ^ (l+1))
                  PageState.Available ++ flat_table a (l+1) rest).drop
                    (a.ENTRY_COUNT ^ (l+1) +
                    min (len / a.PAGE_SIZE - a.ENTRY_COUNT ^ (l+1))
                      (flat_table a (l+1) rest).length) =
                  (flat_table a (l+1) rest).drop
                    (min (len / a.PAGE_SIZE - a.ENTRY_COUNT ^ (l+1))
                      (flat_table a (l+1) rest).length) := by
                have hidx : a.ENTRY_COUNT ^ (l+1) +
                    min (len / a.PAGE_SIZE - a.ENTRY_COUNT ^ (l+1))
                      (flat_table a (l+1) rest).length =
                    (List.replicate (a.ENTRY_COUNT ^ (l+1))
                      PageState.Available).length +
                    min (len / a.PAGE_SIZE - a.ENTRY_COUNT ^ (l+1))
                      (flat_table a (l+1) rest).length := by
                  rw [List.length_replicate]
                rw [hidx, List.drop_append]
              rw [hdrop]
              rw [List.append_assoc]
            · intro x hx
              rcases List.mem_cons.1 hx with rfl | hx2
              · rfl
              · exact hrwf2 x hx2
            · rw [unmap_go_succ_guarded a l _ rest2 0 len (by omega),
                if_pos hevs, hreq3, Option.map_some', hKsplit, hremH]
            · rw [flat_table_cons, flat_entry_available, hrflat3, flat_table_cons,
                hheadflat]
            · intro x hx
              rcases List.mem_cons.1 hx with rfl | hx2
              · rfl
              · exact hrwf3 x hx2
          · refine guard_go_succ_cons_spec a hEC hPS l .available rest
              (List.replicate a.ENTRY_COUNT .available) ih iles (fun _ => ?_) ?_
              len cs hl0 ?_ hwfs hcsal hlal hcslt hwins
            · rw [wf_entry_child_iff]
              refine ⟨List.length_replicate _ _, fun x hx => ?_⟩
              rw [List.eq_of_mem_replicate hx]
              cases l <;> rfl
            · rw [flat_entry_available, flat_table_replicate_available]
              congr 1
              rw [pow_succ, Nat.mul_comm]
            · rw [guard_go_succ_available a l _ rest cs len (by omega), if_neg hcond]
    intro t len start hwf halign hlal hlt hofft hwin
    have hoff : start / entry_vm_size a (l+1) < a.ENTRY_COUNT := by
      have h := hlt
      rw [Nat.mul_comm] at h
      exact Nat.div_lt_of_lt_mul h
    have hcs_al : start % entry_vm_size a (l+1) % a.PAGE_SIZE = 0 := by
      rw [Nat.mod_mod_of_dvd _ (page_size_dvd_entry_vm_size a (l+1)), halign]
    have hcs_lt : start % entry_vm_size a (l+1) < entry_vm_size a (l+1) :=
      Nat.mod_lt _ (entry_vm_size_pos a (l+1) hEC hPS)
    have hidx : start / a.PAGE_SIZE =
        start / entry_vm_size a (l+1) * a.ENTRY_COUNT ^ (l+1) +
          start % entry_vm_size a (l+1) / a.PAGE_SIZE := by
      conv_lhs => rw [← Nat.div_add_mod start (entry_vm_size a (l+1))]
      have hev : entry_vm_size a (l+1) * (start / entry_vm_size a (l+1)) =
          start / entry_vm_size a (l+1) * a.ENTRY_COUNT ^ (l+1) * a.PAGE_SIZE := by
        rw [entry_vm_size]; ring
      rw [hev, Nat.add_comm, Nat.add_mul_div_right _ _ hPS, Nat.add_comm]
    have hdw : ∀ e ∈ t.drop (start / entry_vm_size a (l+1)),
        wf_entry a (l+1) e = true :=
      fun e he => hwf e (List.drop_subset _ _ he)
    have hfd : flat_table a (l+1) (t.drop (start / entry_vm_size a (l+1))) =
        (flat_table a (l+1) t).drop
          (start / entry_vm_size a (l+1) * a.ENTRY_COUNT ^ (l+1)) :=
      flat_table_drop a (l+1) t _ hwf
    have hfdl : (flat_table a (l+1) (t.drop (start / entry_vm_size a (l+1)))).length =
        (flat_table a (l+1) t).length -
          start / entry_vm_size a (l+1) * a.ENTRY_COUNT ^ (l+1) := by
      rw [hfd, List.length_drop]
    obtain ⟨es2, heq, hflat, hwf2, hlen2, es3, heq3, hflat3, hwf3, hlen3⟩ :=
      go_spec (t.drop (start / entry_vm_size a (l+1))) len
        (start % entry_vm_size a (l+1)) hdw hcs_al hlal hcs_lt
        (by
          intro i hi1 hi2
          rw [hfd, getD_drop]
          refine hwin (start / entry_vm_size a (l+1) * a.ENTRY_COUNT ^ (l+1) + i)
            (by omega) ?_
          rw [hfdl] at hi2
          omega)
    have hMin : min (len / a.PAGE_SIZE)
        ((flat_table a (l+1) (t.drop (start / entry_vm_size a (l+1)))).length -
          start % entry_vm_size a (l+1) / a.PAGE_SIZE) =
        min (len / a.PAGE_SIZE)
          ((flat_table a (l+1) t).length - start / a.PAGE_SIZE) := by
      rw [hfdl, hidx]
      omega
    rw [hMin] at heq hflat heq3
    rw [hfd] at hflat
    have hlen_take : (t.take (start / entry_vm_size a (l+1))).length =
        start / entry_vm_size a (l+1) := by
      rw [List.length_take]
      omega
    have hdrop_t2 : (t.take (start / entry_vm_size a (l+1)) ++ es2).drop
        (start / entry_vm_size a (l+1)) = es2 := by
      have h := List.drop_left (t.take (start / entry_vm_size a (l+1))) es2
      rwa [hlen_take] at h
    have htake_t2 : (t.take (start / entry_vm_size a (l+1)) ++ es2).take
        (start / entry_vm_size a (l+1)) = t.take (start / entry_vm_size a (l+1)) := by
      have h := List.take_left (t.take (start / entry_vm_size a (l+1))) es2
      rwa [hlen_take] at h
    refine ⟨t.take (start / entry_vm_size a (l+1)) ++ es2, ?_, ?_, ?_, ?_,
      t.take (start / entry_vm_size a (l+1)) ++ es3, ?_, ?_, ?_, ?_⟩
    · simp only [rec_guard, if_pos hoff, heq, Option.map_some']
    · rw [flat_table_append, hflat,
        flat_table_take a (l+1) t _ hwf, take_drop_assemble, ← hidx]
    · intro x hx
      rcases List.mem_append.1 hx with h | h
      · exact hwf x (List.take_subset _ _ h)
      · exact hwf2 x h
    · rw [List.length_append, List.length_take, hlen2, List.length_drop]
      omega
    · simp only [rec_unmap, if_pos hoff, hdrop_t2, heq3, Option.map_some', htake_t2]
    · rw [flat_table_append, hflat3, ← flat_table_append, List.take_append_drop]
    · intro x hx
      rcases List.mem_append.1 hx with h | h
      · exact hwf x (List.take_subset _ _ h)
      · exact hwf3 x h
    · rw [List.length_append, List.length_append, List.length_take, hlen3]

/-! ## The for_every_entry traversal -/

/-- Page-level expansion of a list of callback invocations: each call
`(state, span)` contributes `span / PAGE_SIZE` copies of `state`. -/
def expand_calls (a : Arch) (cls : List (PageState × Nat)) : List PageState :=
  (cls.map fun c => List.replicate (c.2 / a.PAGE_SIZE) c.1).flatten

@[simp] theorem expand_calls_nil (a : Arch) : expand_calls a [] = [] := rfl

@[simp] theorem expand_calls_cons (a : Arch) (c : PageState × Nat)
    (cls : List (PageState × Nat)) :
    expand_calls a (c :: cls) =
      List.replicate (c.2 / a.PAGE_SIZE) c.1 ++ expand_calls a cls := rfl

theorem expand_calls_append (a : Arch) (cls1 cls2 : List (PageState × Nat)) :
    expand_calls a (cls1 ++ cls2) =
      expand_calls a cls1 ++ expand_calls a cls2 := by
  simp [expand_calls]

theorem dvd_add_div (k x y : Nat) (hk : 0 < k) (h : k ∣ x) :
    (x + y) / k = x / k + y / k := by
  obtain ⟨m, rfl⟩ := h
  rw [Nat.mul_div_cancel_left _ hk, Nat.mul_add_div hk]

theorem expand_calls_length (a : Arch) (hPS : 0 < a.PAGE_SIZE)
    (cls : List (PageState × Nat))
    (h : ∀ c ∈ cls, a.PAGE_SIZE ∣ c.2) :
    (expand_calls a cls).length = (cls.map Prod.snd).sum / a.PAGE_SIZE := by
  induction cls with
  | nil => simp
  | cons c cls ih =>
    rw [expand_calls_cons, List.length_append, List.length_replicate,
      ih fun x hx => h x (List.mem_cons_of_mem _ hx), List.map_cons, List.sum_cons,
      dvd_add_div _ _ _ hPS (h c (by simp))]

theorem spans_sum_dvd (a : Arch) (L : Nat) (cls : List (PageState × Nat))
    (h : ∀ c ∈ cls, ∃ lv, lv ≤ L ∧ c.2 = entry_vm_size a lv) :
    ∀ c ∈ cls, a.PAGE_SIZE ∣ c.2 := by
  intro c hc
  obtain ⟨lv, _, hsp⟩ := h c hc
  rw [hsp]
  exact page_size_dvd_entry_vm_size a lv

theorem take_append_len {A : Type} (x y : List A) (n m : Nat) (h : m = x.length) :
    (x ++ y).take (m + n) = x ++ y.take n := by
  subst h
  exact List.take_append n

/-- The level-0 iteration loop: every entry produces one callback spanning
one page; the remaining length decreases by `PAGE_SIZE` per entry with
saturating subtraction; the reported states, expanded page-by-page, are an
initial segment of the page-level view; a positive remaining length means
the loop ran off the end of the table. -/
theorem iter_go_zero_spec (a : Arch) (hPS : 0 < a.PAGE_SIZE) :
    ∀ (es : List Entry) (len : Nat),
      (∀ e ∈ es, wf_entry a 0 e = true) →
      ∃ cls, iter_go_zero a es len = some (len - (cls.map Prod.snd).sum, cls) ∧
        (∀ c ∈ cls, c.2 = a.PAGE_SIZE) ∧
        expand_calls a cls =
          (flat_table a 0 es).take ((cls.map Prod.snd).sum / a.PAGE_SIZE) ∧
        (0 < len - (cls.map Prod.snd).sum →
          (cls.map Prod.snd).sum / a.PAGE_SIZE = (flat_table a 0 es).length) := by
  intro es
  induction es with
  | nil =>
    intro len hwf
    refine ⟨[], ?_, by simp, by simp, by intro _; simp⟩
    rw [iter_go_zero_nil]
    simp
  | cons e rest ih =>
    intro len hwf
    rcases Nat.eq_zero_or_pos len with hl0 | hl0
    · subst hl0
      refine ⟨[], ?_, by simp, by simp, by intro h; simp at h⟩
      rw [iter_go_zero_len_zero]
      simp
    · have hnc : ∀ t, e ≠ .child t := by
        intro t he
        have := hwf e (by simp)
        rw [he] at this
        simp [wf_entry] at this
      obtain ⟨cls, heq, hsp, hexp, hend⟩ :=
        ih (len - a.PAGE_SIZE) fun x hx => hwf x (List.mem_cons_of_mem _ hx)
      have hflatE : flat_entry a 0 e = [entry_state e] := by
        cases e with
        | available => rfl
        | guarded => rfl
        | frame p => rfl
        | child t => exact absurd rfl (hnc t)
      refine ⟨(entry_state e, a.PAGE_SIZE) :: cls, ?_, ?_, ?_, ?_⟩
      · rw [iter_go_zero_cons a e rest len (by omega) hnc, heq, Option.map_some']
        simp only [List.map_cons, List.sum_cons]
        rw [Nat.sub_sub]
      · intro c hc
        rcases List.mem_cons.1 hc with h | h
        · rw [h]
        · exact hsp c h
      · rw [expand_calls_cons]
        simp only [List.map_cons, List.sum_cons, flat_table_cons, hflatE]
        rw [dvd_add_div _ _ _ hPS dvd_rfl, Nat.div_self hPS, hexp,
          List.singleton_append, Nat.add_comm, List.take_succ_cons]
        simp
      · intro hpos
        simp only [List.map_cons, List.sum_cons] at hpos ⊢
        have hpos2 : 0 < (len - a.PAGE_SIZE) - (cls.map Prod.snd).sum := by omega
        rw [dvd_add_div _ _ _ hPS dvd_rfl, Nat.div_self hPS, hend hpos2,
          flat_table_cons, List.length_append, hflatE]
        simp [Nat.add_comm]

/-- What `rec_iter` guarantees at a given level, stated for the wrapper:
the traversal succeeds on a well-formed table, final remaining length is the
initial length minus the sum of the reported spans with saturating
subtraction, every reported span is the `entry_vm_size` of some level, and when
the walk starts at offset 0 the reported states expanded page-by-page are
exactly an initial segment of the page-level view, covering the whole table
whenever length remains. -/
def RecIterSpec (a : Arch) (level : Nat) : Prop :=
  ∀ (t : List Entry) (start len : Nat),
    (∀ e ∈ t, wf_entry a level e = true) →
    start < a.ENTRY_COUNT * entry_vm_size a level →
    ∃ cls, rec_iter a level t start len =
        some (len - (cls.map Prod.snd).sum, cls) ∧
      (∀ c ∈ cls, ∃ lv, lv ≤ level ∧ c.2 = entry_vm_size a lv) ∧
      (start = 0 →
        expand_calls a cls =
          (flat_table a level t).take ((cls.map Prod.snd).sum / a.PAGE_SIZE) ∧
        (0 < len - (cls.map Prod.snd).sum →
          (cls.map Prod.snd).sum / a.PAGE_SIZE = (flat_table a level t).length))

/-- The corresponding statement for the suffix loop at a successor level. -/
def IterGoSpec (a : Arch) (l : Nat) (es : List Entry) : Prop :=
  ∀ (cs len : Nat),
    (∀ e ∈ es, wf_entry a (l+1) e = true) →
    cs < entry_vm_size a (l+1) →
    ∃ cls, iter_go_succ a l (fun t s ln => rec_iter a l t s ln) es cs len =
        some (len - (cls.map Prod.snd).sum, cls) ∧
      (∀ c ∈ cls, ∃ lv, lv ≤ l + 1 ∧ c.2 = entry_vm_size a lv) ∧
      (cs = 0 →
        expand_calls a cls =
          (flat_table a (l+1) es).take ((cls.map Prod.snd).sum / a.PAGE_SIZE) ∧
        (0 < len - (cls.map Prod.snd).sum →
          (cls.map Prod.snd).sum / a.PAGE_SIZE = (flat_table a (l+1) es).length))

/-- `rec_iter` satisfies its specification at every level. -/
theorem rec_iter_spec (a : Arch) (hEC : 0 < a.ENTRY_COUNT) (hPS : 0 < a.PAGE_SIZE) :
    ∀ level, RecIterSpec a level := by
  intro level
  induction level with
  | zero =>
    intro t start len hwf hlt
    have hoff : start / entry_vm_size a 0 < a.ENTRY_COUNT := by
      rw [entry_vm_size_zero]
      rw [entry_vm_size_zero, Nat.mul_comm] at hlt
      exact Nat.div_lt_of_lt_mul hlt
    obtain ⟨cls, heq, hsp, hexp, hend⟩ :=
      iter_go_zero_spec a hPS (t.drop (start / entry_vm_size a 0)) len
        fun e he => hwf e (List.drop_subset _ _ he)
    refine ⟨cls, ?_, ?_, ?_⟩
    · simp only [rec_iter, if_pos hoff]
      exact heq
    · intro c hc
      exact ⟨0, Nat.le_refl _, by rw [hsp c hc, entry_vm_size_zero]⟩
    · intro h0
      subst h0
      simp only [Nat.zero_div, List.drop_zero] at hexp hend
      exact ⟨hexp, hend⟩
  | succ l ih =>
    have go_spec : ∀ es, IterGoSpec a l es := by
      intro es
      induction es with
      | nil =>
        intro cs len hwfs hcs
        refine ⟨[], ?_, by simp, by intro _; exact ⟨by simp, by intro _; simp⟩⟩
        rw [iter_go_succ_nil]
        simp
      | cons e rest iles =>
        intro cs len hwfs hcs
        have hwfr : ∀ x ∈ rest, wf_entry a (l+1) x = true :=
          fun x hx => hwfs x (List.mem_cons_of_mem _ hx)
        have hevs : 0 < entry_vm_size a (l+1) := entry_vm_size_pos a (l+1) hEC hPS
        rcases Nat.eq_zero_or_pos len with hl0 | hl0
        · subst hl0
          refine ⟨[], ?_, by simp, by intro _; exact ⟨by simp, by intro h; simp at h⟩⟩
          rw [iter_go_succ_len_zero]
          simp
        cases e with
        | frame p =>
          have := hwfs (.frame p) (by simp)
          simp [wf_entry] at this
        | available =>
          obtain ⟨cls, heq, hsp, hcond⟩ :=
            iles 0 (len - entry_vm_size a (l+1)) hwfr hevs
          have hEdvd : a.PAGE_SIZE ∣ entry_vm_size a (l+1) :=
            page_size_dvd_entry_vm_size a (l+1)
          have hediv : entry_vm_size a (l+1) / a.PAGE_SIZE = a.ENTRY_COUNT ^ (l+1) := by
            rw [entry_vm_size, Nat.mul_div_cancel _ hPS]
          refine ⟨(PageState.Available, entry_vm_size a (l+1)) :: cls, ?_, ?_, ?_⟩
          · rw [iter_go_succ_available a l _ rest cs len (by omega), heq,
              Option.map_some']
            simp only [List.map_cons, List.sum_cons]
            rw [Nat.sub_sub]
          · intro c hc
            rcases List.mem_cons.1 hc with h | h
            · exact ⟨l+1, Nat.le_refl _, by rw [h]⟩
            · exact hsp c h
          · intro hcs0
            obtain ⟨hexp, hend⟩ := hcond rfl
            constructor
            · rw [expand_calls_cons]
              simp only [List.map_cons, List.sum_cons, flat_table_cons,
                flat_entry_available]
              rw [dvd_add_div _ _ _ hPS hEdvd, hediv, hexp,
                take_append_len (List.replicate (a.ENTRY_COUNT ^ (l+1))
                    PageState.Available)
                  (flat_table a (l+1) rest) _ _ (List.length_replicate _ _).symm]
            · intro hpos
              simp only [List.map_cons, List.sum_cons] at hpos ⊢
              have hpos2 : 0 < (len - entry_vm_size a (l+1)) -
                  (cls.map Prod.snd).sum := by omega
              rw [dvd_add_div _ _ _ hPS hEdvd, hediv, hend hpos2, flat_table_cons,
                List.length_append, flat_entry_available, List.length_replicate]
        | guarded =>
          obtain ⟨cls, heq, hsp, hcond⟩ :=
            iles 0 (len - entry_vm_size a (l+1)) hwfr hevs
          have hEdvd : a.PAGE_SIZE ∣ entry_vm_size a (l+1) :=
            page_size_dvd_entry_vm_size a (l+1)
          have hediv : entry_vm_size a (l+1) / a.PAGE_SIZE = a.ENTRY_COUNT ^ (l+1) := by
            rw [entry_vm_size, Nat.mul_div_cancel _ hPS]
          refine ⟨(PageState.Guarded, entry_vm_size a (l+1)) :: cls, ?_, ?_, ?_⟩
          · rw [iter_go_succ_guarded a l _ rest cs len (by omega), heq,
              Option.map_some']
            simp only [List.map_cons, List.sum_cons]
            rw [Nat.sub_sub]
          · intro c hc
            rcases List.mem_cons.1 hc with h | h
            · exact ⟨l+1, Nat.le_refl _, by rw [h]⟩
            · exact hsp c h
          · intro hcs0
            obtain ⟨hexp, hend⟩ := hcond rfl
            constructor
            · rw [expand_calls_cons]
              simp only [List.map_cons, List.sum_cons, flat_table_cons,
                flat_entry_guarded]
              rw [dvd_add_div _ _ _ hPS hEdvd, hediv, hexp,
                take_append_len (List.replicate (a.ENTRY_COUNT ^ (l+1))
                    PageState.Guarded)
                  (flat_table a (l+1) rest) _ _ (List.length_replicate _ _).symm]
            · intro hpos
              simp only [List.map_cons, List.sum_cons] at hpos ⊢
              have hpos2 : 0 < (len - entry_vm_size a (l+1)) -
                  (cls.map Prod.snd).sum := by omega
              rw [dvd_add_div _ _ _ hPS hEdvd, hediv, hend hpos2, flat_table_cons,
                List.length_append, flat_entry_guarded, List.length_replicate]
        | child t0 =>
          have hwfc := (wf_entry_child_iff a l t0).1 (hwfs (.child t0) (by simp))
          have hcs2 : cs < a.ENTRY_COUNT * entry_vm_size a l := by
            rw [← entry_vm_size_succ]
            exact hcs
          obtain ⟨cls1, heq1, hsp1, hcond1⟩ := ih t0 cs len hwfc.2 hcs2
          obtain ⟨cls2, heq2, hsp2, hcond2⟩ :=
            iles 0 (len - (cls1.map Prod.snd).sum) hwfr hevs
          have hS1dvd : a.PAGE_SIZE ∣ (cls1.map Prod.snd).sum := by
            refine List.dvd_sum ?_
            intro x hx
            obtain ⟨c, hc, rfl⟩ := List.mem_map.1 hx
            exact spans_sum_dvd a l cls1 hsp1 c hc
          have hcP : (flat_table a l t0).length = a.ENTRY_COUNT ^ (l+1) := by
            rw [length_flat_table a l t0 hwfc.2, hwfc.1, pow_succ, Nat.mul_comm]
          refine ⟨cls1 ++ cls2, ?_, ?_, ?_⟩
          · rw [iter_go_succ_child a l _ t0 rest cs len (by omega)]
            simp only [heq1, Option.some_bind, heq2, Option.map_some']
            simp only [List.map_append, List.sum_append]
            rw [Nat.sub_sub]
          · intro c hc
            rcases List.mem_append.1 hc with h | h
            · obtain ⟨lv, hle, hsp⟩ := hsp1 c h
              exact ⟨lv, Nat.le_succ_of_le hle, hsp⟩
            · exact hsp2 c h
          · intro hcs0
            subst hcs0
            obtain ⟨hexp1, hend1⟩ := hcond1 rfl
            obtain ⟨hexp2, hend2⟩ := hcond2 rfl
            have hSdiv : ((cls1 ++ cls2).map Prod.snd).sum / a.PAGE_SIZE =
                (cls1.map Prod.snd).sum / a.PAGE_SIZE +
                (cls2.map Prod.snd).sum / a.PAGE_SIZE := by
              rw [List.map_append, List.sum_append, dvd_add_div _ _ _ hPS hS1dvd]
            rcases Nat.eq_zero_or_pos (len - (cls1.map Prod.snd).sum) with hmid | hmid
            · rw [hmid, iter_go_succ_len_zero] at heq2
              have hcls2 : cls2 = [] :=
                (congrArg Prod.snd (Option.some.inj heq2)).symm
              subst hcls2
              constructor
              · rw [expand_calls_append, hexp1, hexp2]
                simp only [List.map_nil, List.sum_nil, Nat.zero_div, List.take_zero,
                  List.append_nil, hSdiv, Nat.add_zero, flat_table_cons,
                  flat_entry_child]
                have hle : (cls1.map Prod.snd).sum / a.PAGE_SIZE ≤
                    (flat_table a l t0).length := by
                  have h1 := congrArg List.length hexp1
                  rw [expand_calls_length a hPS cls1 (spans_sum_dvd a l cls1 hsp1),
                    List.length_take] at h1
                  omega
                rw [List.take_append_of_le_length hle]
              · intro hpos
                exfalso
                simp only [List.map_append, List.sum_append, List.map_nil,
                  List.sum_nil] at hpos
                omega
            · have hfull := hend1 hmid
              constructor
              · rw [expand_calls_append, hexp1, hexp2, hSdiv, hfull,
                  flat_table_cons, flat_entry_child, List.take_append,
                  List.take_length]
              · intro hpos
                simp only [List.map_append, List.sum_append] at hpos ⊢
                have hpos2 : 0 < (len - (cls1.map Prod.snd).sum) -
                    (cls2.map Prod.snd).sum := by omega
                rw [dvd_add_div _ _ _ hPS hS1dvd, hfull, hend2 hpos2,
                  flat_table_cons, List.length_append, flat_entry_child]
    intro t start len hwf hlt
    have hoff : start / entry_vm_size a (l+1) < a.ENTRY_COUNT :=
      Nat.div_lt_of_lt_mul (by rwa [Nat.mul_comm] at hlt)
    have hcs : start % entry_vm_size a (l+1) < entry_vm_size a (l+1) :=
      Nat.mod_lt _ (entry_vm_size_pos a (l+1) hEC hPS)
    obtain ⟨cls, heq, hsp, hcond⟩ :=
      go_spec (t.drop (start / entry_vm_size a (l+1)))
        (start % entry_vm_size a (l+1)) len
        (fun e he => hwf e (List.drop_subset _ _ he)) hcs
    refine ⟨cls, ?_, hsp, ?_⟩
    · simp only [rec_iter, if_pos hoff]
      exact heq
    · intro h0
      subst h0
      simp only [Nat.zero_div, List.drop_zero] at heq hcond
      simp only [Nat.zero_mod] at hcond
      exact hcond trivial

/-- `for_every_entry` on a page-aligned request is `rec_iter` wrapped in the
alignment assertion. -/
theorem for_every_entry_eq_rec_iter (a : Arch) (level : Nat) (t : List Entry)
    (address len : Nat) (ha : address % a.PAGE_SIZE = 0) (hl : len % a.PAGE_SIZE = 0) :
    for_every_entry a level t address len = rec_iter a level t address len := by
  simp [for_every_entry, ha, hl]

/-! ## Unmapping a prefix of an entirely Guarded table

This is the situation `rec_unmap` creates for itself when it splits a huge
guard: the freshly created child table is entirely Guarded and the unmap
recurses into it from offset 0. -/

theorem unmap_go_zero_all_guarded (a : Arch) (hPS : 0 < a.PAGE_SIZE) :
    ∀ (k len cs : Nat), len % a.PAGE_SIZE = 0 → len ≤ k * a.PAGE_SIZE →
      unmap_go_zero a (List.replicate k .guarded) cs len =
        some (List.replicate (len / a.PAGE_SIZE) .available ++
          List.replicate (k - len / a.PAGE_SIZE) .guarded, 0, []) := by
  intro k
  induction k with
  | zero =>
    intro len cs hal hle
    have hl0 : len = 0 := by omega
    subst hl0
    rw [unmap_go_zero_len_zero, Nat.zero_div]
    simp
  | succ k ihk =>
    intro len cs hal hle
    rcases Nat.eq_zero_or_pos len with hl0 | hl0
    · subst hl0
      rw [unmap_go_zero_len_zero, Nat.zero_div]
      simp
    · have hdvd : a.PAGE_SIZE ∣ len := Nat.dvd_of_mod_eq_zero hal
      have hPSle : a.PAGE_SIZE ≤ len := Nat.le_of_dvd hl0 hdvd
      have hal2 : (len - a.PAGE_SIZE) % a.PAGE_SIZE = 0 :=
        Nat.dvd_iff_mod_eq_zero.mp (Nat.dvd_sub' hdvd dvd_rfl)
      rw [List.replicate_succ,
        unmap_go_zero_guarded a (List.replicate k .guarded) cs len (by omega),
        if_pos (by rw [entry_vm_size_zero]; exact hPSle), entry_vm_size_zero,
        ihk (len - a.PAGE_SIZE) 0 hal2
          (by rw [Nat.succ_mul] at hle; omega), Option.map_some']
      have hq1 : len / a.PAGE_SIZE = (len - a.PAGE_SIZE) / a.PAGE_SIZE + 1 := by
        obtain ⟨m, hm⟩ := hdvd
        subst hm
        rcases Nat.eq_zero_or_pos m with rfl | hm1
        · simp at hl0
        · rw [Nat.mul_div_cancel_left _ hPS, ← Nat.mul_pred,
            Nat.mul_div_cancel_left _ hPS, Nat.pred_eq_sub_one]
          omega
      have harith : k + 1 - ((len - a.PAGE_SIZE) / a.PAGE_SIZE + 1) =
          k - (len - a.PAGE_SIZE) / a.PAGE_SIZE := by omega
      rw [hq1, harith]
      simp [List.replicate_succ]

theorem rec_unmap_all_guarded (a : Arch) (hEC : 0 < a.ENTRY_COUNT)
    (hPS : 0 < a.PAGE_SIZE) :
    ∀ (level len : Nat), len % a.PAGE_SIZE = 0 →
      len ≤ a.ENTRY_COUNT * entry_vm_size a level →
      ∃ t2, rec_unmap a level (List.replicate a.ENTRY_COUNT .guarded) 0 len =
          some (t2, 0, []) ∧
        flat_table a level t2 =
          List.replicate (len / a.PAGE_SIZE) .Available ++
          List.replicate (a.ENTRY_COUNT ^ (level+1) - len / a.PAGE_SIZE) .Guarded ∧
        (∀ e ∈ t2, wf_entry a level e = true) ∧
        t2.length = a.ENTRY_COUNT := by
  intro level
  induction level with
  | zero =>
    intro len hal hle
    rw [entry_vm_size_zero] at hle
    have hqle : len / a.PAGE_SIZE ≤ a.ENTRY_COUNT := by
      have h : len / a.PAGE_SIZE ≤ (a.ENTRY_COUNT * a.PAGE_SIZE) / a.PAGE_SIZE :=
        Nat.div_le_div_right hle
      rwa [Nat.mul_div_cancel _ hPS] at h
    refine ⟨List.replicate (len / a.PAGE_SIZE) .available ++
      List.replicate (a.ENTRY_COUNT - len / a.PAGE_SIZE) .guarded, ?_, ?_, ?_, ?_⟩
    · simp only [rec_unmap, entry_vm_size_zero, Nat.zero_div, if_pos hEC,
        List.drop_zero, Nat.zero_mod]
      rw [unmap_go_zero_all_guarded a hPS a.ENTRY_COUNT len 0 hal hle,
        Option.map_some', List.take_zero, List.nil_append]
    · rw [flat_table_append, flat_table_replicate_available,
        flat_table_replicate_guarded]
      simp [pow_succ]
    · intro e he
      rcases List.mem_append.1 he with h | h
      · rw [List.eq_of_mem_replicate h]; rfl
      · rw [List.eq_of_mem_replicate h]; rfl
    · rw [List.length_append, List.length_replicate, List.length_replicate]
      omega
  | succ l ih =>
    have go_ag : ∀ (k len : Nat), len % a.PAGE_SIZE = 0 →
        len ≤ k * entry_vm_size a (l+1) →
        ∃ es2, unmap_go_succ a l (fun t s ln => rec_unmap a l t s ln)
            (List.replicate k .guarded) 0 len = some (es2, 0, []) ∧
          flat_table a (l+1) es2 =
            List.replicate (len / a.PAGE_SIZE) .Available ++
            List.replicate (k * a.ENTRY_COUNT ^ (l+1) - len / a.PAGE_SIZE)
              .Guarded ∧
          (∀ e ∈ es2, wf_entry a (l+1) e = true) ∧
          es2.length = k := by
      intro k
      induction k with
      | zero =>
        intro len hal hle
        rw [Nat.zero_mul] at hle
        have hl0 : len = 0 := by omega
        subst hl0
        refine ⟨[], ?_, ?_, by simp, rfl⟩
        · rw [unmap_go_succ_len_zero]
          simp
        · rw [Nat.zero_div]
          simp
      | succ k ihk =>
        intro len hal hle
        rcases Nat.eq_zero_or_pos len with hl0 | hl0
        · subst hl0
          refine ⟨List.replicate (k+1) .guarded, ?_, ?_, ?_, by simp⟩
          · rw [unmap_go_succ_len_zero]
          · rw [Nat.zero_div, flat_table_replicate_guarded]
            simp
          · intro e he
            rw [List.eq_of_mem_replicate he]
            rfl
        · have hevs : 0 < entry_vm_size a (l+1) := entry_vm_size_pos a (l+1) hEC hPS
          have hed : entry_vm_size a (l+1) / a.PAGE_SIZE = a.ENTRY_COUNT ^ (l+1) := by
            rw [entry_vm_size, Nat.mul_div_cancel _ hPS]
          have hcc : (k+1) * a.ENTRY_COUNT ^ (l+1) =
              k * a.ENTRY_COUNT ^ (l+1) + a.ENTRY_COUNT ^ (l+1) := by
            rw [Nat.succ_mul]
          rw [List.replicate_succ,
            unmap_go_succ_guarded a l _ (List.replicate k .guarded) 0 len (by omega)]
          by_cases hbig : entry_vm_size a (l+1) ≤ len
          · rw [if_pos hbig]
            have hal2 : (len - entry_vm_size a (l+1)) % a.PAGE_SIZE = 0 :=
              Nat.dvd_iff_mod_eq_zero.mp
                (Nat.dvd_sub' (Nat.dvd_of_mod_eq_zero hal)
                  (page_size_dvd_entry_vm_size a (l+1)))
            have hle2 : len - entry_vm_size a (l+1) ≤ k * entry_vm_size a (l+1) := by
              rw [Nat.succ_mul] at hle
              omega
            obtain ⟨es2, heq, hflat, hwf2, hlen2⟩ :=
              ihk (len - entry_vm_size a (l+1)) hal2 hle2
            refine ⟨.available :: es2, ?_, ?_, ?_, by simp [hlen2]⟩
            · rw [heq, Option.map_some']
            · rw [flat_table_cons, flat_entry_available, hflat]
              have hq : len / a.PAGE_SIZE = a.ENTRY_COUNT ^ (l+1) +
                  (len - entry_vm_size a (l+1)) / a.PAGE_SIZE := by
                have hsub2 : entry_vm_size a (l+1) +
                    (len - entry_vm_size a (l+1)) = len := by omega
                conv_lhs => rw [← hsub2]
                rw [dvd_add_div _ _ _ hPS (page_size_dvd_entry_vm_size a (l+1)), hed]
              have harith : (k+1) * a.ENTRY_COUNT ^ (l+1) -
                  (a.ENTRY_COUNT ^ (l+1) +
                    (len - entry_vm_size a (l+1)) / a.PAGE_SIZE) =
                  k * a.ENTRY_COUNT ^ (l+1) -
                  (len - entry_vm_size a (l+1)) / a.PAGE_SIZE := by
                omega
              rw [hq, List.replicate_add, List.append_assoc, harith]
            · intro e he
              rcases List.mem_cons.1 he with h | h
              · rw [h]; rfl
              · exact hwf2 e h
          · rw [if_neg hbig]
            have hlt : len < entry_vm_size a (l+1) := Nat.lt_of_not_le hbig
            have hle2 : len ≤ a.ENTRY_COUNT * entry_vm_size a l := by
              rw [← entry_vm_size_succ]
              omega
            obtain ⟨ct, hceq, hcflat, hcwf, hclen⟩ := ih len hal hle2
            have hqlt : len / a.PAGE_SIZE < a.ENTRY_COUNT ^ (l+1) := by
              have h := Nat.div_lt_div_of_lt_of_dvd
                (page_size_dvd_entry_vm_size a (l+1)) hlt
              rwa [hed] at h
            rw [hceq, Option.some_bind, unmap_go_succ_len_zero, Option.map_some']
            refine ⟨.child ct :: List.replicate k .guarded, rfl, ?_, ?_, by simp⟩
            · rw [flat_table_cons, flat_entry_child, hcflat,
                flat_table_replicate_guarded, List.append_assoc,
                ← List.replicate_add]
              have harith : a.ENTRY_COUNT ^ (l+1) - len / a.PAGE_SIZE +
                  k * a.ENTRY_COUNT ^ (l+1) =
                  (k+1) * a.ENTRY_COUNT ^ (l+1) - len / a.PAGE_SIZE := by
                omega
              rw [harith]
            · intro e he
              rcases List.mem_cons.1 he with h | h
              · rw [h]
                exact (wf_entry_child_iff a l ct).2 ⟨hclen, hcwf⟩
              · rw [List.eq_of_mem_replicate h]
                rfl
    intro len hal hle
    obtain ⟨es2, heq, hflat, hwf2, hlen2⟩ := go_ag a.ENTRY_COUNT len hal hle
    refine ⟨es2, ?_, ?_, hwf2, hlen2⟩
    · simp only [rec_unmap, Nat.zero_div, if_pos hEC, List.drop_zero, Nat.zero_mod]
      rw [heq, Option.map_some', List.take_zero, List.nil_append]
    · rw [hflat]
      have hpow : a.ENTRY_COUNT * a.ENTRY_COUNT ^ (l+1) =
          a.ENTRY_COUNT ^ (l+1+1) := (pow_succ' a.ENTRY_COUNT (l+1)).symm
      rw [hpow]

/-! ## Single-entry effects: clearing and splitting a huge guard, huge
guards on a full parent span -/

theorem set_eq_take_cons_drop {α : Type} (l : List α) (i : Nat) (x : α)
    (h : i < l.length) : l.set i x = l.take i ++ x :: l.drop (i+1) := by
  induction l generalizing i with
  | nil => simp at h
  | cons a t ih =>
    cases i with
    | zero => simp
    | succ i => simp [ih i (by simpa using h)]

theorem drop_eq_getD_cons {α : Type} (l : List α) (i : Nat) (d : α)
    (h : i < l.length) : l.drop i = l.getD i d :: l.drop (i+1) := by
  induction l generalizing i with
  | nil => simp at h
  | cons a t ih =>
    cases i with
    | zero => simp [List.getD]
    | succ i =>
      rw [List.drop_succ_cons, getD_cons_succ]
      exact ih i (by simpa using h)

/-- Unmapping a range of exactly one parent-entry span whose start lies
anywhere inside a Guarded parent entry (offset `off` into its span): the
code compares only the remaining length against the span, so the whole
guard is cleared outright and no callback fires, regardless of `off`. -/
theorem rec_unmap_guarded_cleared_outright (a : Arch) (hEC : 0 < a.ENTRY_COUNT)
    (hPS : 0 < a.PAGE_SIZE) (l : Nat) (t : List Entry) (i off : Nat)
    (hiEC : i < a.ENTRY_COUNT) (hit : i < t.length)
    (hg : t.getD i .available = .guarded)
    (hoff : off < entry_vm_size a (l+1)) :
    rec_unmap a (l+1) t (entry_vm_size a (l+1) * i + off) (entry_vm_size a (l+1)) =
      some (t.set i .available, 0, []) := by
  have hevs : 0 < entry_vm_size a (l+1) := entry_vm_size_pos a (l+1) hEC hPS
  have hdiv : (entry_vm_size a (l+1) * i + off) / entry_vm_size a (l+1) = i := by
    rw [Nat.mul_add_div hevs, Nat.div_eq_of_lt hoff, Nat.add_zero]
  have hmod : (entry_vm_size a (l+1) * i + off) % entry_vm_size a (l+1) = off := by
    rw [Nat.mul_add_mod, Nat.mod_eq_of_lt hoff]
  simp only [rec_unmap, hdiv, hmod, if_pos hiEC]
  rw [drop_eq_getD_cons t i .available hit, hg,
    unmap_go_succ_guarded a l _ (t.drop (i+1)) off (entry_vm_size a (l+1)) (by omega),
    if_pos (Nat.le_refl _), Nat.sub_self, unmap_go_succ_len_zero, Option.map_some',
    Option.map_some', set_eq_take_cons_drop t i _ hit]

/-- Unmapping a sub-span range starting at the base of a Guarded parent entry:
the guard is split into a fully Guarded child table, the recursion clears
exactly the requested pages inside it, and no callback fires. -/
theorem rec_unmap_guarded_split (a : Arch) (hEC : 0 < a.ENTRY_COUNT)
    (hPS : 0 < a.PAGE_SIZE) (l : Nat) (t : List Entry) (i len : Nat)
    (hiEC : i < a.ENTRY_COUNT) (hit : i < t.length)
    (hg : t.getD i .available = .guarded)
    (hl0 : 0 < len) (hlt : len < entry_vm_size a (l+1))
    (hal : len % a.PAGE_SIZE = 0) :
    ∃ ct, rec_unmap a (l+1) t (entry_vm_size a (l+1) * i) len =
        some (t.set i (.child ct), 0, []) ∧
      flat_table a l ct =
        List.replicate (len / a.PAGE_SIZE) .Available ++
        List.replicate (a.ENTRY_COUNT ^ (l+1) - len / a.PAGE_SIZE) .Guarded ∧
      (∀ e ∈ ct, wf_entry a l e = true) ∧ ct.length = a.ENTRY_COUNT := by
  have hevs : 0 < entry_vm_size a (l+1) := entry_vm_size_pos a (l+1) hEC hPS
  have hdiv : entry_vm_size a (l+1) * i / entry_vm_size a (l+1) = i :=
    Nat.mul_div_cancel_left _ hevs
  have hmod : entry_vm_size a (l+1) * i % entry_vm_size a (l+1) = 0 :=
    Nat.mul_mod_right _ _
  have hle : len ≤ a.ENTRY_COUNT * entry_vm_size a l := by
    rw [← entry_vm_size_succ]
    omega
  obtain ⟨ct, hceq, hcflat, hcwf, hclen⟩ :=
    rec_unmap_all_guarded a hEC hPS l len hal hle
  refine ⟨ct, ?_, hcflat, hcwf, hclen⟩
  simp only [rec_unmap, hdiv, hmod, if_pos hiEC]
  rw [drop_eq_getD_cons t i .available hit, hg,
    unmap_go_succ_guarded a l _ (t.drop (i+1)) 0 len (by omega),
    if_neg (by omega), hceq, Option.some_bind, unmap_go_succ_len_zero,
    Option.map_some', Option.map_some', set_eq_take_cons_drop t i _ hit]
  simp

/-- Guarding a range that exactly covers the span of one Available parent entry:
a single huge guard is written at the parent level, no child table is
created, and no other entry changes. -/
theorem rec_guard_full_span (a : Arch) (hEC : 0 < a.ENTRY_COUNT)
    (hPS : 0 < a.PAGE_SIZE) (l : Nat) (t : List Entry) (i : Nat)
    (hiEC : i < a.ENTRY_COUNT) (hit : i < t.length)
    (hg : t.getD i .guarded = .available) :
    rec_guard a (l+1) t (entry_vm_size a (l+1) * i) (entry_vm_size a (l+1)) =
      some (t.set i .guarded, 0) := by
  have hevs : 0 < entry_vm_size a (l+1) := entry_vm_size_pos a (l+1) hEC hPS
  have hdiv : entry_vm_size a (l+1) * i / entry_vm_size a (l+1) = i :=
    Nat.mul_div_cancel_left _ hevs
  have hmod : entry_vm_size a (l+1) * i % entry_vm_size a (l+1) = 0 :=
    Nat.mul_mod_right _ _
  simp only [rec_guard, hdiv, hmod, if_pos hiEC]
  rw [drop_eq_getD_cons t i .guarded hit, hg,
    guard_go_succ_available a l _ (t.drop (i+1)) 0 (entry_vm_size a (l+1)) (by omega),
    if_pos ⟨Nat.le_refl _, rfl⟩, Nat.sub_self, guard_go_succ_len_zero,
    Option.map_some', Option.map_some', set_eq_take_cons_drop t i _ hit]

/-! ## Helpers for the claim-level theorems -/

theorem window_replicate {α : Type} (P : List α) (d x : α) :
    ∀ (N sp : Nat), sp + N ≤ P.length →
      (∀ i, sp ≤ i → i < sp + N → P.getD i d = x) →
      (P.drop sp).take N = List.replicate N x := by
  intro N
  induction N with
  | zero =>
    intro sp h hw
    simp
  | succ N ih =>
    intro sp h hw
    rw [drop_eq_getD_cons P sp d (by omega), List.take_succ_cons,
      hw sp (by omega) (by omega),
      ih (sp+1) (by omega) (fun i h1 h2 => hw i (by omega) (by omega)),
      List.replicate_succ]

theorem take_window_drop {α : Type} (P : List α) (sp N : Nat) :
    P.take sp ++ ((P.drop sp).take N ++ P.drop (sp + N)) = P := by
  have h1 : (P.drop sp).drop N = P.drop (sp + N) := by
    rw [List.drop_drop, Nat.add_comm]
  rw [← h1, List.take_append_drop, List.take_append_drop]

theorem filterMap_page_frame_map_present (fr : List Nat) :
    (fr.map PageState.Present).filterMap page_frame = fr := by
  induction fr with
  | nil => rfl
  | cons f fs ih => simp [page_frame, ih]

theorem getD_map_present (fr : List Nat) :
    ∀ (j : Nat), j < fr.length →
      (fr.map PageState.Present).getD j .Guarded = .Present (fr.getD j 0) := by
  induction fr with
  | nil =>
    intro j h
    simp at h
  | cons f fs ih =>
    intro j h
    cases j with
    | zero => rfl
    | succ j =>
      rw [List.map_cons, getD_cons_succ, getD_cons_succ]
      exact ih j (by simpa using h)

/-! ## Claim C2: map followed by unmap is a roundtrip -/

/-- C2: on a hierarchy in which the `fr.length` pages starting at the
page-aligned address `A` are all Available, `map_to_from_iterator` with an
iterator yielding the frames `fr` consumes the whole iterator, and a
subsequent `unmap` of the same range reports exactly the frames `fr`, in
that (ascending virtual address) order, and restores every page of the
range to Available. -/
theorem C2_map_unmap_roundtrip (a : Arch) (hEC : 0 < a.ENTRY_COUNT)
    (hPS : 0 < a.PAGE_SIZE) (level : Nat) (t : List Entry) (fr : List Nat) (A : Nat)
    (hwf : ∀ e ∈ t, wf_entry a level e = true)
    (hal : A % a.PAGE_SIZE = 0)
    (hlt : A < a.ENTRY_COUNT * entry_vm_size a level)
    (hin : A / a.PAGE_SIZE + fr.length ≤ (flat_table a level t).length)
    (hwin : ∀ i, A / a.PAGE_SIZE ≤ i → i < A / a.PAGE_SIZE + fr.length →
      (flat_table a level t).getD i .Guarded = .Available) :
    ∃ t2, map_to_from_iterator a level t fr A = some (t2, []) ∧
      ∃ t3, unmap a level t2 A (fr.length * a.PAGE_SIZE) = some (t3, 0, fr) ∧
        flat_table a level t3 = flat_table a level t := by
  have hmin : min fr.length ((flat_table a level t).length - A / a.PAGE_SIZE) =
      fr.length := by omega
  obtain ⟨t2, heq2, hflat2, hwf2, hlen2⟩ :=
    rec_map_to_spec a hEC hPS level t fr A hwf hal hlt
      (by
        intro i h1 h2
        exact hwin i h1 (by omega))
  rw [hmin, List.drop_length] at heq2
  rw [hmin, List.take_length] at hflat2
  have hPlen2 : (flat_table a level t2).length = (flat_table a level t).length := by
    rw [length_flat_table a level t2 hwf2, length_flat_table a level t hwf, hlen2]
  have hlal : (fr.length * a.PAGE_SIZE) % a.PAGE_SIZE = 0 := Nat.mul_mod_left _ _
  have hldiv : fr.length * a.PAGE_SIZE / a.PAGE_SIZE = fr.length :=
    Nat.mul_div_cancel _ hPS
  have htksp : ((flat_table a level t).take (A / a.PAGE_SIZE)).length =
      A / a.PAGE_SIZE := by
    rw [List.length_take]
    omega
  have hdropsp : (flat_table a level t2).drop (A / a.PAGE_SIZE) =
      fr.map PageState.Present ++
        (flat_table a level t).drop (A / a.PAGE_SIZE + fr.length) := by
    rw [hflat2, List.append_assoc]
    have h := List.drop_left ((flat_table a level t).take (A / a.PAGE_SIZE))
      (fr.map PageState.Present ++
        (flat_table a level t).drop (A / a.PAGE_SIZE + fr.length))
    rwa [htksp] at h
  obtain ⟨t3, heq3, hflat3, hwf3, hlen3⟩ :=
    rec_unmap_spec a hEC hPS level t2 (fr.length * a.PAGE_SIZE) A hwf2 hal hlal hlt
      (by
        intro i h1 h2
        rw [hldiv, hPlen2, hmin] at h2
        have hj : i - A / a.PAGE_SIZE < fr.length := by omega
        have hgd : (flat_table a level t2).getD i .Guarded =
            (fr.map PageState.Present).getD (i - A / a.PAGE_SIZE) .Guarded := by
          rw [hflat2, getD_append_left _ _ _ _ (by
            rw [List.length_append, htksp, List.length_map]
            omega)]
          have hi : i = A / a.PAGE_SIZE + (i - A / a.PAGE_SIZE) := by omega
          have hgr := getD_append_right PageState.Guarded
            ((flat_table a level t).take (A / a.PAGE_SIZE))
            (fr.map PageState.Present) (i - A / a.PAGE_SIZE)
          rw [htksp, ← hi] at hgr
          exact hgr
        exact ⟨fr.getD (i - A / a.PAGE_SIZE) 0,
          by rw [hgd, getD_map_present fr _ hj]⟩)
  rw [hldiv, hPlen2, hmin, Nat.sub_self, hdropsp] at heq3
  rw [hldiv, hPlen2, hmin] at hflat3
  have htkmap : (fr.map PageState.Present ++
      (flat_table a level t).drop (A / a.PAGE_SIZE + fr.length)).take fr.length =
      fr.map PageState.Present := by
    have h := List.take_left (fr.map PageState.Present)
      ((flat_table a level t).drop (A / a.PAGE_SIZE + fr.length))
    rwa [List.length_map] at h
  rw [htkmap, filterMap_page_frame_map_present] at heq3
  refine ⟨t2, ?_, t3, ?_, ?_⟩
  · simp only [map_to_from_iterator, if_pos hal]
    exact heq2
  · simp only [unmap, if_pos (And.intro hal hlal)]
    exact heq3
  · have htk2 : (flat_table a level t2).take (A / a.PAGE_SIZE) =
        (flat_table a level t).take (A / a.PAGE_SIZE) := by
      rw [hflat2, List.append_assoc]
      have h := List.take_left ((flat_table a level t).take (A / a.PAGE_SIZE))
        (fr.map PageState.Present ++
          (flat_table a level t).drop (A / a.PAGE_SIZE + fr.length))
      rw [htksp] at h
      rw [h]
    have hdr2 : (flat_table a level t2).drop (A / a.PAGE_SIZE + fr.length) =
        (flat_table a level t).drop (A / a.PAGE_SIZE + fr.length) := by
      rw [hflat2]
      have h := List.drop_left
        ((flat_table a level t).take (A / a.PAGE_SIZE) ++ fr.map PageState.Present)
        ((flat_table a level t).drop (A / a.PAGE_SIZE + fr.length))
      rw [List.length_append, htksp, List.length_map] at h
      rw [h]
    have hwinrep : ((flat_table a level t).drop (A / a.PAGE_SIZE)).take fr.length =
        List.replicate fr.length PageState.Available :=
      window_replicate _ _ _ fr.length (A / a.PAGE_SIZE) hin hwin
    rw [hflat3, htk2, hdr2, ← hwinrep, List.append_assoc, take_window_drop]

/-! ## Claim C5: guard then unmap of an Available range -/

/-- C5: on a hierarchy in which the pages of `[A, A+L)` are all Available
(`A` and `L` page-aligned, the range inside the table), `guard(A, L)`
succeeds with no length remaining, and a subsequent `unmap(A, L)` of the
identical range succeeds, invokes the callback on no physical address, and
leaves the page-level view exactly as before the guard: every page of the
range is Available again. -/
theorem C5_guard_unmap_roundtrip (a : Arch) (hEC : 0 < a.ENTRY_COUNT)
    (hPS : 0 < a.PAGE_SIZE) (level : Nat) (t : List Entry) (A L : Nat)
    (hwf : ∀ e ∈ t, wf_entry a level e = true)
    (hal : A % a.PAGE_SIZE = 0) (hlal : L % a.PAGE_SIZE = 0)
    (hlt : A < a.ENTRY_COUNT * entry_vm_size a level)
    (hoff : A / entry_vm_size a level ≤ t.length)
    (hin : A / a.PAGE_SIZE + L / a.PAGE_SIZE ≤ (flat_table a level t).length)
    (hwin : ∀ i, A / a.PAGE_SIZE ≤ i → i < A / a.PAGE_SIZE + L / a.PAGE_SIZE →
      (flat_table a level t).getD i .Guarded = .Available) :
    ∃ t2, guard a level t A L = some (t2, 0) ∧
      ∃ t3, unmap a level t2 A L = some (t3, 0, []) ∧
        flat_table a level t3 = flat_table a level t := by
  have hmin : min (L / a.PAGE_SIZE)
      ((flat_table a level t).length - A / a.PAGE_SIZE) = L / a.PAGE_SIZE := by
    omega
  have hL : L / a.PAGE_SIZE * a.PAGE_SIZE = L :=
    Nat.div_mul_cancel (Nat.dvd_of_mod_eq_zero hlal)
  obtain ⟨t2, heq2, hflat2, hwf2, hlen2, t3, heq3, hflat3, hwf3, hlen3⟩ :=
    rec_guard_unmap_spec a hEC hPS level t L A hwf hal hlal hlt hoff
      (by
        intro i h1 h2
        exact hwin i h1 (by omega))
  rw [hmin, hL, Nat.sub_self] at heq2 heq3
  refine ⟨t2, ?_, t3, ?_, hflat3⟩
  · simp only [guard, if_pos (And.intro hal hlal)]
    exact heq2
  · simp only [unmap, if_pos (And.intro hal hlal)]
    exact heq3

/-! ## Claim C1: the hole search over-counts across obstructions -/

/-- C1: refuted by execution.  In a 2-level hierarchy (`ENTRY_COUNT = 4`,
`PAGE_SIZE = 0x1000`) whose page 4 (address `0x4000`) is Present,
`find_available_virtual_space_aligned(0x4000, 0x1000, 0x5000, 0x1000)`
returns `some 0x1000`, although the returned run `[0x1000, 0x5000)` contains
the Present page at `0x4000`: the scan grows the hole by an Available entry
whole `entry_vm_size` even when the hole starts mid-entry (here the hole
starts at `0x1000`, yet entry 0 of the top table credits it all of
`[0x0, 0x4000)`), so the hole is deemed `0x4000` long while only `0x3000`
of it lies inside the Available span, and the claimed guarantee "whenever
it returns `Some(x)`, every page in `[x, x+L)` is Available" does not
hold. -/
theorem C1_find_returns_obstructed_hole :
    find_available_virtual_space_aligned ⟨4, 0x1000⟩ 1
      [.available, .child [.frame 0xAAAA000, .available, .available, .available],
       .available, .available] 0x4000 0x1000 0x5000 0x1000 = some 0x1000 ∧
    (flat_table ⟨4, 0x1000⟩ 1
        [.available, .child [.frame 0xAAAA000, .available, .available, .available],
         .available, .available]).getD 4 .Available = .Present 0xAAAA000 :=
  ⟨rfl, rfl⟩

/-! ## Claim C3: Guarded entries under unmap -/

/-- C3 counterexample: a huge guard spanning `[0, 0x4000)` is hit by
`unmap(0x2000, 0x4000)`, whose range starts at a non-zero offset within the
span of the guard, so the claim requires a split keeping `[0, 0x2000)` Guarded.
The code compares only the remaining length against the span and clears the
whole guard outright: afterwards page 0 is Available, not Guarded, and no
split child was created. -/
theorem C3_partial_overlap_not_split :
    unmap ⟨4, 0x1000⟩ 1 [.guarded, .available, .available, .available]
        0x2000 0x4000 =
      some ([.available, .available, .available, .available], 0, []) ∧
    (flat_table ⟨4, 0x1000⟩ 1
        [.available, .available, .available, .available]).getD 0 .Guarded =
      .Available :=
  ⟨rfl, rfl⟩

/-- C3 (amended): during `unmap`, a Guarded entry is cleared outright —
set Available, callback not invoked — whenever the remaining length is at
least the `entry_vm_size` span of the entry, even when the range starts at a
non-zero offset inside the span (so the part of the span before the range
start is cleared too); a Guarded entry is split only when the remaining
length is smaller than its span: for a range starting at the base of the guard,
the guard becomes a child table whose first `len / PAGE_SIZE` pages are
Available and whose remaining pages are all still Guarded, with no callback
invoked either way. -/
theorem C3_guard_cleared_or_split (a : Arch) (hEC : 0 < a.ENTRY_COUNT)
    (hPS : 0 < a.PAGE_SIZE) (l : Nat) (t : List Entry) (i : Nat)
    (hiEC : i < a.ENTRY_COUNT) (hit : i < t.length)
    (hg : t.getD i .available = .guarded) :
    (∀ off, off < entry_vm_size a (l+1) → off % a.PAGE_SIZE = 0 →
      unmap a (l+1) t (entry_vm_size a (l+1) * i + off) (entry_vm_size a (l+1)) =
        some (t.set i .available, 0, [])) ∧
    (∀ len, 0 < len → len < entry_vm_size a (l+1) → len % a.PAGE_SIZE = 0 →
      ∃ ct, unmap a (l+1) t (entry_vm_size a (l+1) * i) len =
          some (t.set i (.child ct), 0, []) ∧
        flat_table a l ct =
          List.replicate (len / a.PAGE_SIZE) .Available ++
          List.replicate (a.ENTRY_COUNT ^ (l+1) - len / a.PAGE_SIZE) .Guarded) := by
  have hevdvd : a.PAGE_SIZE ∣ entry_vm_size a (l+1) :=
    page_size_dvd_entry_vm_size a (l+1)
  have heval : entry_vm_size a (l+1) % a.PAGE_SIZE = 0 :=
    Nat.dvd_iff_mod_eq_zero.mp hevdvd
  have hmulal : entry_vm_size a (l+1) * i % a.PAGE_SIZE = 0 :=
    Nat.dvd_iff_mod_eq_zero.mp (hevdvd.mul_right i)
  constructor
  · intro off hofflt hoffal
    have haddr : (entry_vm_size a (l+1) * i + off) % a.PAGE_SIZE = 0 := by
      rw [Nat.add_mod, hmulal, hoffal]
      simp
    simp only [unmap, if_pos (And.intro haddr heval)]
    exact rec_unmap_guarded_cleared_outright a hEC hPS l t i off hiEC hit hg hofflt
  · intro len hl0 hlt hal
    obtain ⟨ct, hceq, hcflat, hcwf, hclen⟩ :=
      rec_unmap_guarded_split a hEC hPS l t i len hiEC hit hg hl0 hlt hal
    refine ⟨ct, ?_, hcflat⟩
    simp only [unmap, if_pos (And.intro hmulal hal)]
    exact hceq

/-! ## Claim C4: huge guards -/

/-- C4: during `guard`, an Available entry whose whole span is inside the
remaining range (offset zero, remaining length at least `entry_vm_size`)
becomes a single Guarded entry at that level — no child table is created
for it; in particular, guarding a range that exactly covers one full parent
entry span writes exactly one Guarded entry at the parent level and
changes nothing else. -/
theorem C4_huge_guard_single_entry (a : Arch) (hEC : 0 < a.ENTRY_COUNT)
    (hPS : 0 < a.PAGE_SIZE) (l : Nat) :
    (∀ (recLower : List Entry → Nat → Nat → Option (List Entry × Nat))
        (rest : List Entry) (len : Nat), entry_vm_size a (l+1) ≤ len →
      guard_go_succ a l recLower (.available :: rest) 0 len =
        (guard_go_succ a l recLower rest 0 (len - entry_vm_size a (l+1))).map
          fun r => (.guarded :: r.1, r.2)) ∧
    (∀ (t : List Entry) (i : Nat), i < a.ENTRY_COUNT → i < t.length →
        t.getD i .guarded = .available →
      guard a (l+1) t (entry_vm_size a (l+1) * i) (entry_vm_size a (l+1)) =
        some (t.set i .guarded, 0)) := by
  have hevs : 0 < entry_vm_size a (l+1) := entry_vm_size_pos a (l+1) hEC hPS
  constructor
  · intro recLower rest len hle
    rw [guard_go_succ_available a l recLower rest 0 len (by omega),
      if_pos (And.intro hle rfl)]
  · intro t i hiEC hit hg
    have heval : entry_vm_size a (l+1) % a.PAGE_SIZE = 0 :=
      Nat.dvd_iff_mod_eq_zero.mp (page_size_dvd_entry_vm_size a (l+1))
    have hmulal : entry_vm_size a (l+1) * i % a.PAGE_SIZE = 0 :=
      Nat.dvd_iff_mod_eq_zero.mp
        ((page_size_dvd_entry_vm_size a (l+1)).mul_right i)
    simp only [guard, if_pos (And.intro hmulal heval)]
    exact rec_guard_full_span a hEC hPS l t i hiEC hit hg

/-! ## Claim C6: misaligned arguments are rejected up front -/

/-- C6: each exposed operation checks its address, length and alignment
arguments against `PAGE_SIZE` before touching any entry: a misaligned
argument makes the whole call fail (`none` in the embedding, a panic
via `assert!` in the code) with the hierarchy returned unchanged — the operations
below all reject without producing any updated table. -/
theorem C6_misaligned_arguments_rejected (a : Arch) (level : Nat)
    (t : List Entry) (fr : List Nat)
    (address len alignment start_addr end_addr : Nat) :
    (address % a.PAGE_SIZE ≠ 0 →
      map_to_from_iterator a level t fr address = none) ∧
    (address % a.PAGE_SIZE ≠ 0 ∨ len % a.PAGE_SIZE ≠ 0 →
      guard a level t address len = none) ∧
    (address % a.PAGE_SIZE ≠ 0 ∨ len % a.PAGE_SIZE ≠ 0 →
      unmap a level t address len = none) ∧
    (address % a.PAGE_SIZE ≠ 0 ∨ len % a.PAGE_SIZE ≠ 0 →
      for_every_entry a level t address len = none) ∧
    (start_addr % a.PAGE_SIZE ≠ 0 ∨ len % a.PAGE_SIZE ≠ 0 ∨
        alignment % a.PAGE_SIZE ≠ 0 →
      find_available_virtual_space_aligned a level t len start_addr end_addr
        alignment = none) := by
  refine ⟨?_, ?_, ?_, ?_, ?_⟩
  · intro h
    simp only [map_to_from_iterator, if_neg h]
  · intro h
    simp only [guard]
    rw [if_neg (by tauto)]
  · intro h
    simp only [unmap]
    rw [if_neg (by tauto)]
  · intro h
    simp only [for_every_entry]
    rw [if_neg (by tauto)]
  · intro h
    simp only [find_available_virtual_space_aligned]
    rw [if_neg (by tauto)]

/-! ## Claim C7: the concrete 2-level scenario -/

/-- C7: in a 2-level hierarchy with `ENTRY_COUNT = 4` and
`PAGE_SIZE = 0x1000`, mapping frames `0x1000` and `0x2000` at leaf indices
0 and 1, guarding the single page at leaf index 2, and then running
`for_every_entry` over the 4-entry span of the leaf table invokes the callback
exactly four times, in order, with
`(Present 0x1000, 0x1000), (Present 0x2000, 0x1000), (Guarded, 0x1000),
(Available, 0x1000)` and no length remaining. -/
theorem C7_two_level_scenario :
    ((map_to_from_iterator ⟨4, 0x1000⟩ 1
        [.available, .available, .available, .available] [0x1000, 0x2000] 0).bind
      fun r1 => (guard ⟨4, 0x1000⟩ 1 r1.1 0x2000 0x1000).bind
      fun r2 => for_every_entry ⟨4, 0x1000⟩ 1 r2.1 0 0x4000) =
      some (0, [(.Present 0x1000, 0x1000), (.Present 0x2000, 0x1000),
                (.Guarded, 0x1000), (.Available, 0x1000)]) := rfl

/-! ## Claim C8: for_every_entry is a pure traversal -/

/-- C8: `for_every_entry` over a well-formed hierarchy (the embedding is a
pure function of the table, encoding that no entry is modified) succeeds,
invoking the callback once per visited entry with the state of that entry and
the `entry_vm_size` of the level the entry was visited at; Present entries
above level 0 are recursed into rather than reported; the remaining length
is decreased per callback with saturating subtraction, ending at
`len - sum_of_spans`; the reported states, expanded page by page, are
exactly an initial segment of the page-level view of the tree, and the
whole tree was covered whenever length remains. -/
theorem C8_for_every_entry_traversal (a : Arch) (hEC : 0 < a.ENTRY_COUNT)
    (hPS : 0 < a.PAGE_SIZE) (level : Nat) (t : List Entry) (len : Nat)
    (hwf : ∀ e ∈ t, wf_entry a level e = true)
    (hlal : len % a.PAGE_SIZE = 0) :
    ∃ cls, for_every_entry a level t 0 len =
        some (len - (cls.map Prod.snd).sum, cls) ∧
      (∀ c ∈ cls, ∃ lv, lv ≤ level ∧ c.2 = entry_vm_size a lv) ∧
      expand_calls a cls =
        (flat_table a level t).take ((cls.map Prod.snd).sum / a.PAGE_SIZE) ∧
      (0 < len - (cls.map Prod.snd).sum →
        (cls.map Prod.snd).sum / a.PAGE_SIZE = (flat_table a level t).length) := by
  have h0 : (0:Nat) < a.ENTRY_COUNT * entry_vm_size a level :=
    Nat.mul_pos hEC (entry_vm_size_pos a level hEC hPS)
  obtain ⟨cls, heq, hsp, hcond⟩ := rec_iter_spec a hEC hPS level t 0 len hwf h0
  obtain ⟨hexp, hend⟩ := hcond rfl
  refine ⟨cls, ?_, hsp, hexp, hend⟩
  rw [for_every_entry_eq_rec_iter a level t 0 len (Nat.zero_mod _) hlal]
  exact heq

/-! ## Claim C9: destroy frees exactly the RecursiveTablesLand range -/

/-- C9: `destroy` runs `unmap` over exactly the `RecursiveTablesLand`
range of the address space (modelled from the spec as the `rtl_start` and
`rtl_length` fields of the `lands` structure, the module itself not being in
the verified sources), with a callback that rebuilds from every Present
frame found there a one-page physical region `(frame, PAGE_SIZE)`; the
pages before and after the range keep their page-level states — the
user-land and kernel-land ranges, which the caller must already have
unmapped, are not touched. -/
theorem C9_destroy_frees_rtl (a : Arch) (hEC : 0 < a.ENTRY_COUNT)
    (hPS : 0 < a.PAGE_SIZE) (level : Nat) (t : List Entry) (lands : Lands)
    (hwf : ∀ e ∈ t, wf_entry a level e = true)
    (hal : lands.rtl_start % a.PAGE_SIZE = 0)
    (hlal : lands.rtl_length % a.PAGE_SIZE = 0)
    (hlt : lands.rtl_start < a.ENTRY_COUNT * entry_vm_size a level)
    (hin : lands.rtl_start / a.PAGE_SIZE + lands.rtl_length / a.PAGE_SIZE ≤
      (flat_table a level t).length)
    (hwin : ∀ i, lands.rtl_start / a.PAGE_SIZE ≤ i →
      i < lands.rtl_start / a.PAGE_SIZE + lands.rtl_length / a.PAGE_SIZE →
      ∃ p, (flat_table a level t).getD i .Guarded = .Present p) :
    ∃ t2, destroy a level t lands =
        some (t2, 0,
          (((flat_table a level t).drop
              (lands.rtl_start / a.PAGE_SIZE)).take
            (lands.rtl_length / a.PAGE_SIZE)).filterMap page_frame |>.map
            fun p => (p, a.PAGE_SIZE)) ∧
      flat_table a level t2 =
        (flat_table a level t).take (lands.rtl_start / a.PAGE_SIZE) ++
        List.replicate (lands.rtl_length / a.PAGE_SIZE) .Available ++
        (flat_table a level t).drop
          (lands.rtl_start / a.PAGE_SIZE + lands.rtl_length / a.PAGE_SIZE) := by
  have hmin : min (lands.rtl_length / a.PAGE_SIZE)
      ((flat_table a level t).length - lands.rtl_start / a.PAGE_SIZE) =
      lands.rtl_length / a.PAGE_SIZE := by
    omega
  have hL : lands.rtl_length / a.PAGE_SIZE * a.PAGE_SIZE = lands.rtl_length :=
    Nat.div_mul_cancel (Nat.dvd_of_mod_eq_zero hlal)
  obtain ⟨t2, heq, hflat, hwf2, hlen2⟩ :=
    rec_unmap_spec a hEC hPS level t lands.rtl_length lands.rtl_start hwf hal
      hlal hlt
      (by
        intro i h1 h2
        exact hwin i h1 (by omega))
  rw [hmin, hL, Nat.sub_self] at heq
  rw [hmin] at hflat
  refine ⟨t2, ?_, hflat⟩
  simp only [destroy, unmap, if_pos (And.intro hal hlal)]
  rw [heq, Option.map_some']

/-! ## Claim C10: an empty iterator maps nothing -/

/-- C10: `map_to_from_iterator` with an iterator yielding no physical
frames returns the hierarchy unchanged — the iterator is peeked before any
entry is acted on, so at both table levels the walk returns the remaining
table untouched the moment the frame list is empty (also mid-walk), no
child table is created and no entry is set Present. -/
theorem C10_empty_iterator_maps_nothing (a : Arch) (level : Nat)
    (t : List Entry) (start : Nat) (hal : start % a.PAGE_SIZE = 0)
    (hoff : start / entry_vm_size a level < a.ENTRY_COUNT) :
    (∀ es, map_go_zero a es [] = some (es, [])) ∧
    (∀ (l : Nat)
        (recLower : List Entry → List Nat → Nat → Option (List Entry × List Nat))
        (es : List Entry) (cs : Nat),
      map_go_succ a l recLower es [] cs = some (es, [])) ∧
    map_to_from_iterator a level t [] start = some (t, []) := by
  have hgo0 : ∀ es, map_go_zero a es [] = some (es, []) := by
    intro es
    cases es <;> rfl
  have hgos : ∀ (l : Nat)
      (recLower : List Entry → List Nat → Nat → Option (List Entry × List Nat))
      (es : List Entry) (cs : Nat),
      map_go_succ a l recLower es [] cs = some (es, []) := by
    intro l recLower es cs
    cases es <;> rfl
  refine ⟨hgo0, hgos, ?_⟩
  cases level with
  | zero =>
    simp only [map_to_from_iterator, if_pos hal, rec_map_to, if_pos hoff]
    rw [hgo0, Option.map_some', List.take_append_drop]
  | succ l =>
    simp only [map_to_from_iterator, if_pos hal, rec_map_to, if_pos hoff]
    rw [hgos, Option.map_some', List.take_append_drop]

/-! ## Witnesses: the claim theorems applied at concrete inputs -/

theorem C2_map_unmap_roundtrip_witness :
    ∃ t2, map_to_from_iterator ⟨4, 0x1000⟩ 1
        [.available, .available, .available, .available] [0xA000, 0xB000]
        0x1000 = some (t2, []) ∧
      ∃ t3, unmap ⟨4, 0x1000⟩ 1 t2 0x1000 0x2000 =
          some (t3, 0, [0xA000, 0xB000]) ∧
        flat_table ⟨4, 0x1000⟩ 1 t3 =
          flat_table ⟨4, 0x1000⟩ 1
            [.available, .available, .available, .available] :=
  C2_map_unmap_roundtrip ⟨4, 0x1000⟩ (by decide) (by decide) 1
    [.available, .available, .available, .available] [0xA000, 0xB000] 0x1000
    (by decide) (by decide) (by decide) (by decide)
    (by
      intro i h1 h2
      have h1b : 1 ≤ i := h1
      have h2b : i < 3 := h2
      interval_cases i <;> rfl)

theorem C3_guard_cleared_or_split_witness :
    unmap ⟨4, 0x1000⟩ 1 [.guarded, .available, .available, .available]
        0x1000 0x4000 =
      some ([.available, .available, .available, .available], 0, []) :=
  (C3_guard_cleared_or_split ⟨4, 0x1000⟩ (by decide) (by decide) 0
    [.guarded, .available, .available, .available] 0 (by decide) (by decide)
    rfl).1 0x1000 (by decide) (by decide)

theorem C4_huge_guard_single_entry_witness :
    guard ⟨4, 0x1000⟩ 1 [.available, .available, .available, .available]
        0x4000 0x4000 =
      some ([.available, .guarded, .available, .available], 0) :=
  (C4_huge_guard_single_entry ⟨4, 0x1000⟩ (by decide) (by decide) 0).2
    [.available, .available, .available, .available] 1 (by decide) (by decide)
    rfl

theorem C5_guard_unmap_roundtrip_witness :
    ∃ t2, guard ⟨4, 0x1000⟩ 1 [.available, .available, .available, .available]
        0x1000 0x2000 = some (t2, 0) ∧
      ∃ t3, unmap ⟨4, 0x1000⟩ 1 t2 0x1000 0x2000 = some (t3, 0, []) ∧
        flat_table ⟨4, 0x1000⟩ 1 t3 =
          flat_table ⟨4, 0x1000⟩ 1
            [.available, .available, .available, .available] :=
  C5_guard_unmap_roundtrip ⟨4, 0x1000⟩ (by decide) (by decide) 1
    [.available, .available, .available, .available] 0x1000 0x2000
    (by decide) (by decide) (by decide) (by decide) (by decide) (by decide)
    (by
      intro i h1 h2
      have h1b : 1 ≤ i := h1
      have h2b : i < 3 := h2
      interval_cases i <;> rfl)

theorem C8_for_every_entry_traversal_witness :
    ∃ cls, for_every_entry ⟨4, 0x1000⟩ 1
        [.guarded, .available, .available, .available] 0 0x4000 =
        some (0x4000 - (cls.map Prod.snd).sum, cls) ∧
      (∀ c ∈ cls, ∃ lv, lv ≤ 1 ∧ c.2 = entry_vm_size ⟨4, 0x1000⟩ lv) ∧
      expand_calls ⟨4, 0x1000⟩ cls =
        (flat_table ⟨4, 0x1000⟩ 1
          [.guarded, .available, .available, .available]).take
          ((cls.map Prod.snd).sum / 0x1000) ∧
      (0 < 0x4000 - (cls.map Prod.snd).sum →
        (cls.map Prod.snd).sum / 0x1000 =
          (flat_table ⟨4, 0x1000⟩ 1
            [.guarded, .available, .available, .available]).length) :=
  C8_for_every_entry_traversal ⟨4, 0x1000⟩ (by decide) (by decide) 1
    [.guarded, .available, .available, .available] 0x4000 (by decide) (by decide)

theorem C9_destroy_frees_rtl_witness :
    ∃ t2, destroy ⟨4, 0x1000⟩ 1
        [.available, .child [.frame 0xA000, .frame 0xB000, .available,
          .available], .available, .available] ⟨0x4000, 0x2000, 0, 0, 0x8000, 0⟩ =
        some (t2, 0,
          ((((flat_table ⟨4, 0x1000⟩ 1
              [.available, .child [.frame 0xA000, .frame 0xB000, .available,
                .available], .available, .available]).drop 4).take 2).filterMap
            page_frame).map fun p => (p, 0x1000)) ∧
      flat_table ⟨4, 0x1000⟩ 1 t2 =
        (flat_table ⟨4, 0x1000⟩ 1
          [.available, .child [.frame 0xA000, .frame 0xB000, .available,
            .available], .available, .available]).take 4 ++
        List.replicate 2 .Available ++
        (flat_table ⟨4, 0x1000⟩ 1
          [.available, .child [.frame 0xA000, .frame 0xB000, .available,
            .available], .available, .available]).drop 6 :=
  C9_destroy_frees_rtl ⟨4, 0x1000⟩ (by decide) (by decide) 1
    [.available, .child [.frame 0xA000, .frame 0xB000, .available, .available],
     .available, .available] ⟨0x4000, 0x2000, 0, 0, 0x8000, 0⟩
    (by decide) (by decide) (by decide) (by decide) (by decide)
    (by
      intro i h1 h2
      have h1b : 4 ≤ i := h1
      have h2b : i < 6 := h2
      interval_cases i
      · exact ⟨0xA000, rfl⟩
      · exact ⟨0xB000, rfl⟩)

theorem C10_empty_iterator_maps_nothing_witness :
    map_to_from_iterator ⟨4, 0x1000⟩ 1
        [.available, .guarded, .available, .available] [] 0x2000 =
      some ([.available, .guarded, .available, .available], []) :=
  (C10_empty_iterator_maps_nothing ⟨4, 0x1000⟩ 1
    [.available, .guarded, .available, .available] 0x2000 (by decide)
    (by decide)).2.2

-- Sanity checks of the embedding on small concrete inputs (2-level tree,

-- ENTRY_COUNT = 4, PAGE_SIZE = 0x1000).

theorem sanity_map_two_pages :
    map_to_from_iterator ⟨4, 0x1000⟩ 1
      [.available, .available, .available, .available] [0x1000, 0x2000] 0 =
    some ([.child [.frame 0x1000, .frame 0x2000, .available, .available],
           .available, .available, .available], []) := rfl

theorem sanity_guard_full_span :
    guard ⟨4, 0x1000⟩ 1
      [.available, .available, .available, .available] 0x4000 0x4000 =
    some ([.available, .guarded, .available, .available], 0) := rfl

theorem sanity_unmap_three_pages :
    unmap ⟨4, 0x1000⟩ 1
      [.child [.frame 0x1000, .frame 0x2000, .guarded, .available],
       .available, .available, .available] 0 0x3000 =
    some ([.child [.available, .available, .available, .available],
           .available, .available, .available], 0, [0x1000, 0x2000]) := rfl

-- The huge-guard overclear: unmapping [0x2000, 0x6000) over a huge guard
-- spanning [0, 0x4000) clears the whole guard and stops.
theorem sanity_unmap_huge_guard_overclear :
    unmap ⟨4, 0x1000⟩ 1
      [.guarded, .available, .available, .available] 0x2000 0x4000 =
    some ([.available, .available, .available, .available], 0, []) := rfl

theorem sanity_for_every_entry_leaf :
    for_every_entry ⟨4, 0x1000⟩ 1
      [.child [.frame 0x1000, .frame 0x2000, .guarded, .available],
       .available, .available, .available] 0 0x4000 =
    some (0, [(.Present 0x1000, 0x1000), (.Present 0x2000, 0x1000),
              (.Guarded, 0x1000), (.Available, 0x1000)]) := rfl

-- The hole-overcount: entry 0 of the top table is fully Available, page
-- 0x4000 is Present; searching for a 0x4000-long hole from 0x1000 still
-- returns 0x1000 although [0x1000, 0x5000) contains the Present page.
theorem sanity_find_overcount :
    find_available_virtual_space_aligned ⟨4, 0x1000⟩ 1
      [.available, .child [.frame 0xAAAA000, .available, .available, .available],
       .available, .available] 0x4000 0x1000 0x5000 0x1000 =
    some 0x1000 := rfl

end KFS
